import Mathlib

/-!
# The mx envelope: a shallow embedding and its verified properties

The definitions below follow `runtime/envelope/envelope.go` and
`runtime/weavelet.go` of `sh3lk/mx`.  Go values are modelled by plain data:

* an `error` interface value is an `Option GoError` (`none` is `nil`);
* a pointer that the code tests against `nil` is an `Option`;
* the outside world (file system, sockets, the child process, the handler)
  is a record of the answers it gives during one execution, and the effects
  the code has on it are written to an event list.
-/

namespace Mx

/-! ## Go errors -/

/-- The `version.SemVer` struct: three Go `int` fields. -/
structure SemVer where
  Major : Int
  Minor : Int
  Patch : Int
deriving DecidableEq, Repr

/-- Error values that the envelope code creates or passes on. -/
inductive GoError where
  /-- The value `io.EOF`. -/
  | EOF
  /-- The value `context.Canceled`. -/
  | Canceled
  /-- The value `context.DeadlineExceeded`. -/
  | DeadlineExceeded
  /-- The `*exec.ExitError` of a child that left with a non-zero status. -/
  | ExitError (code : Int)
  /-- An error made by `fmt.Errorf` from a fixed text. -/
  | Errorf (msg : String)
  /-- The error `fmt.Errorf("version mismatch: ... %s ... %s", deployer, got)`. -/
  | VersionMismatch (deployer got : SemVer)
  /-- An error made by `fmt.Errorf("<msg>: %w", inner)`. -/
  | Wrap (msg : String) (inner : GoError)
  /-- Any other error produced outside the envelope (handler, transport, OS). -/
  | Other (msg : String)
deriving DecidableEq, Repr

/-! ## Protocol messages (package `protos`) -/

/-- The message `protos.MXNArgs_Redirect`. -/
structure Redirect where
  Component : String
  Target : String
  Address : String
deriving DecidableEq, Repr

/-- The message `protos.MXNArgs`. -/
structure MXNArgs where
  App : String
  DeploymentId : String
  Id : String
  RunMain : Bool
  Mtls : Bool
  InternalAddress : String
  ControlSocket : String
  Redirects : List Redirect
deriving DecidableEq, Repr

/-- The message `protos.SemVer`: three `int64` fields. -/
structure ProtoSemVer where
  Major : Int
  Minor : Int
  Patch : Int
deriving DecidableEq, Repr

/-- The message `protos.InitMXNReply`; `Version` is a pointer. -/
structure InitMXNReply where
  DialAddr : String
  Version : Option ProtoSemVer
deriving DecidableEq, Repr

/-- The message `protos.AppConfig`. -/
structure AppConfig where
  Name : String
  Binary : String
  Sections : List (String × String)
deriving DecidableEq, Repr

/-- The message `protos.LogEntry`. -/
structure LogEntry where
  App : String
  Version : String
  Component : String
  Node : String
  TimeMicros : Int
  Level : String
  File : String
  Line : Int
  Msg : List Nat
deriving DecidableEq, Repr

/-- The message `protos.LogEntryBatch`. -/
structure LogEntryBatch where
  Entries : List LogEntry
deriving DecidableEq, Repr

/-- The constant `control.DeployerPath`. -/
def DeployerPath : String := "github.com/sh3lk/mx/deployerControl"

/-! ## `runtime/weavelet.go` -/

/-- The function `runtime.CheckMXNArgs`: the first failing check decides the
error, `none` is a `nil` return. -/
def CheckMXNArgs (w : Option MXNArgs) : Option GoError :=
  match w with
  | none => some (.Errorf "MXNArgs: nil")
  | some w =>
    if w.App = "" then some (.Errorf "MXNArgs: missing app name")
    else if w.DeploymentId = "" then some (.Errorf "MXNArgs: missing deployment id")
    else if w.Id = "" then some (.Errorf "MXNArgs: missing mxn id")
    else if w.ControlSocket = "" then some (.Errorf "MXNArgs: missing control socket")
    else none

/-! ## Version gate of `runtime/envelope/envelope.go` -/

/-- The conversion `int(x)` of an `int64`; Go's `int` has 64 bits on the
targets the envelope runs on (it needs Unix sockets and subprocesses on
amd64/arm64), so the value is kept. -/
def int (x : Int) : Int := x

/-- The function `checkVersion`; `dv` is the constant `version.DeployerVersion`,
whose declaration lies outside the embedded files. -/
def checkVersion (dv : SemVer) (v : Option ProtoSemVer) : Option GoError :=
  match v with
  | none => some (.Errorf "version mismatch: nil app version")
  | some v =>
    let got : SemVer := ⟨int v.Major, int v.Minor, int v.Patch⟩
    if got ≠ dv then some (.VersionMismatch dv got) else none

/-- The function `verifyMXNInfo`. -/
def verifyMXNInfo (dv : SemVer) (wlet : Option InitMXNReply) : Option GoError :=
  match wlet with
  | none => some (.Errorf "the first message from the mxn must contain mxn info")
  | some wlet =>
    if wlet.DialAddr = "" then some (.Errorf "empty dial address for the mxn")
    else
      match checkVersion dv wlet.Version with
      | some err => some err
      | none => none

/-! ## Capturing the child's output: `logLines` -/

/-- The `io.Reader` behind `bufio.NewReader(src)`: the bytes still to come and
the error the source reports once they are used up (`io.EOF` at the end of a
stream). -/
structure Reader where
  data : List Nat
  err : GoError
deriving DecidableEq, Repr

/-- Cuts a byte list after the first `delim`: the part up to and including the
delimiter, and the rest; `none` when there is no delimiter. -/
def splitDelim (delim : Nat) : List Nat → Option (List Nat × List Nat)
  | [] => none
  | b :: bs =>
    if b = delim then some ([b], bs)
    else
      match splitDelim delim bs with
      | some (l, r) => some (b :: l, r)
      | none => none

/-- The method `(*bufio.Reader).ReadBytes`: the data up to and including the
delimiter; if the source fails first, the data read so far together with the
error.  The third component is the reader afterwards. -/
def Reader.ReadBytes (r : Reader) (delim : Nat) : List Nat × Option GoError × Reader :=
  match splitDelim delim r.data with
  | some (line, rest) => (line, none, { r with data := rest })
  | none => (r.data, some r.err, { r with data := [] })

/-- The function `dropNewline`; 10 is the byte of a newline. -/
def dropNewline (line : List Nat) : List Nat :=
  if 0 < line.length ∧ line.getLast? = some 10 then line.take (line.length - 1) else line

/-- One element of the slice `batch.Entries`, which holds pointers: either the
pointer `entry` that `logLines` made, or a pointer to some other `LogEntry`
that a handler put there. -/
inductive EntryRef where
  | own
  | other (e : LogEntry)
deriving DecidableEq, Repr

/-- The entries a batch points to, given what `*entry` holds now. -/
def resolveEntries (entry : LogEntry) (refs : List EntryRef) : List LogEntry :=
  refs.map fun
    | .own => entry
    | .other e => e

/-- What one `h.LogBatch(ctx, batch)` call gives back.  The batch and its entry
are passed by pointer and the same two objects are passed to every call, so a
handler can write to them: `entry` is `some e` when the call left `e` in
`*entry` (any field may differ), `entries` is `some l` when it left `l` in
`batch.Entries`; `none` means the object was left as it was. -/
structure LogBatchReply where
  err : Option GoError
  entry : Option LogEntry
  entries : Option (List EntryRef)
deriving DecidableEq, Repr

/-- The handler as seen by one capture task during one execution: the reply to
its `k`-th `LogBatch` call (counting from 0), given the batch passed. -/
abbrev LogBatchFn := Nat → LogEntryBatch → LogBatchReply

/-- The outcome of one `logLines` run: the `LogBatch` calls it made, oldest
first (each with the batch as it stood when the call was made), the error it
returned, and the reader it leaves behind. -/
structure CaptureResult where
  calls : List LogEntryBatch
  err : Option GoError
  rdr : Reader
deriving DecidableEq, Repr

/-- The `for` loop of `logLines`.  `entry` is what the one `LogEntry` made
before the loop holds now, `refs` what `batch.Entries` holds now, `calls` the
calls made so far.  A round with a line writes `Msg` and `TimeMicros` of
`*entry`, nothing else, and passes the batch on.  Every round consumes at least
one byte or ends the loop, so `fuel` only bounds the number of rounds; `none`
means the bound was too small. -/
def logLinesLoop (component : String) (h : LogBatchFn) :
    Nat → Reader → LogEntry → List EntryRef → List LogEntryBatch → Option CaptureResult
  | 0, _, _, _, _ => none
  | fuel + 1, rdr, entry, refs, calls =>
    match rdr.ReadBytes 10 with
    | (line, err, rdr1) =>
      if 0 < line.length then
        let entry1 : LogEntry := { entry with Msg := dropNewline line, TimeMicros := 0 }
        let batch : LogEntryBatch := ⟨resolveEntries entry1 refs⟩
        let reply := h calls.length batch
        match reply.err with
        | some herr => some ⟨calls ++ [batch], some herr, rdr1⟩
        | none =>
          match err with
          | some rerr => some ⟨calls ++ [batch], some (.Wrap ("capture " ++ component) rerr), rdr1⟩
          | none =>
            logLinesLoop component h fuel rdr1 (reply.entry.getD entry1)
              (reply.entries.getD refs) (calls ++ [batch])
      else
        match err with
        | some rerr => some ⟨calls, some (.Wrap ("capture " ++ component) rerr), rdr1⟩
        | none => logLinesLoop component h fuel rdr1 entry refs calls

/-- The method `(*Envelope).logLines`, for the `MXNArgs` stored in the
envelope: the entry and the batch pointing to it are made once, before the
loop. -/
def logLines (mxn : MXNArgs) (component : String) (src : Reader) (h : LogBatchFn) :
    Option CaptureResult :=
  let entry : LogEntry :=
    { App := mxn.App, Version := mxn.DeploymentId, Component := component, Node := mxn.Id,
      Level := component, File := "", Line := -1, Msg := [], TimeMicros := 0 }
  logLinesLoop component h (src.data.length + 1) src entry [.own] []

/-- The reader after `n` calls of `ReadBytes('\n')`. -/
def readN (rdr : Reader) : Nat → Reader
  | 0 => rdr
  | n + 1 => readN (rdr.ReadBytes 10).2.2 n

/-- A handler used as an example: it never fails and stamps the first entry of
the batch it is handed with the level "info". -/
def levelWritingHandler : LogBatchFn :=
  fun _ b => ⟨none, b.Entries.head?.map (fun e => { e with Level := "info" }), none⟩

/-- A handler used as an example: it never fails and takes the entries out of
the batch it is handed, leaving `batch.Entries` empty. -/
def drainingHandler : LogBatchFn := fun _ _ => ⟨none, none, some []⟩

/-- A handler used as an example: it never fails and fills in the time and the
source position of the first entry of the batch it is handed. -/
def positionWritingHandler : LogBatchFn :=
  fun _ b =>
    ⟨none, b.Entries.head?.map (fun e => { e with TimeMicros := 1700, File := "child.go", Line := 7 }),
      none⟩

/-- A handler used as an example: it never fails and puts a record of its own
in the place of the entry in `batch.Entries`. -/
def replacingHandler : LogBatchFn :=
  fun _ _ => ⟨none, none, some [.other ⟨"sink", "v2", "sink", "n0", 42, "info", "sink.go", 3, [120]⟩]⟩

/-- A handler used as an example: it never fails and stamps the first entry of
the batch it is handed with a time. -/
def timeStampingHandler : LogBatchFn :=
  fun _ b => ⟨none, b.Entries.head?.map (fun e => { e with TimeMicros := 5 }), none⟩

/-! ## The envelope and its effects -/

/-- The fields of the struct `Envelope` that are plain data. -/
structure Envelope where
  tmpDir : String
  tmpDirOwned : Bool
  myUds : String
  mxn : MXNArgs
  mxnAddr : String
  config : Option AppConfig
deriving DecidableEq, Repr

/-- The effects of the envelope on the world around it, in the order they
happen. -/
inductive Event where
  /-- A call of `runtime.NewTempDir()`. -/
  | NewTempDir
  /-- A call of `runtime.OnExitSignal` registering the removal of `dir`. -/
  | OnExitSignal (dir : String)
  /-- A call of `os.RemoveAll(dir)`. -/
  | RemoveAll (dir : String)
  /-- A call of `call.Connect` for `call.Unix(socket)`, made by `getMXNControlStub`. -/
  | Connect (socket : String)
  /-- A call of `child.Start(ctx, config, args)`. -/
  | Start (config : Option AppConfig) (args : MXNArgs)
  /-- A call of `controller.InitMXN` with the given sections. -/
  | InitMXN (sections : List (String × String))
  /-- A call of the cancel function of the context made by `NewEnvelope`. -/
  | Cancel
  /-- A call of `net.Listen("unix", path)`. -/
  | Listen (path : String)
  /-- A call of `h.LogBatch` made by the capture task of a stream. -/
  | LogBatch (component : String) (batch : LogEntryBatch)
  /-- The end of a background task of `Serve`. -/
  | TaskDone (name : String)
  /-- A call of `child.Wait()`. -/
  | Wait
deriving DecidableEq, Repr

/-! ## `Serve` -/

/-- The local variables `stopErr` and `once` of `Serve`, the arguments of the
`stop` calls made so far (oldest first), and the events so far. -/
structure StopState where
  stopErr : Option GoError
  onceDone : Bool
  stops : List (Option GoError)
  events : List Event
deriving DecidableEq, Repr

/-- The closure `stop` of `Serve`: `once.Do` stores the error of the first
call only; every call cancels the context. -/
def stop (s : StopState) (err : Option GoError) : StopState :=
  { stopErr := if s.onceDone then s.stopErr else err
    onceDone := true
    stops := s.stops ++ [err]
    events := s.events ++ [.Cancel] }

/-- The background tasks that `Serve` starts in its `errgroup`. -/
inductive Task where
  | stdout
  | stderr
  | watcher
  | server
deriving DecidableEq, Repr

/-- One execution of `Serve` as the world decides it: the result of
`net.Listen`, the two streams of the child (`none` when `child.Stdout()` or
`child.Stderr()` is `nil`), the replies of the handler to the `LogBatch` calls
of either stream, the value of `e.ctx.Err()` once the context is done, the
result of `deployers.ServeComponents`, the result of `child.Wait()`, and the
order in which the background tasks come to their `stop` call. -/
structure ServeWorld where
  listenErr : Option GoError
  stdout : Option Reader
  stderr : Option Reader
  logBatch : String → LogBatchFn
  ctxErr : GoError
  serveErr : Option GoError
  waitErr : Option GoError
  order : List Task

/-- The tasks that `Serve` starts: the capture tasks only for a stream that is
not `nil`. -/
def spawned (w : ServeWorld) : List Task :=
  (if w.stdout.isSome then [Task.stdout] else []) ++
  (if w.stderr.isSome then [Task.stderr] else []) ++ [Task.watcher, Task.server]

/-- A capture task: `err := e.logLines(name, src, h); stop(err); return err`.
A stream that is `nil` has no task. -/
def captureTask (e : Envelope) (w : ServeWorld) (name : String) (src : Option Reader)
    (s : StopState) : Option StopState :=
  match src with
  | none => some s
  | some rdr =>
    match logLines e.mxn name rdr (w.logBatch name) with
    | none => none
    | some r =>
      some (stop { s with events := s.events ++ r.calls.map (Event.LogBatch name) ++
        [.TaskDone name] } r.err)

/-- The body of one background task up to and including its `stop` call. -/
def runTask (e : Envelope) (w : ServeWorld) (s : StopState) : Task → Option StopState
  | .stdout => captureTask e w "stdout" w.stdout s
  | .stderr => captureTask e w "stderr" w.stderr s
  | .watcher => some (stop { s with events := s.events ++ [.TaskDone "watcher"] } (some w.ctxErr))
  | .server => some (stop { s with events := s.events ++ [.TaskDone "server"] } w.serveErr)

/-- The tasks run to their `stop` calls in the given order. -/
def runTasks (e : Envelope) (w : ServeWorld) : List Task → StopState → Option StopState
  | [], s => some s
  | t :: ts, s =>
    match runTask e w s t with
    | none => none
    | some s1 => runTasks e w ts s1

/-- What `Serve` returns, the arguments of the `stop` calls of the run, and
what it did. -/
structure ServeResult where
  ret : Option GoError
  stops : List (Option GoError)
  events : List Event
deriving DecidableEq, Repr

/-- The deferred `os.RemoveAll(e.tmpDir)` of `Serve`. -/
def serveCleanup (e : Envelope) : List Event :=
  if e.tmpDirOwned then [.RemoveAll e.tmpDir] else []

/-- The method `(*Envelope).Serve`: listen, run the background tasks until
`running.Wait()` returns, then `stop(e.child.Wait())` and return `stopErr`. -/
def Serve (e : Envelope) (w : ServeWorld) : Option ServeResult :=
  match w.listenErr with
  | some err => some ⟨some err, [], [.Listen e.myUds] ++ serveCleanup e⟩
  | none =>
    match runTasks e w w.order ⟨none, false, [], [.Listen e.myUds]⟩ with
    | none => none
    | some s =>
      let s1 := stop { s with events := s.events ++ [.Wait] } w.waitErr
      some ⟨s1.stopErr, s1.stops, s1.events ++ serveCleanup e⟩

/-! ## `NewEnvelope` -/

/-- The struct `Options`; the logger, the tracer and the child are part of the
world below. -/
structure Options where
  TmpDir : String
deriving DecidableEq, Repr

/-- One execution of `NewEnvelope` as the world decides it: the constant
`version.DeployerVersion`, the result of `runtime.NewTempDir()`, the path that
the `k`-th call of `deployers.NewUnixSocketPath(dir)` returns, whether
`codegen.Find(control.MXNPath)` finds the controller, the result of
`call.Connect` for a socket, the result of `child.Start`, and the result of
`controller.InitMXN`. -/
structure NewWorld where
  deployerVersion : SemVer
  newTempDir : Except GoError String
  socketPath : Nat → String → String
  controllerFound : Bool
  connect : String → Option GoError
  start : Option AppConfig → MXNArgs → Option GoError
  initMXN : Except GoError (Option InitMXNReply)

/-- How a Go function call ends: with a value, with an error, or in a panic
(a `nil` pointer dereference). -/
inductive Outcome (α : Type) where
  | ok (a : α)
  | error (err : GoError)
  | panic
deriving DecidableEq, Repr

/-- The function `getMXNControlStub`: look up the controller registration,
then connect to the socket. -/
def getMXNControlStub (w : NewWorld) (socket : String) : Option GoError × List Event :=
  if ¬ w.controllerFound then
    (some (.Errorf "controller component (github.com/sh3lk/mx/mxnControl) not found"), [])
  else
    match w.connect socket with
    | some err => (some err, [.Connect socket])
    | none => (none, [.Connect socket])

/-- The part of `NewEnvelope` after the temporary directory is settled, without
the deferred calls.  `protomsg.Clone` of a `nil` message is `nil`, so storing
into it panics, and so does reading `config.Sections` of a `nil` config. -/
def newEnvelopeBody (w : NewWorld) (wlet : Option MXNArgs) (config : Option AppConfig)
    (tmpDir : String) (tmpDirOwned : Bool) : Outcome Envelope × List Event :=
  let myUds := w.socketPath 0 tmpDir
  match wlet with
  | none => (.panic, [])
  | some wlet0 =>
    let wlet1 : MXNArgs :=
      { wlet0 with
        ControlSocket := w.socketPath 1 tmpDir
        Redirects := [⟨DeployerPath, DeployerPath, "unix://" ++ myUds⟩] }
    match getMXNControlStub w wlet1.ControlSocket with
    | (some err, ev) => (.error err, ev)
    | (none, ev) =>
      let e : Envelope :=
        { tmpDir := tmpDir, tmpDirOwned := tmpDirOwned, myUds := myUds, mxn := wlet1,
          mxnAddr := "", config := config }
      let ev1 := ev ++ [.Start e.config e.mxn]
      match w.start e.config e.mxn with
      | some err => (.error (.Wrap "NewEnvelope" err), ev1)
      | none =>
        match config with
        | none => (.panic, ev1)
        | some cfg =>
          let ev2 := ev1 ++ [.InitMXN cfg.Sections]
          match w.initMXN with
          | .error err => (.error err, ev2)
          | .ok reply =>
            match verifyMXNInfo w.deployerVersion reply with
            | some err => (.error err, ev2)
            | none =>
              match reply with
              | none => (.panic, ev2)
              | some r => (.ok { e with mxnAddr := r.DialAddr }, ev2)

/-- The deferred calls of `NewEnvelope`, latest registered first: the removal
of a directory it created unless `removeDir` was cleared, then `cancel()`,
which a successful return has replaced by a function that does nothing. -/
def newEnvelopeDeferred (out : Outcome Envelope) (tmpDir : String) (tmpDirOwned : Bool) :
    List Event :=
  match out with
  | .ok _ => []
  | _ => (if tmpDirOwned then [.RemoveAll tmpDir] else []) ++ [.Cancel]

/-- What `NewEnvelope` returns and what it did. -/
structure NewEnvelopeResult where
  out : Outcome Envelope
  events : List Event
deriving DecidableEq, Repr

/-- The function `NewEnvelope`. -/
def NewEnvelope (w : NewWorld) (wlet : Option MXNArgs) (config : Option AppConfig)
    (options : Options) : NewEnvelopeResult :=
  if options.TmpDir = "" then
    match w.newTempDir with
    | .error err => ⟨.error err, [.NewTempDir, .Cancel]⟩
    | .ok tmpDir =>
      match newEnvelopeBody w wlet config tmpDir true with
      | (out, ev) =>
        ⟨out, [.NewTempDir, .OnExitSignal tmpDir] ++ ev ++ newEnvelopeDeferred out tmpDir true⟩
  else
    match newEnvelopeBody w wlet config options.TmpDir false with
    | (out, ev) => ⟨out, ev ++ newEnvelopeDeferred out options.TmpDir false⟩

/-! ## Runs used as examples -/

/-- A run used as an example: the child wrote nothing, both pipes are at EOF,
the capture of stdout ends first, and the child left with status 137. -/
def crashWorld : ServeWorld :=
  { listenErr := none
    stdout := some ⟨[], .EOF⟩
    stderr := some ⟨[], .EOF⟩
    logBatch := fun _ _ _ => ⟨none, none, none⟩
    ctxErr := .Canceled
    serveErr := some (.Canceled)
    waitErr := some (.ExitError 137)
    order := [.stdout, .stderr, .watcher, .server] }

/-- An envelope as a successful `NewEnvelope` leaves it, used in examples. -/
def sampleEnvelope : Envelope :=
  { tmpDir := "/tmp/mx1"
    tmpDirOwned := true
    myUds := "/tmp/mx1/uds0"
    mxn := ⟨"app", "dep", "id", true, false, "localhost:0", "/tmp/mx1/uds1",
      [⟨DeployerPath, DeployerPath, "unix:///tmp/mx1/uds0"⟩]⟩
    mxnAddr := "tcp://127.0.0.1:4000"
    config := some ⟨"app", "/bin/app", []⟩ }

/-- A run used as an example: the child wrote the line "ready" to stdout and
left with status 0; both pipes reached EOF, every `LogBatch` call succeeded,
and the capture of stdout ended first. -/
def cleanExitWorld : ServeWorld :=
  { listenErr := none
    stdout := some ⟨[114, 101, 97, 100, 121, 10], .EOF⟩
    stderr := some ⟨[], .EOF⟩
    logBatch := fun _ _ _ => ⟨none, none, none⟩
    ctxErr := .Canceled
    serveErr := some (.Canceled)
    waitErr := none
    order := [.stdout, .stderr, .watcher, .server] }

/-- A run used as an example: the child wrote the lines "a" and "b" to stdout,
and the handler failed the first `LogBatch` call of the stdout capture. -/
def logFailWorld : ServeWorld :=
  { listenErr := none
    stdout := some ⟨[97, 10, 98, 10], .EOF⟩
    stderr := some ⟨[], .EOF⟩
    logBatch := fun name k _ =>
      if name = "stdout" ∧ k = 0 then ⟨some (.Other "log sink down"), none, none⟩
      else ⟨none, none, none⟩
    ctxErr := .Canceled
    serveErr := some (.Canceled)
    waitErr := none
    order := [.stdout, .stderr, .watcher, .server] }

/-- The arguments of a caller that sets one redirect of its own, used in
examples. -/
def sampleArgs : MXNArgs :=
  ⟨"app", "dep", "id", true, false, "localhost:0", "", [⟨"a/b.C", "a/b.D", "tcp://10.0.0.1:1"⟩]⟩

/-- A world used as an example: every step of `NewEnvelope` succeeds and the
child reports the version `major.minor.patch`; the deployer was built with
0.24.0. -/
def sampleNewWorld (major minor patch : Int) : NewWorld :=
  { deployerVersion := ⟨0, 24, 0⟩
    newTempDir := .ok "/tmp/mx1"
    socketPath := fun k dir => dir ++ (if k = 0 then "/uds0" else "/uds1")
    controllerFound := true
    connect := fun _ => none
    start := fun _ _ => none
    initMXN := .ok (some ⟨"tcp://127.0.0.1:4000", some ⟨major, minor, patch⟩⟩) }

/-! ## Directories on disk -/

/-- Whether the directory `dir` exists after the events `evs`, when `before`
tells whether it existed before them: of the effects of the envelope only
`os.RemoveAll(dir)` takes it away. -/
def dirExists (dir : String) (evs : List Event) (before : Bool) : Bool :=
  evs.foldl (fun ex ev => if ev = Event.RemoveAll dir then false else ex) before

/-! ## The methods of `Envelope` that call the node-control stub

The stub `e.controller` lives in the child; each method below takes the
answer of the stub method it calls as an argument. -/

/-- The enum `protos.HealthStatus`; its declaration lies outside the embedded
files, the envelope names only `HealthStatus_UNKNOWN`. -/
inductive HealthStatus where
  | UNKNOWN
  | HEALTHY
  | UNHEALTHY
  | TERMINATED
deriving DecidableEq, Repr

/-- The message `protos.GetHealthReply`. -/
structure GetHealthReply where
  Status : HealthStatus
deriving DecidableEq, Repr

/-- The message `protos.GetProfileRequest`; the envelope passes it on without
reading it. -/
structure GetProfileRequest where
  ProfileType : Nat
  CpuDurationNs : Int
deriving DecidableEq, Repr

/-- The message `protos.GetProfileReply`. -/
structure GetProfileReply where
  Data : List Nat
deriving DecidableEq, Repr

/-- The message `protos.LoadReport`; the envelope passes it on without reading
it, `content` stands for its fields. -/
structure LoadReport where
  content : List Nat
deriving DecidableEq, Repr

/-- The message `protos.GetLoadReply`; `Load` is a pointer. -/
structure GetLoadReply where
  Load : Option LoadReport
deriving DecidableEq, Repr

/-- The message `protos.MetricUpdate`; the envelope passes it on without
reading it, `content` stands for its fields. -/
structure MetricUpdate where
  content : List Nat
deriving DecidableEq, Repr

/-- The message `protos.GetMetricsReply`; `Update` is a pointer. -/
structure GetMetricsReply where
  Update : Option MetricUpdate
deriving DecidableEq, Repr

/-- The struct `metrics.MetricSnapshot`; `content` stands for its fields. -/
structure MetricSnapshot where
  content : List Nat
deriving DecidableEq, Repr

/-- The message `protos.RoutingInfo`; the envelope passes it on without
reading it. -/
structure RoutingInfo where
  Component : String
  Local : Bool
  Replicas : List String
deriving DecidableEq, Repr

/-- The method `(*Envelope).MXNAddress`. -/
def Envelope.MXNAddress (e : Envelope) : String := e.mxnAddr

/-- The method `(*Envelope).GetHealth`; `call` is the result of
`e.controller.GetHealth(ctx, &protos.GetHealthRequest{})`.  The value is the
pointer returned. -/
def Envelope.GetHealth (_e : Envelope) (call : Except GoError (Option GetHealthReply)) :
    Option GetHealthReply :=
  match call with
  | .error _ => some ⟨.UNKNOWN⟩
  | .ok reply => reply

/-- The method `(*Envelope).GetProfile`; `controller` is the stub method
`e.controller.GetProfile`.  `.error err` is the return `nil, err`, `.ok data`
the return `data, nil`; reading `reply.Data` of a `nil` reply panics. -/
def Envelope.GetProfile (_e : Envelope)
    (controller : Option GetProfileRequest → Except GoError (Option GetProfileReply))
    (req : Option GetProfileRequest) : Outcome (List Nat) :=
  match controller req with
  | .error err => .error err
  | .ok none => .panic
  | .ok (some reply) => .ok reply.Data

/-- The method `(*Envelope).GetLoad`; `call` is the result of
`e.controller.GetLoad(ctx, &protos.GetLoadRequest{})`. -/
def Envelope.GetLoad (_e : Envelope) (call : Except GoError (Option GetLoadReply)) :
    Outcome (Option LoadReport) :=
  match call with
  | .error err => .error err
  | .ok none => .panic
  | .ok (some reply) => .ok reply.Load

/-- The type `metrics.Importer`, whose code lies outside the embedded files:
its state is a value of `σ`, and `Import` gives the snapshots or the error it
returns together with the state afterwards. -/
structure Importer (σ : Type) where
  Import : σ → Option MetricUpdate → Except GoError (List MetricSnapshot) × σ

/-- The method `(*Envelope).GetMetrics`; `metrics` is the state of the field
`e.metrics`, `call` the result of
`e.controller.GetMetrics(ctx, &protos.GetMetricsRequest{})`.  The second
component is the state of `e.metrics` afterwards. -/
def Envelope.GetMetrics {σ : Type} (_e : Envelope) (imp : Importer σ) (metrics : σ)
    (call : Except GoError (Option GetMetricsReply)) : Outcome (List MetricSnapshot) × σ :=
  match call with
  | .error err => (.error err, metrics)
  | .ok none => (.panic, metrics)
  | .ok (some reply) =>
    match imp.Import metrics reply.Update with
    | (.ok snaps, metrics1) => (.ok snaps, metrics1)
    | (.error err, metrics1) => (.error err, metrics1)

/-- The method `(*Envelope).UpdateComponents`; `controller` gives, for the
request built from `components`, the error of
`e.controller.UpdateComponents` (its reply is dropped). -/
def Envelope.UpdateComponents (_e : Envelope) (controller : List String → Option GoError)
    (components : List String) : Option GoError :=
  controller components

/-- The method `(*Envelope).UpdateRoutingInfo`; `controller` gives, for the
request built from `routing`, the error of `e.controller.UpdateRoutingInfo`. -/
def Envelope.UpdateRoutingInfo (_e : Envelope)
    (controller : Option RoutingInfo → Option GoError) (routing : Option RoutingInfo) :
    Option GoError :=
  controller routing

/-- An envelope together with the state of its field `metrics`, the only part
of an `Envelope` that a method writes after construction. -/
structure EnvelopeState (σ : Type) where
  e : Envelope
  metrics : σ

/-- One call of a method of an envelope, with what the world answers to it. -/
inductive Op where
  | Serve (w : ServeWorld)
  | GetHealth (call : Except GoError (Option GetHealthReply))
  | GetProfile (controller : Option GetProfileRequest → Except GoError (Option GetProfileReply))
      (req : Option GetProfileRequest)
  | GetMetrics (call : Except GoError (Option GetMetricsReply))
  | GetLoad (call : Except GoError (Option GetLoadReply))
  | UpdateComponents (controller : List String → Option GoError) (components : List String)
  | UpdateRoutingInfo (controller : Option RoutingInfo → Option GoError)
      (routing : Option RoutingInfo)

/-- The envelope after one method call: `GetMetrics` stores the new state of
the importer, no other method assigns to a field. -/
def applyOp {σ : Type} (imp : Importer σ) (s : EnvelopeState σ) : Op → EnvelopeState σ
  | .GetMetrics call => { s with metrics := (s.e.GetMetrics imp s.metrics call).2 }
  | .Serve _ => s
  | .GetHealth _ => s
  | .GetProfile _ _ => s
  | .GetLoad _ => s
  | .UpdateComponents _ _ => s
  | .UpdateRoutingInfo _ _ => s

/-- Successive calls of `GetMetrics`, one for each answer of the controller:
the results in call order and the state of the importer at the end. -/
def getMetricsCalls {σ : Type} (e : Envelope) (imp : Importer σ) :
    σ → List (Except GoError (Option GetMetricsReply)) → List (Outcome (List MetricSnapshot)) × σ
  | metrics, [] => ([], metrics)
  | metrics, call :: calls =>
    match e.GetMetrics imp metrics call with
    | (res, metrics1) =>
      match getMetricsCalls e imp metrics1 calls with
      | (rest, metrics2) => (res :: rest, metrics2)

/-- A run used as an example: `net.Listen` fails. -/
def listenFailWorld : ServeWorld :=
  { listenErr := some (.Other "listen unix /tmp/mx1/uds0: bind: address already in use")
    stdout := some ⟨[], .EOF⟩
    stderr := some ⟨[], .EOF⟩
    logBatch := fun _ _ _ => ⟨none, none, none⟩
    ctxErr := .Canceled
    serveErr := some (.Canceled)
    waitErr := none
    order := [.stdout, .stderr, .watcher, .server] }

/-- An importer used in examples: its state is the list of the updates handed
to it, and it returns a snapshot holding the number of updates seen before. -/
def logImporter : Importer (List (Option MetricUpdate)) :=
  ⟨fun st d => (.ok [⟨[st.length]⟩], st ++ [d])⟩

/-! ## `fill.go`: listeners of a component implementation -/

/-- The type of a struct field as `fillListeners` and `hasListeners` see it:
`mx.Listener`, or any other type, given by its name. -/
inductive FieldType where
  | Listener
  | Other (name : String)
deriving DecidableEq, Repr

/-- A struct field as reflection shows it: its name (the type name for an
embedded field), its type (the result of `f.Type()`), and the result of `t.Tag.Lookup("mx")`. -/
structure StructField where
  Name : String
  FieldType : FieldType
  Tag : Option String
deriving DecidableEq, Repr

/-- The argument `impl any` as reflection classifies it: not a pointer, a
pointer whose element is not a struct (a `nil` pointer included), or a pointer
to a struct with its fields in declaration order. -/
inductive Impl where
  | NotPointer (typeName : String)
  | PointerToNonStruct (typeName : String)
  | PointerToStruct (typeName : String) (fields : List StructField)
deriving DecidableEq, Repr

/-- The function `hasListeners`. -/
def hasListeners (impl : Impl) : Bool :=
  match impl with
  | .NotPointer _ => false
  | .PointerToNonStruct _ => false
  | .PointerToStruct _ fields => fields.any fun f => f.FieldType = FieldType.Listener

/-- The argument `get` of `fillListeners` during one execution: the answer to
its `k`-th call (counting from 0) for a name: a listener and a proxy address,
or an error. -/
abbrev GetFn := Nat → String → Except GoError (String × String)

/-- What `fillListeners` did: the names it passed to `get`, oldest first, the
fields it set (index, listener, proxy address), and the error returned. -/
structure FillResult where
  calls : List String
  fills : List (Nat × String × String)
  err : Option GoError
deriving DecidableEq, Repr

/-- The `for` loop of `fillListeners` from field `i` on; `isValidListenerName`
is the helper of that name, whose code lies outside the embedded files. -/
def fillListenersLoop (isValidListenerName : String → Bool) (get : GetFn) (typeName : String) :
    List StructField → Nat → FillResult → FillResult
  | [], _, acc => acc
  | t :: rest, i, acc =>
    if t.FieldType ≠ FieldType.Listener then
      fillListenersLoop isValidListenerName get typeName rest (i + 1) acc
    else
      let checked : Except GoError String :=
        match t.Tag with
        | some tag =>
          if !isValidListenerName t.Name then
            .error (.Errorf ("FillListeners: listener tag " ++ tag ++
              " is not a valid Go identifier"))
          else .ok tag
        | none => .ok t.Name
      match checked with
      | .error err => { acc with err := some err }
      | .ok name =>
        match get acc.calls.length name with
        | .error err =>
          { calls := acc.calls ++ [name], fills := acc.fills,
            err := some (.Wrap ("FillListener: setting field " ++ typeName ++ "." ++ t.Name) err) }
        | .ok (lis, proxyAddr) =>
          fillListenersLoop isValidListenerName get typeName rest (i + 1)
            { calls := acc.calls ++ [name], fills := acc.fills ++ [(i, lis, proxyAddr)],
              err := none }

/-- The function `fillListeners`. -/
def fillListeners (isValidListenerName : String → Bool) (get : GetFn) (impl : Impl) :
    FillResult :=
  match impl with
  | .NotPointer typeName => ⟨[], [], some (.Errorf ("FillListeners: " ++ typeName ++ " not a pointer"))⟩
  | .PointerToNonStruct typeName =>
    ⟨[], [], some (.Errorf ("FillListeners: " ++ typeName ++ " not a struct pointer"))⟩
  | .PointerToStruct typeName fields =>
    fillListenersLoop isValidListenerName get typeName fields 0 ⟨[], [], none⟩

/-- The names that belong to the `Listener` fields of a struct, in declaration
order: the `mx` tag if the field has one, the field's name otherwise. -/
def listenerNames (fields : List StructField) : List String :=
  (fields.filter fun f => f.FieldType = FieldType.Listener).map fun f => f.Tag.getD f.Name

/-- A validator used in examples: the non-empty strings of ASCII letters,
digits and underscores that do not begin with a digit. -/
def asciiIdentifier (s : String) : Bool :=
  match s.toList with
  | [] => false
  | c :: cs =>
    (c.isAlpha || c = '_') && cs.all fun d => d.isAlpha || d.isDigit || d = '_'

/-- A `get` used in examples: it never fails and answers with an address made
from the name. -/
def sampleGet : GetFn := fun _ name => .ok ("lis:" ++ name, "proxy:" ++ name)

/-- A `get` used in examples: its first call fails. -/
def failingGet : GetFn := fun k name =>
  if k = 0 then .error (.Other "address in use") else .ok ("lis:" ++ name, "proxy:" ++ name)

/-- The struct `a` of `runtime/bin/testprogram/main.go`. -/
def structA : Impl :=
  .PointerToStruct "main.a"
    [⟨"Implements", .Other "mx.Implements[main.A]", none⟩,
     ⟨"b", .Other "mx.Ref[main.B]", none⟩,
     ⟨"c", .Other "mx.Ref[main.C]", none⟩,
     ⟨"aLis1", .Listener, none⟩,
     ⟨"aLis2", .Listener, none⟩,
     ⟨"unused", .Listener, some "aLis3"⟩]

/-- The struct `b` of `runtime/bin/testprogram/main.go`, with an embedded
`mx.Listener`. -/
def structB : Impl :=
  .PointerToStruct "main.b"
    [⟨"Listener", .Listener, none⟩, ⟨"Implements", .Other "mx.Implements[main.B]", none⟩]

/-- A struct like `server` of `examples/reverser/main.go` whose listener tag is
not an identifier. -/
def structBadTag : Impl :=
  .PointerToStruct "main.server"
    [⟨"Implements", .Other "mx.Implements[mx.Main]", none⟩,
     ⟨"lis", .Listener, some "not-an-identifier"⟩]

/-! ## `internal/metrics/generated.go` -/

/-- The table `metrics.GeneratedBuckets`.  Its `float64` entries are whole
numbers below `2^53`, which `float64` holds exactly, as it does their doubles
and the products with 2.5 that occur; they are given as rationals. -/
def GeneratedBuckets : List ℚ :=
  [1, 2, 5,
   10, 20, 50,
   100, 200, 500,
   1000, 2000, 5000,
   10000, 20000, 50000,
   100000, 200000, 500000,
   1000000, 2000000, 5000000,
   10000000, 20000000, 50000000,
   100000000, 200000000, 500000000,
   1000000000, 2000000000, 5000000000]

/-! ## `cmd/mx/main.go`: `wrap`

A Go string that is valid UTF-8 is given as the list of its characters. -/

/-- The predicate `unicode.IsSpace`, by which `strings.Fields` splits: the
characters tab, newline, vertical tab, form feed, carriage return and space,
U+0085, U+00A0, U+1680, U+2000 to U+200A, U+2028, U+2029, U+202F, U+205F and
U+3000. -/
def isSpace (c : Char) : Bool :=
  c.toNat = 9 || c.toNat = 10 || c.toNat = 11 || c.toNat = 12 || c.toNat = 13 ||
  c.toNat = 32 || c.toNat = 0x85 || c.toNat = 0xA0 || c.toNat = 0x1680 ||
  (0x2000 ≤ c.toNat && c.toNat ≤ 0x200A) || c.toNat = 0x2028 || c.toNat = 0x2029 ||
  c.toNat = 0x202F || c.toNat = 0x205F || c.toNat = 0x3000

/-- The scan of `strings.Fields`; `cur` is the field being read. -/
def fieldsAux : List Char → List Char → List (List Char)
  | [], cur => if cur = [] then [] else [cur]
  | c :: cs, cur =>
    if isSpace c then (if cur = [] then fieldsAux cs [] else cur :: fieldsAux cs [])
    else fieldsAux cs (cur ++ [c])

/-- The function `strings.Fields`: the maximal runs of characters of `s` that
are not white space. -/
def Fields (s : List Char) : List (List Char) := fieldsAux s []

/-- The builtin `len` of a string: its number of bytes in UTF-8. -/
def len (s : List Char) : Nat := (s.map Char.utf8Size).sum

/-- The `for` loop of `wrap` from the word of index `i` on; `b` is the content
of the `strings.Builder` and `k` the variable of that name. -/
def wrapLoop (n : Int) : List (List Char) → Nat → List Char → Int → List Char
  | [], _, b, _ => b
  | word :: rest, i, b, k =>
    if i = 0 then wrapLoop n rest (i + 1) (b ++ word) (len word)
    else if k + len word + 1 > n then
      wrapLoop n rest (i + 1) (b ++ Char.ofNat 10 :: word) (len word)
    else wrapLoop n rest (i + 1) (b ++ Char.ofNat 32 :: word) (k + len word + 1)

/-- The function `wrap`. -/
def wrap (s : List Char) (n : Int) : List Char := wrapLoop n (Fields s) 0 [] 0

/-- What the loop of `wrap` appends for the words after the first, when `k`
is the length of the line so far. -/
def wrapRest (n : Int) : Int → List (List Char) → List Char
  | _, [] => []
  | k, word :: rest =>
    if k + len word + 1 > n then Char.ofNat 10 :: (word ++ wrapRest n (len word) rest)
    else Char.ofNat 32 :: (word ++ wrapRest n (k + len word + 1) rest)

/-- The scan that cuts a string at its newlines; `cur` is the line being read. -/
def linesAux : List Char → List Char → List (List Char)
  | [], cur => [cur]
  | c :: cs, cur =>
    if c = Char.ofNat 10 then cur :: linesAux cs [] else linesAux cs (cur ++ [c])

/-- The lines of a string: the pieces between its newlines. -/
def lines (s : List Char) : List (List Char) := linesAux s []

/-! # Theorems

## Helper lemmas on reading lines -/

theorem splitDelim_some {d : Nat} : ∀ {xs l r : List Nat}, splitDelim d xs = some (l, r) →
    xs = l ++ r ∧ 0 < l.length
  | [], l, r, h => by simp [splitDelim] at h
  | b :: bs, l, r, h => by
    unfold splitDelim at h
    split at h
    · simp at h
      obtain ⟨rfl, rfl⟩ := h
      simp
    · split at h
      · next l1 r1 heq =>
        simp at h
        obtain ⟨rfl, rfl⟩ := h
        have := (splitDelim_some heq).1
        simp [this]
      · simp at h

theorem splitDelim_line {d : Nat} : ∀ (l rest : List Nat), d ∉ l →
    splitDelim d (l ++ d :: rest) = some (l ++ [d], rest)
  | [], rest, _ => by simp [splitDelim]
  | b :: bs, rest, h => by
    have hb : b ≠ d := fun hbd => h (by simp [hbd])
    have hbs : d ∉ bs := fun hm => h (by simp [hm])
    simp [splitDelim, hb, splitDelim_line bs rest hbs]

theorem splitDelim_none {d : Nat} : ∀ (l : List Nat), d ∉ l → splitDelim d l = none
  | [], _ => by simp [splitDelim]
  | b :: bs, h => by
    have hb : b ≠ d := fun hbd => h (by simp [hbd])
    have hbs : d ∉ bs := fun hm => h (by simp [hm])
    simp [splitDelim, hb, splitDelim_none bs hbs]

theorem dropNewline_line (l : List Nat) : dropNewline (l ++ [10]) = l := by
  simp [dropNewline]

theorem dropNewline_last (l : List Nat) (h : 10 ∉ l) : dropNewline l = l := by
  unfold dropNewline
  split
  · next hc =>
    exfalso
    exact h (List.mem_of_getLast?_eq_some hc.2)
  · rfl


theorem resolveEntries_own (entry : LogEntry) : resolveEntries entry [.own] = [entry] := rfl

theorem logLinesLoop_found (c : String) (h : LogBatchFn) (fuel : Nat) (rdr : Reader)
    (entry : LogEntry) (refs : List EntryRef) (calls : List LogEntryBatch) (line rest : List Nat)
    (hs : splitDelim 10 rdr.data = some (line, rest)) :
    logLinesLoop c h (fuel + 1) rdr entry refs calls =
      match (h calls.length
        ⟨resolveEntries { entry with Msg := dropNewline line, TimeMicros := 0 } refs⟩).err with
      | some herr =>
        some ⟨calls ++ [⟨resolveEntries { entry with Msg := dropNewline line, TimeMicros := 0 } refs⟩],
          some herr, { rdr with data := rest }⟩
      | none =>
        logLinesLoop c h fuel { rdr with data := rest }
          ((h calls.length
            ⟨resolveEntries { entry with Msg := dropNewline line, TimeMicros := 0 } refs⟩).entry.getD
              { entry with Msg := dropNewline line, TimeMicros := 0 })
          ((h calls.length
            ⟨resolveEntries { entry with Msg := dropNewline line, TimeMicros := 0 } refs⟩).entries.getD
              refs)
          (calls ++ [⟨resolveEntries { entry with Msg := dropNewline line, TimeMicros := 0 } refs⟩]) := by
  have hpos : 0 < line.length := (splitDelim_some hs).2
  simp only [logLinesLoop, Reader.ReadBytes, hs, hpos, if_true]

theorem logLinesLoop_end (c : String) (h : LogBatchFn) (fuel : Nat) (rdr : Reader)
    (entry : LogEntry) (refs : List EntryRef) (calls : List LogEntryBatch)
    (hs : splitDelim 10 rdr.data = none) :
    logLinesLoop c h (fuel + 1) rdr entry refs calls =
      if 0 < rdr.data.length then
        match (h calls.length
          ⟨resolveEntries { entry with Msg := dropNewline rdr.data, TimeMicros := 0 } refs⟩).err with
        | some herr =>
          some ⟨calls ++
              [⟨resolveEntries { entry with Msg := dropNewline rdr.data, TimeMicros := 0 } refs⟩],
            some herr, { rdr with data := [] }⟩
        | none =>
          some ⟨calls ++
              [⟨resolveEntries { entry with Msg := dropNewline rdr.data, TimeMicros := 0 } refs⟩],
            some (.Wrap ("capture " ++ c) rdr.err), { rdr with data := [] }⟩
      else some ⟨calls, some (.Wrap ("capture " ++ c) rdr.err), { rdr with data := [] }⟩ := by
  simp only [logLinesLoop, Reader.ReadBytes, hs]

theorem logLinesLoop_total (c : String) (h : LogBatchFn) :
    ∀ (fuel : Nat) (rdr : Reader) (entry : LogEntry) (refs : List EntryRef)
      (calls : List LogEntryBatch),
      rdr.data.length < fuel → ∃ r, logLinesLoop c h fuel rdr entry refs calls = some r
  | 0, _, _, _, _, hf => by omega
  | fuel + 1, rdr, entry, refs, calls, hf => by
    cases hs : splitDelim 10 rdr.data with
    | none =>
      rw [logLinesLoop_end c h fuel rdr entry refs calls hs]
      split
      · split <;> exact ⟨_, rfl⟩
      · exact ⟨_, rfl⟩
    | some p =>
      obtain ⟨line, rest⟩ := p
      rw [logLinesLoop_found c h fuel rdr entry refs calls line rest hs]
      have hlen := splitDelim_some hs
      split
      · exact ⟨_, rfl⟩
      · apply logLinesLoop_total
        have : rdr.data.length = line.length + rest.length := by rw [hlen.1]; simp
        simp only
        omega

theorem logLines_total (mxn : MXNArgs) (c : String) (src : Reader) (h : LogBatchFn) :
    ∃ r, logLines mxn c src h = some r :=
  logLinesLoop_total c h _ _ _ _ _ (Nat.lt_succ_self _)

theorem readN_succ (rdr : Reader) (n : Nat) :
    readN rdr (n + 1) = readN (rdr.ReadBytes 10).2.2 n := rfl

/-- The run of the loop over lines that end in a newline (and a rest without
one), for a handler that never fails, never replaces `batch.Entries` and keeps
a property `P` of the entry that does not involve `Msg` and `TimeMicros`. -/
theorem logLinesLoop_lines (c : String) (h : LogBatchFn) (P : LogEntry → Prop)
    (hP : ∀ (e : LogEntry) msg t, P e → P { e with Msg := msg, TimeMicros := t })
    (hok : ∀ k b, (h k b).err = none)
    (hent : ∀ k en, (h k ⟨[en]⟩).entries = none)
    (hpres : ∀ k en e, (h k ⟨[en]⟩).entry = some e → P en → P e)
    (err : GoError) :
    ∀ (ls : List (List Nat)) (last : List Nat) (fuel : Nat) (entry : LogEntry)
      (calls : List LogEntryBatch), P entry →
      (∀ l ∈ ls, 10 ∉ l) → 10 ∉ last →
      ((ls.map (fun l => l ++ [10])).flatten ++ last).length < fuel →
      ∃ news,
        logLinesLoop c h fuel ⟨(ls.map (fun l => l ++ [10])).flatten ++ last, err⟩ entry [.own]
            calls =
          some ⟨calls ++ news, some (.Wrap ("capture " ++ c) err), ⟨[], err⟩⟩ ∧
        news.map (fun b => b.Entries.map (fun en => en.Msg)) =
          (ls ++ (if last = [] then [] else [last])).map (fun l => [l]) ∧
        ∀ b ∈ news, ∀ en ∈ b.Entries, P en ∧ en.TimeMicros = 0
  | _, _, 0, _, _, _, _, _, hf => by omega
  | [], last, fuel + 1, entry, calls, hPe, _, hlast, _ => by
    have hs : splitDelim 10 (Reader.mk ([] ++ last) err).data = none := by
      simpa using splitDelim_none last hlast
    have := logLinesLoop_end c h fuel ⟨[] ++ last, err⟩ entry [.own] calls hs
    simp only [List.map_nil, List.flatten_nil]
    rw [this]
    by_cases hl : last = []
    · subst hl
      exact ⟨[], by simp, by simp, by simp⟩
    · have hpos : 0 < last.length := List.length_pos.mpr hl
      refine ⟨[⟨[{ entry with Msg := last, TimeMicros := 0 }]⟩], ?_, ?_, ?_⟩
      · simp [hpos, hok, dropNewline_last last hlast, resolveEntries_own]
      · simp [hl]
      · intro b hb en hen
        simp only [List.mem_singleton] at hb
        subst hb
        simp only [List.mem_singleton] at hen
        subst hen
        exact ⟨hP _ _ _ hPe, rfl⟩
  | l :: ls, last, fuel + 1, entry, calls, hPe, hls, hlast, hf => by
    have hl : 10 ∉ l := hls l (by simp)
    have hls1 : ∀ x ∈ ls, 10 ∉ x := fun x hx => hls x (by simp [hx])
    have hdata : ((l :: ls).map (fun l => l ++ [10])).flatten ++ last =
        l ++ 10 :: ((ls.map (fun l => l ++ [10])).flatten ++ last) := by simp
    have hs : splitDelim 10 (Reader.mk (((l :: ls).map (fun l => l ++ [10])).flatten ++ last) err).data
        = some (l ++ [10], (ls.map (fun l => l ++ [10])).flatten ++ last) := by
      simp only [hdata]
      exact splitDelim_line l _ hl
    rw [logLinesLoop_found c h fuel _ entry [.own] calls _ _ hs]
    simp only [hok, dropNewline_line, resolveEntries_own, hent, Option.getD_none]
    have hf1 : ((ls.map (fun l => l ++ [10])).flatten ++ last).length < fuel := by
      rw [hdata] at hf
      simp only [List.length_append, List.length_cons] at hf ⊢
      omega
    have hP1 : P { entry with Msg := l, TimeMicros := 0 } := hP _ _ _ hPe
    have hnext : P ((h calls.length ⟨[{ entry with Msg := l, TimeMicros := 0 }]⟩).entry.getD
        { entry with Msg := l, TimeMicros := 0 }) := by
      cases he : (h calls.length ⟨[{ entry with Msg := l, TimeMicros := 0 }]⟩).entry with
      | none => simpa using hP1
      | some e => simpa using hpres _ _ _ he hP1
    obtain ⟨news, hrun, hmsgs, hall⟩ := logLinesLoop_lines c h P hP hok hent hpres err ls last fuel _
      (calls ++ [⟨[{ entry with Msg := l, TimeMicros := 0 }]⟩]) hnext hls1 hlast hf1
    refine ⟨⟨[{ entry with Msg := l, TimeMicros := 0 }]⟩ :: news, ?_, ?_, ?_⟩
    · rw [hrun]
      simp
    · simp [hmsgs]
    · intro b hb en hen
      rcases List.mem_cons.mp hb with rfl | hb
      · simp only [List.mem_singleton] at hen
        subst hen
        exact ⟨hP1, rfl⟩
      · exact hall b hb en hen

theorem readN_suffix : ∀ (n : Nat) (rdr : Reader), ∃ read, rdr.data = read ++ (readN rdr n).data
  | 0, rdr => ⟨[], rfl⟩
  | n + 1, rdr => by
    obtain ⟨read, hread⟩ := readN_suffix n (rdr.ReadBytes 10).2.2
    rw [readN_succ]
    cases hs : splitDelim 10 rdr.data with
    | none =>
      simp only [Reader.ReadBytes, hs] at hread ⊢
      exact ⟨rdr.data ++ read, by rw [List.append_assoc, ← hread]; simp⟩
    | some p =>
      obtain ⟨line, rest⟩ := p
      simp only [Reader.ReadBytes, hs] at hread ⊢
      exact ⟨line ++ read, by rw [List.append_assoc, ← hread]; exact (splitDelim_some hs).1⟩

/-- The number of `LogBatch` calls of a run over lines that end in a newline
(and a rest without one), for a handler that never fails, whatever it writes
to the batch and the entry. -/
theorem logLinesLoop_count (c : String) (h : LogBatchFn) (hok : ∀ k b, (h k b).err = none)
    (err : GoError) :
    ∀ (ls : List (List Nat)) (last : List Nat) (fuel : Nat) (entry : LogEntry)
      (refs : List EntryRef) (calls : List LogEntryBatch),
      (∀ l ∈ ls, 10 ∉ l) → 10 ∉ last →
      ((ls.map (fun l => l ++ [10])).flatten ++ last).length < fuel →
      ∃ news,
        logLinesLoop c h fuel ⟨(ls.map (fun l => l ++ [10])).flatten ++ last, err⟩ entry refs
            calls =
          some ⟨calls ++ news, some (.Wrap ("capture " ++ c) err), ⟨[], err⟩⟩ ∧
        news.length = (ls ++ (if last = [] then [] else [last])).length
  | _, _, 0, _, _, _, _, _, hf => by omega
  | [], last, fuel + 1, entry, refs, calls, _, hlast, _ => by
    have hs : splitDelim 10 (Reader.mk ([] ++ last) err).data = none := by
      simpa using splitDelim_none last hlast
    have := logLinesLoop_end c h fuel ⟨[] ++ last, err⟩ entry refs calls hs
    simp only [List.map_nil, List.flatten_nil]
    rw [this]
    by_cases hl : last = []
    · subst hl
      exact ⟨[], by simp, by simp⟩
    · have hpos : 0 < last.length := List.length_pos.mpr hl
      exact ⟨[⟨resolveEntries { entry with Msg := dropNewline last, TimeMicros := 0 } refs⟩],
        by simp [hpos, hok], by simp [hl]⟩
  | l :: ls, last, fuel + 1, entry, refs, calls, hls, hlast, hf => by
    have hl : 10 ∉ l := hls l (by simp)
    have hls1 : ∀ x ∈ ls, 10 ∉ x := fun x hx => hls x (by simp [hx])
    have hdata : ((l :: ls).map (fun l => l ++ [10])).flatten ++ last =
        l ++ 10 :: ((ls.map (fun l => l ++ [10])).flatten ++ last) := by simp
    have hs : splitDelim 10 (Reader.mk (((l :: ls).map (fun l => l ++ [10])).flatten ++ last) err).data
        = some (l ++ [10], (ls.map (fun l => l ++ [10])).flatten ++ last) := by
      simp only [hdata]
      exact splitDelim_line l _ hl
    rw [logLinesLoop_found c h fuel _ entry refs calls _ _ hs]
    simp only [hok]
    have hf1 : ((ls.map (fun l => l ++ [10])).flatten ++ last).length < fuel := by
      rw [hdata] at hf
      simp only [List.length_append, List.length_cons] at hf ⊢
      omega
    obtain ⟨news, hrun, hlen⟩ := logLinesLoop_count c h hok err ls last fuel _ _
      (calls ++ [⟨resolveEntries { entry with Msg := dropNewline (l ++ [10]), TimeMicros := 0 }
        refs⟩]) hls1 hlast hf1
    refine ⟨⟨resolveEntries { entry with Msg := dropNewline (l ++ [10]), TimeMicros := 0 }
      refs⟩ :: news, ?_, ?_⟩
    · rw [hrun]
      simp
    · simp only [List.length_cons, hlen, List.length_append]
      omega

/-! ## The version gate and the argument check -/

/-- C1: `verifyMXNInfo` returns nil exactly when the reply is non-nil, its
dial address is non-empty, its version is non-nil and the version equals
`DeployerVersion` in major, minor and patch; in every other case it returns
an error. -/
theorem verifyMXNInfo_nil_iff (dv : SemVer) (reply : Option InitMXNReply) :
    (verifyMXNInfo dv reply = none ↔
      ∃ r v, reply = some r ∧ r.DialAddr ≠ "" ∧ r.Version = some v ∧
        v.Major = dv.Major ∧ v.Minor = dv.Minor ∧ v.Patch = dv.Patch) ∧
    (verifyMXNInfo dv reply ≠ none ↔ ∃ err, verifyMXNInfo dv reply = some err) := by
  refine ⟨?_, ?_⟩
  · cases reply with
    | none => simp [verifyMXNInfo]
    | some r =>
      obtain ⟨addr, ver⟩ := r
      cases ver with
      | none =>
        by_cases ha : addr = "" <;> simp [verifyMXNInfo, checkVersion, ha]
      | some v =>
        obtain ⟨a, b, c⟩ := v
        obtain ⟨x, y, z⟩ := dv
        by_cases ha : addr = ""
        · simp [verifyMXNInfo, checkVersion, ha]
        · by_cases hv : (SemVer.mk (int a) (int b) (int c)) = SemVer.mk x y z
          · simp only [verifyMXNInfo, checkVersion, ha, if_false, ne_eq, hv, not_true]
            simp only [int, SemVer.mk.injEq] at hv
            simp [ha, hv]
          · simp only [verifyMXNInfo, checkVersion, ha, if_false, ne_eq, hv, not_false_eq_true,
              if_true]
            simp only [int, SemVer.mk.injEq] at hv
            simp only [reduceCtorEq, false_iff, not_exists, not_and]
            intro r v hr _ hver h1 h2 h3
            simp only [Option.some.injEq] at hr
            subst hr
            simp only [Option.some.injEq] at hver
            subst hver
            exact hv ⟨h1, h2, h3⟩
  · cases hres : verifyMXNInfo dv reply <;> simp

/-- C10, as the code has it: `CheckMXNArgs` returns nil exactly when the
argument is non-nil and its `App`, `DeploymentId`, `Id` and `ControlSocket`
are non-empty; `InternalAddress` and `Redirects` are not looked at. -/
theorem CheckMXNArgs_nil_iff (w : Option MXNArgs) :
    (CheckMXNArgs w = none ↔
      ∃ a, w = some a ∧ a.App ≠ "" ∧ a.DeploymentId ≠ "" ∧ a.Id ≠ "" ∧ a.ControlSocket ≠ "") ∧
    (CheckMXNArgs w ≠ none ↔ ∃ err, CheckMXNArgs w = some err) := by
  refine ⟨?_, ?_⟩
  · cases w with
    | none => simp [CheckMXNArgs]
    | some a =>
      by_cases h1 : a.App = "" <;> by_cases h2 : a.DeploymentId = "" <;>
        by_cases h3 : a.Id = "" <;> by_cases h4 : a.ControlSocket = "" <;>
        simp [CheckMXNArgs, h1, h2, h3, h4]
  · cases hres : CheckMXNArgs w <;> simp

/-- C10 fails as stated: arguments whose `InternalAddress` is empty and whose
other string fields are set pass `CheckMXNArgs`. -/
theorem CheckMXNArgs_accepts_empty_InternalAddress :
    (MXNArgs.mk "app" "dep" "id" true false "" "/tmp/mx/sock" []).InternalAddress = "" ∧
    CheckMXNArgs (some (MXNArgs.mk "app" "dep" "id" true false "" "/tmp/mx/sock" [])) = none := by
  decide

/-! ## Log capture -/

/-- C2 fails as stated: every `LogBatch` call is handed the same batch and the
same entry, and `logLines` rewrites only `Msg` and `TimeMicros` between calls.
With a handler that never fails and writes the level "info" into the entry,
the call for the second line of stdout carries the level "info"; with one
that never fails and empties `batch.Entries`, the call for the second line
carries no entry at all. -/
theorem logLines_handler_write_reaches_next_call :
    (∀ k b, (levelWritingHandler k b).err = none) ∧
    logLines sampleArgs "stdout" ⟨[97, 10, 98, 10], .EOF⟩ levelWritingHandler =
      some ⟨[⟨[LogEntry.mk "app" "dep" "stdout" "id" 0 "stdout" "" (-1) [97]]⟩,
          ⟨[LogEntry.mk "app" "dep" "stdout" "id" 0 "info" "" (-1) [98]]⟩],
        some (.Wrap "capture stdout" .EOF), ⟨[], .EOF⟩⟩ ∧
    (∀ k b, (drainingHandler k b).err = none) ∧
    logLines sampleArgs "stdout" ⟨[97, 10, 98, 10], .EOF⟩ drainingHandler =
      some ⟨[⟨[LogEntry.mk "app" "dep" "stdout" "id" 0 "stdout" "" (-1) [97]]⟩, ⟨[]⟩],
        some (.Wrap "capture stdout" .EOF), ⟨[], .EOF⟩⟩ :=
  ⟨fun _ _ => rfl, by decide, fun _ _ => rfl, by decide⟩

/-- C2, as the code has it: when the stream consists of the lines `l1`, `l2`,
... each followed by a newline, then EOF, and every `LogBatch` call succeeds,
`logLines` makes exactly one `LogBatch` call per line and returns the wrapped
EOF with the stream read to its end.  If moreover no call replaces
`batch.Entries` or changes `Level` or `Component` of the entry (it may change
every other field), then each call has exactly one entry, the messages of
the calls are the lines without their newlines in stream order, and `Level`
and `Component` of each entry are the stream name. -/
theorem logLines_delivers_each_line_once (mxn : MXNArgs) (c : String) (h : LogBatchFn)
    (ls : List (List Nat)) (hls : ∀ l ∈ ls, 10 ∉ l) (hok : ∀ k b, (h k b).err = none) :
    ∃ r, logLines mxn c ⟨(ls.map (fun l => l ++ [10])).flatten, .EOF⟩ h = some r ∧
      r.calls.length = ls.length ∧
      r.err = some (.Wrap ("capture " ++ c) .EOF) ∧ r.rdr.data = [] ∧
      ((∀ k en, (h k ⟨[en]⟩).entries = none ∧
          ∀ e, (h k ⟨[en]⟩).entry = some e → e.Level = en.Level ∧ e.Component = en.Component) →
        r.calls.map (fun b => b.Entries.map (fun en => en.Msg)) = ls.map (fun l => [l]) ∧
        (∀ b ∈ r.calls, b.Entries.length = 1 ∧
          ∀ en ∈ b.Entries, en.Level = c ∧ en.Component = c)) := by
  obtain ⟨news, hrun, hlen⟩ := logLinesLoop_count c h hok .EOF ls []
    ((ls.map (fun l => l ++ [10])).flatten.length + 1)
    { App := mxn.App, Version := mxn.DeploymentId, Component := c, Node := mxn.Id,
      Level := c, File := "", Line := -1, Msg := [], TimeMicros := 0 } [.own] [] hls (by simp)
    (by simp)
  simp only [List.append_nil, if_true, List.nil_append] at hrun hlen
  refine ⟨_, hrun, hlen, rfl, rfl, ?_⟩
  intro hframe
  obtain ⟨news1, hrun1, hmsgs, hall⟩ := logLinesLoop_lines c h
    (fun e => e.Level = c ∧ e.Component = c) (fun _ _ _ hp => hp) hok
    (fun k en => (hframe k en).1)
    (fun k en e he hp => by
      obtain ⟨h1, h2⟩ := (hframe k en).2 e he
      exact ⟨h1.trans hp.1, h2.trans hp.2⟩)
    .EOF ls [] ((ls.map (fun l => l ++ [10])).flatten.length + 1)
    { App := mxn.App, Version := mxn.DeploymentId, Component := c, Node := mxn.Id,
      Level := c, File := "", Line := -1, Msg := [], TimeMicros := 0 } [] ⟨rfl, rfl⟩ hls (by simp)
    (by simp)
  simp only [List.append_nil, if_true, List.nil_append] at hrun1 hmsgs
  have heq : news = news1 := by
    have := hrun.symm.trans hrun1
    simpa using this
  subst heq
  refine ⟨hmsgs, ?_⟩
  intro b hb
  refine ⟨?_, fun en hen => (hall b hb en hen).1⟩
  have hmem : b.Entries.map (fun en => en.Msg) ∈
      news.map (fun b => b.Entries.map (fun en => en.Msg)) := List.mem_map_of_mem _ hb
  rw [hmsgs] at hmem
  obtain ⟨l, _, hl⟩ := List.mem_map.mp hmem
  have := congrArg List.length hl
  simpa using this.symm

theorem logLines_delivers_each_line_once_witness :
    ∃ r, logLines sampleArgs "stdout"
        ⟨([[114, 101], [], [121]].map (fun l => l ++ [10])).flatten, .EOF⟩
        positionWritingHandler = some r ∧
      r.calls.length = 3 ∧
      r.err = some (.Wrap "capture stdout" .EOF) ∧ r.rdr.data = [] ∧
      r.calls.map (fun b => b.Entries.map (fun en => en.Msg)) = [[[114, 101]], [[]], [[121]]] ∧
      (∀ b ∈ r.calls, b.Entries.length = 1 ∧
        ∀ en ∈ b.Entries, en.Level = "stdout" ∧ en.Component = "stdout") := by
  obtain ⟨r, h1, h2, h3, h4, h5⟩ := logLines_delivers_each_line_once sampleArgs "stdout"
    positionWritingHandler [[114, 101], [], [121]] (by decide) (fun _ _ => rfl)
  refine ⟨r, h1, h2, h3, h4, h5 ?_⟩
  intro k en
  refine ⟨rfl, ?_⟩
  intro e he
  simp only [positionWritingHandler, List.head?_cons, Option.map_some', Option.some.injEq] at he
  subst he
  exact ⟨rfl, rfl⟩

/-! ## The stop gate of `Serve` -/

theorem stop_gate (s : StopState) (err : Option GoError)
    (hs : (s.onceDone = false ∧ s.stops = []) ∨
      (s.onceDone = true ∧ s.stops.head? = some s.stopErr)) :
    (stop s err).onceDone = true ∧ (stop s err).stops.head? = some (stop s err).stopErr := by
  rcases hs with ⟨h1, h2⟩ | ⟨h1, h2⟩
  · simp [stop, h1, h2]
  · cases hst : s.stops with
    | nil => simp [hst] at h2
    | cons a rest =>
      rw [hst] at h2
      simp only [List.head?_cons, Option.some.injEq] at h2
      simp [stop, h1, hst, h2]

theorem stop_fired (s : StopState) (err : Option GoError) (hs : s.onceDone = true) :
    (stop s err).stopErr = s.stopErr := by
  simp [stop, hs]

theorem runTask_total (e : Envelope) (w : ServeWorld) (s : StopState) (t : Task) :
    ∃ s1, runTask e w s t = some s1 := by
  cases t with
  | stdout =>
    cases hsrc : w.stdout with
    | none => exact ⟨s, by simp [runTask, captureTask, hsrc]⟩
    | some rdr =>
      obtain ⟨r, hr⟩ := logLines_total e.mxn "stdout" rdr (w.logBatch "stdout")
      exact ⟨_, by simp only [runTask, captureTask, hsrc, hr]; rfl⟩
  | stderr =>
    cases hsrc : w.stderr with
    | none => exact ⟨s, by simp [runTask, captureTask, hsrc]⟩
    | some rdr =>
      obtain ⟨r, hr⟩ := logLines_total e.mxn "stderr" rdr (w.logBatch "stderr")
      exact ⟨_, by simp only [runTask, captureTask, hsrc, hr]; rfl⟩
  | watcher => exact ⟨_, rfl⟩
  | server => exact ⟨_, rfl⟩

theorem captureTask_gate (e : Envelope) (w : ServeWorld) (name : String) (src : Option Reader)
    (s s1 : StopState) (h : captureTask e w name src s = some s1)
    (hs : (s.onceDone = false ∧ s.stops = []) ∨
      (s.onceDone = true ∧ s.stops.head? = some s.stopErr)) :
    ((s1.onceDone = false ∧ s1.stops = []) ∨
      (s1.onceDone = true ∧ s1.stops.head? = some s1.stopErr)) ∧
    (s.onceDone = true → s1.onceDone = true ∧ s1.stopErr = s.stopErr) := by
  unfold captureTask at h
  split at h
  · simp only [Option.some.injEq] at h
    subst h
    exact ⟨hs, fun hd => ⟨hd, rfl⟩⟩
  · split at h
    · simp at h
    · simp only [Option.some.injEq] at h
      subst h
      exact ⟨Or.inr (stop_gate _ _ hs), fun hd => ⟨rfl, stop_fired _ _ hd⟩⟩

theorem runTask_gate (e : Envelope) (w : ServeWorld) (s s1 : StopState) (t : Task)
    (h : runTask e w s t = some s1)
    (hs : (s.onceDone = false ∧ s.stops = []) ∨
      (s.onceDone = true ∧ s.stops.head? = some s.stopErr)) :
    ((s1.onceDone = false ∧ s1.stops = []) ∨
      (s1.onceDone = true ∧ s1.stops.head? = some s1.stopErr)) ∧
    (s.onceDone = true → s1.onceDone = true ∧ s1.stopErr = s.stopErr) := by
  cases t with
  | stdout => exact captureTask_gate e w _ _ s s1 h hs
  | stderr => exact captureTask_gate e w _ _ s s1 h hs
  | watcher =>
    simp only [runTask, Option.some.injEq] at h
    subst h
    exact ⟨Or.inr (stop_gate _ _ hs), fun hd => ⟨rfl, stop_fired _ _ hd⟩⟩
  | server =>
    simp only [runTask, Option.some.injEq] at h
    subst h
    exact ⟨Or.inr (stop_gate _ _ hs), fun hd => ⟨rfl, stop_fired _ _ hd⟩⟩

theorem runTasks_total (e : Envelope) (w : ServeWorld) :
    ∀ (ts : List Task) (s : StopState), ∃ s1, runTasks e w ts s = some s1
  | [], s => ⟨s, rfl⟩
  | t :: ts, s => by
    obtain ⟨s1, h1⟩ := runTask_total e w s t
    obtain ⟨s2, h2⟩ := runTasks_total e w ts s1
    exact ⟨s2, by simp [runTasks, h1, h2]⟩

theorem runTasks_gate (e : Envelope) (w : ServeWorld) :
    ∀ (ts : List Task) (s s1 : StopState), runTasks e w ts s = some s1 →
      ((s.onceDone = false ∧ s.stops = []) ∨
        (s.onceDone = true ∧ s.stops.head? = some s.stopErr)) →
      ((s1.onceDone = false ∧ s1.stops = []) ∨
        (s1.onceDone = true ∧ s1.stops.head? = some s1.stopErr)) ∧
      (s.onceDone = true → s1.onceDone = true ∧ s1.stopErr = s.stopErr)
  | [], s, s1, h, hs => by
    simp only [runTasks, Option.some.injEq] at h
    subst h
    exact ⟨hs, fun hd => ⟨hd, rfl⟩⟩
  | t :: ts, s, s1, h, hs => by
    obtain ⟨s2, h2⟩ := runTask_total e w s t
    simp only [runTasks, h2] at h
    have g1 := runTask_gate e w s s2 t h2 hs
    have g2 := runTasks_gate e w ts s2 s1 h g1.1
    refine ⟨g2.1, fun hd => ?_⟩
    have k1 := g1.2 hd
    have k2 := g2.2 k1.1
    exact ⟨k2.1, by rw [k2.2, k1.2]⟩

theorem runTask_fired_of_watcher (e : Envelope) (w : ServeWorld) (s s1 : StopState)
    (h : runTask e w s .watcher = some s1) : s1.onceDone = true := by
  simp only [runTask, Option.some.injEq] at h
  subst h
  rfl

theorem runTasks_fired (e : Envelope) (w : ServeWorld) :
    ∀ (ts : List Task) (s s1 : StopState), runTasks e w ts s = some s1 →
      ((s.onceDone = false ∧ s.stops = []) ∨
        (s.onceDone = true ∧ s.stops.head? = some s.stopErr)) →
      Task.watcher ∈ ts → s1.onceDone = true
  | [], _, _, _, _, hm => by simp at hm
  | t :: ts, s, s1, h, hs, hm => by
    obtain ⟨s2, h2⟩ := runTask_total e w s t
    simp only [runTasks, h2] at h
    have g1 := runTask_gate e w s s2 t h2 hs
    by_cases ht : t = .watcher
    · subst ht
      have hd2 := runTask_fired_of_watcher e w s s2 h2
      exact ((runTasks_gate e w ts s2 s1 h g1.1).2 hd2).1
    · have hm1 : Task.watcher ∈ ts := by
        rcases List.mem_cons.mp hm with heq | hmem
        · exact absurd heq.symm ht
        · exact hmem
      exact runTasks_fired e w ts s2 s1 h g1.1 hm1

theorem runTasks_waitErr (e : Envelope) (w : ServeWorld) (x : Option GoError) :
    ∀ (ts : List Task) (s : StopState),
      runTasks e { w with waitErr := x } ts s = runTasks e w ts s
  | [], _ => rfl
  | t :: ts, s => by
    have ht : runTask e { w with waitErr := x } s t = runTask e w s t := by
      cases t <;> rfl
    simp only [runTasks, ht]
    cases runTask e w s t with
    | none => rfl
    | some s1 => exact runTasks_waitErr e w x ts s1

/-- C3: once the listening socket is open, `Serve` returns the error given to
the first `stop` call of the run, and no later `stop` call replaces the error
the gate holds. -/
theorem Serve_returns_first_stop_error (e : Envelope) (w : ServeWorld)
    (hl : w.listenErr = none) :
    (∃ r, Serve e w = some r ∧ r.stops ≠ [] ∧ r.stops.head? = some r.ret) ∧
    (∀ (s : StopState) (e1 : Option GoError) (later : List (Option GoError)),
      s.onceDone = false → (later.foldl stop (stop s e1)).stopErr = e1) := by
  refine ⟨?_, ?_⟩
  · obtain ⟨s1, h1⟩ := runTasks_total e w w.order ⟨none, false, [], [.Listen e.myUds]⟩
    have g := (runTasks_gate e w w.order _ s1 h1 (Or.inl ⟨rfl, rfl⟩)).1
    have gs := stop_gate { s1 with events := s1.events ++ [.Wait] } w.waitErr g
    have hS : Serve e w = some
        ⟨(stop { s1 with events := s1.events ++ [.Wait] } w.waitErr).stopErr,
          (stop { s1 with events := s1.events ++ [.Wait] } w.waitErr).stops,
          (stop { s1 with events := s1.events ++ [.Wait] } w.waitErr).events ++ serveCleanup e⟩ := by
      simp only [Serve, hl, h1]
    exact ⟨_, hS, by simp [stop], gs.2⟩
  · intro s e1 later hs
    have hfold : ∀ (l : List (Option GoError)) (t : StopState), t.onceDone = true →
        (l.foldl stop t).stopErr = t.stopErr := by
      intro l
      induction l with
      | nil => intro t _; rfl
      | cons a l ih =>
        intro t ht
        simp only [List.foldl_cons]
        rw [ih (stop t a) rfl, stop_fired t a ht]
    rw [hfold later (stop s e1) rfl]
    simp [stop, hs]

theorem Serve_returns_first_stop_error_witness :
    crashWorld.listenErr = none ∧
    (∃ r, Serve sampleEnvelope crashWorld = some r ∧ r.stops ≠ [] ∧
      r.stops.head? = some r.ret) ∧
    (∀ (s : StopState) (e1 : Option GoError) (later : List (Option GoError)),
      s.onceDone = false → (later.foldl stop (stop s e1)).stopErr = e1) :=
  ⟨rfl, Serve_returns_first_stop_error sampleEnvelope crashWorld rfl⟩

theorem logLinesLoop_handler_error (c : String) (h : LogBatchFn) :
    ∀ (fuel : Nat) (rdr : Reader) (entry : LogEntry) (refs : List EntryRef)
      (calls : List LogEntryBatch) (r : CaptureResult),
      logLinesLoop c h fuel rdr entry refs calls = some r →
      (∀ k b, calls[k]? = some b → (h k b).err = none) →
      ∀ k b herr, r.calls[k]? = some b → (h k b).err = some herr →
        calls.length ≤ k ∧ k + 1 = r.calls.length ∧ r.err = some herr ∧
          r.rdr = readN rdr (k + 1 - calls.length)
  | 0, _, _, _, _, _, hr, _ => by simp [logLinesLoop] at hr
  | fuel + 1, rdr, entry, refs, calls, r, hr, hprev => by
    have last : ∀ (batch : LogEntryBatch) (k : Nat) (b : LogEntryBatch) (herr : GoError),
        (calls ++ [batch])[k]? = some b → (h k b).err = some herr →
        k = calls.length ∧ b = batch := by
      intro batch k b herr hk hb
      by_cases hlt : k < calls.length
      · rw [List.getElem?_append_left hlt] at hk
        rw [hprev k b hk] at hb
        cases hb
      · have hge : calls.length ≤ k := Nat.le_of_not_lt hlt
        rw [List.getElem?_append_right hge] at hk
        by_cases hz : k - calls.length = 0
        · rw [hz] at hk
          simp only [List.getElem?_cons_zero, Option.some.injEq] at hk
          exact ⟨by omega, hk.symm⟩
        · obtain ⟨m, hm⟩ := Nat.exists_eq_succ_of_ne_zero hz
          rw [hm] at hk
          simp at hk
    intro k b herr hk hb
    cases hs : splitDelim 10 rdr.data with
    | none =>
      have hread : readN rdr 1 = { rdr with data := [] } := by
        simp [readN, Reader.ReadBytes, hs]
      rw [logLinesLoop_end c h fuel rdr entry refs calls hs] at hr
      split at hr
      · split at hr
        · next herr1 hcall =>
          simp only [Option.some.injEq] at hr
          subst hr
          obtain ⟨hk1, hb1⟩ := last _ k b herr hk hb
          subst hk1
          subst hb1
          rw [hcall] at hb
          refine ⟨le_refl _, by simp, by simpa using hb, ?_⟩
          simp only [Nat.add_sub_cancel_left, hread]
        · next hcall =>
          simp only [Option.some.injEq] at hr
          subst hr
          obtain ⟨hk1, hb1⟩ := last _ k b herr hk hb
          subst hk1
          subst hb1
          rw [hcall] at hb
          cases hb
      · simp only [Option.some.injEq] at hr
        subst hr
        rw [hprev k b hk] at hb
        cases hb
    | some p =>
      obtain ⟨line, rest⟩ := p
      have hread : ∀ n, readN rdr (n + 1) = readN { rdr with data := rest } n := by
        intro n
        simp [readN, Reader.ReadBytes, hs]
      rw [logLinesLoop_found c h fuel rdr entry refs calls line rest hs] at hr
      split at hr
      · next herr1 hcall =>
        simp only [Option.some.injEq] at hr
        subst hr
        obtain ⟨hk1, hb1⟩ := last _ k b herr hk hb
        subst hk1
        subst hb1
        rw [hcall] at hb
        refine ⟨le_refl _, by simp, by simpa using hb, ?_⟩
        simp only [Nat.add_sub_cancel_left, hread 0]
        rfl
      · next hcall =>
        have key := logLinesLoop_handler_error c h fuel _ _ _ _ r hr (by
          intro k1 b1 hk1
          by_cases hlt : k1 < calls.length
          · rw [List.getElem?_append_left hlt] at hk1
            exact hprev k1 b1 hk1
          · cases hb1 : (h k1 b1).err with
            | none => rfl
            | some herr1 =>
              obtain ⟨hk2, hb2⟩ := last _ k1 b1 herr1 hk1 hb1
              subst hk2
              subst hb2
              rw [hcall] at hb1
              cases hb1) k b herr hk hb
        obtain ⟨hle, hlen, herr1, hrdr⟩ := key
        simp only [List.length_append, List.length_singleton] at hle hrdr
        refine ⟨by omega, hlen, herr1, ?_⟩
        have hidx : k + 1 - calls.length = (k + 1 - (calls.length + 1)) + 1 := by omega
        rw [hidx, hread, hrdr]

/-! ## What `Serve` returns -/

/-- C4 fails as stated: the child wrote nothing and left with status 137, both
pipes are at EOF and no `LogBatch` call was made, yet `Serve` returns the
error of the stdout capture and not the exit error of `child.Wait()`. -/
theorem Serve_child_crash_returns_capture_error :
    crashWorld.waitErr = some (.ExitError 137) ∧
    crashWorld.order = spawned crashWorld ∧
    Serve sampleEnvelope crashWorld = some
      ⟨some (.Wrap "capture stdout" .EOF),
        [some (.Wrap "capture stdout" .EOF), some (.Wrap "capture stderr" .EOF),
          some .Canceled, some .Canceled, some (.ExitError 137)],
        [.Listen "/tmp/mx1/uds0", .TaskDone "stdout", .Cancel, .TaskDone "stderr", .Cancel,
          .TaskDone "watcher", .Cancel, .TaskDone "server", .Cancel, .Wait, .Cancel,
          .RemoveAll "/tmp/mx1"]⟩ := by
  decide

theorem Serve_eq (e : Envelope) (w : ServeWorld) (s1 : StopState)
    (hl : w.listenErr = none)
    (h1 : runTasks e w w.order ⟨none, false, [], [.Listen e.myUds]⟩ = some s1) :
    Serve e w = some
      ⟨(stop { s1 with events := s1.events ++ [.Wait] } w.waitErr).stopErr,
        (stop { s1 with events := s1.events ++ [.Wait] } w.waitErr).stops,
        (stop { s1 with events := s1.events ++ [.Wait] } w.waitErr).events ++ serveCleanup e⟩ := by
  simp only [Serve, hl, h1]

/-- C4, as the code has it: once the listening socket is open, `Serve` returns
the error given to `stop` by the background task that finished first (the
cancellation watcher is always one of the tasks it waits for); the result of
`child.Wait()` is handed to `stop` last and has no influence on the value
returned. -/
theorem Serve_result_ignores_Wait (e : Envelope) (w : ServeWorld)
    (hl : w.listenErr = none) (hw : Task.watcher ∈ w.order) (x : Option GoError) :
    ∃ r r1, Serve e w = some r ∧ Serve e { w with waitErr := x } = some r1 ∧
      r1.ret = r.ret ∧ r.stops.head? = some r.ret ∧ r.stops.getLast? = some w.waitErr ∧
      2 ≤ r.stops.length := by
  obtain ⟨s1, h1⟩ := runTasks_total e w w.order ⟨none, false, [], [.Listen e.myUds]⟩
  have g := (runTasks_gate e w w.order _ s1 h1 (Or.inl ⟨rfl, rfl⟩)).1
  have hd := runTasks_fired e w w.order _ s1 h1 (Or.inl ⟨rfl, rfl⟩) hw
  have gs := stop_gate { s1 with events := s1.events ++ [.Wait] } w.waitErr g
  have h1x : runTasks e { w with waitErr := x } w.order ⟨none, false, [], [.Listen e.myUds]⟩
      = some s1 := by rw [runTasks_waitErr]; exact h1
  have hS := Serve_eq e w s1 hl h1
  have hSx := Serve_eq e { w with waitErr := x } s1 hl h1x
  have hne : s1.stops ≠ [] := by
    rcases g with ⟨hf, _⟩ | ⟨_, hh⟩
    · rw [hd] at hf; cases hf
    · intro hnil; rw [hnil] at hh; cases hh
  refine ⟨_, _, hS, hSx, ?_, gs.2, ?_, ?_⟩
  · simp [stop, hd]
  · simp [stop]
  · have : 0 < s1.stops.length := List.length_pos.mpr hne
    simp only [stop, List.length_append, List.length_singleton]
    omega

theorem Serve_result_ignores_Wait_witness :
    crashWorld.listenErr = none ∧ Task.watcher ∈ crashWorld.order ∧
    ∃ r r1, Serve sampleEnvelope crashWorld = some r ∧
      Serve sampleEnvelope { crashWorld with waitErr := none } = some r1 ∧
      r1.ret = r.ret ∧ r.stops.head? = some r.ret ∧
      r.stops.getLast? = some crashWorld.waitErr ∧ 2 ≤ r.stops.length :=
  ⟨rfl, by decide, Serve_result_ignores_Wait sampleEnvelope crashWorld rfl (by decide) none⟩

/-- C5 at the failing input: the child writes one line and leaves with status
0, both pipes reach EOF, every `LogBatch` call succeeds and `child.Wait()`
returns nil, yet `Serve` returns the error `capture stdout: EOF`. -/
theorem Serve_clean_exit_returns_error :
    cleanExitWorld.waitErr = none ∧
    (∀ name k b, (cleanExitWorld.logBatch name k b).err = none) ∧
    Serve sampleEnvelope cleanExitWorld = some
      ⟨some (.Wrap "capture stdout" .EOF),
        [some (.Wrap "capture stdout" .EOF), some (.Wrap "capture stderr" .EOF),
          some .Canceled, some .Canceled, none],
        [.Listen "/tmp/mx1/uds0",
          .LogBatch "stdout" ⟨[⟨"app", "dep", "stdout", "id", 0, "stdout", "", -1,
            [114, 101, 97, 100, 121]⟩]⟩,
          .TaskDone "stdout", .Cancel, .TaskDone "stderr", .Cancel,
          .TaskDone "watcher", .Cancel, .TaskDone "server", .Cancel, .Wait, .Cancel,
          .RemoveAll "/tmp/mx1"]⟩ := by
  refine ⟨rfl, fun _ _ _ => rfl, ?_⟩
  decide


theorem Serve_first_task (e : Envelope) (w : ServeWorld) (t : Task) (rest : List Task)
    (s2 : StopState) (hl : w.listenErr = none) (ho : w.order = t :: rest)
    (h2 : runTask e w ⟨none, false, [], [.Listen e.myUds]⟩ t = some s2)
    (hd : s2.onceDone = true) :
    ∃ res, Serve e w = some res ∧ res.ret = s2.stopErr := by
  have g2 := (runTask_gate e w _ s2 t h2 (Or.inl ⟨rfl, rfl⟩)).1
  obtain ⟨s1, h1⟩ := runTasks_total e w rest s2
  have g1 := (runTasks_gate e w rest s2 s1 h1 g2).2 hd
  have hall : runTasks e w w.order ⟨none, false, [], [.Listen e.myUds]⟩ = some s1 := by
    rw [ho]
    simp only [runTasks, h2, h1]
  refine ⟨_, Serve_eq e w s1 hl hall, ?_⟩
  simp [stop, g1.1, g1.2]

/-- C6 fails as stated: the handler fails the `LogBatch` call for the first of
two stdout lines; the second line is never delivered and the handler's error
is what `Serve` returns. -/
theorem Serve_LogBatch_error_is_fatal :
    Serve sampleEnvelope logFailWorld = some
      ⟨some (.Other "log sink down"),
        [some (.Other "log sink down"), some (.Wrap "capture stderr" .EOF),
          some .Canceled, some .Canceled, none],
        [.Listen "/tmp/mx1/uds0",
          .LogBatch "stdout" ⟨[⟨"app", "dep", "stdout", "id", 0, "stdout", "", -1, [97]⟩]⟩,
          .TaskDone "stdout", .Cancel, .TaskDone "stderr", .Cancel,
          .TaskDone "watcher", .Cancel, .TaskDone "server", .Cancel, .Wait, .Cancel,
          .RemoveAll "/tmp/mx1"]⟩ := by
  decide

/-- C6, as the code has it: when the capture task of a stream is the first to
finish, `Serve` returns the error of its `logLines` run; and if `LogBatch`
returned an error for a captured line, that call is the last one `logLines`
made for the stream, `logLines` returns that error unchanged, and it is the
result of `Serve`. -/
theorem Serve_returns_LogBatch_error (e : Envelope) (w : ServeWorld) (name : String)
    (t : Task) (src : Reader) (rest : List Task) (hl : w.listenErr = none)
    (ht : (t = .stdout ∧ name = "stdout" ∧ w.stdout = some src) ∨
      (t = .stderr ∧ name = "stderr" ∧ w.stderr = some src))
    (ho : w.order = t :: rest) :
    ∃ r res, logLines e.mxn name src (w.logBatch name) = some r ∧ Serve e w = some res ∧
      res.ret = r.err ∧
      ∀ k b herr, r.calls[k]? = some b → (w.logBatch name k b).err = some herr →
        k + 1 = r.calls.length ∧ r.err = some herr ∧ res.ret = some herr := by
  obtain ⟨r, hr⟩ := logLines_total e.mxn name src (w.logBatch name)
  have hrun : runTask e w ⟨none, false, [], [.Listen e.myUds]⟩ t = some
      (stop { (⟨none, false, [], [.Listen e.myUds]⟩ : StopState) with
        events := [.Listen e.myUds] ++ r.calls.map (Event.LogBatch name) ++ [.TaskDone name] }
        r.err) := by
    rcases ht with ⟨rfl, rfl, hsrc⟩ | ⟨rfl, rfl, hsrc⟩
    · simp only [runTask, captureTask, hsrc, hr]
    · simp only [runTask, captureTask, hsrc, hr]
  obtain ⟨res, hres, hret⟩ := Serve_first_task e w t rest _ hl ho hrun rfl
  have hret1 : res.ret = r.err := by rw [hret]; simp [stop]
  refine ⟨r, res, hr, hres, hret1, ?_⟩
  intro k b herr hk hb
  have key := logLinesLoop_handler_error name (w.logBatch name) _ _ _ _ _ r hr
    (by intro k b hkb; simp at hkb) k b herr hk hb
  exact ⟨key.2.1, key.2.2.1, by rw [hret1, key.2.2.1]⟩

theorem Serve_returns_LogBatch_error_witness :
    logFailWorld.listenErr = none ∧
    ((Task.stdout = .stdout ∧ "stdout" = "stdout" ∧
        logFailWorld.stdout = some ⟨[97, 10, 98, 10], .EOF⟩) ∨
      (Task.stdout = .stderr ∧ "stdout" = "stderr" ∧
        logFailWorld.stderr = some ⟨[97, 10, 98, 10], .EOF⟩)) ∧
    logFailWorld.order = Task.stdout :: [.stderr, .watcher, .server] ∧
    ∃ r res, logLines sampleEnvelope.mxn "stdout" ⟨[97, 10, 98, 10], .EOF⟩
        (logFailWorld.logBatch "stdout") = some r ∧
      Serve sampleEnvelope logFailWorld = some res ∧ res.ret = r.err ∧
      ∀ k b herr, r.calls[k]? = some b → (logFailWorld.logBatch "stdout" k b).err = some herr →
        k + 1 = r.calls.length ∧ r.err = some herr ∧ res.ret = some herr :=
  ⟨rfl, Or.inl ⟨rfl, rfl, rfl⟩, rfl,
    Serve_returns_LogBatch_error sampleEnvelope logFailWorld "stdout" .stdout
      ⟨[97, 10, 98, 10], .EOF⟩ [.stderr, .watcher, .server] rfl (Or.inl ⟨rfl, rfl, rfl⟩) rfl⟩

/-! ## `NewEnvelope` -/

theorem getMXNControlStub_events (w : NewWorld) (s : String) :
    (getMXNControlStub w s).2 = [] ∨ (getMXNControlStub w s).2 = [.Connect s] := by
  unfold getMXNControlStub
  split
  · exact Or.inl rfl
  · split <;> exact Or.inr rfl

theorem getMXNControlStub_ok (w : NewWorld) (s : String) (ev : List Event)
    (h : getMXNControlStub w s = (none, ev)) :
    ev = [.Connect s] ∧ w.controllerFound = true ∧ w.connect s = none := by
  unfold getMXNControlStub at h
  split at h
  · simp at h
  · split at h
    · simp at h
    · next hc =>
      simp only [Prod.mk.injEq, true_and] at h
      simp_all

theorem newEnvelopeBody_events (w : NewWorld) (wlet : MXNArgs) (config : Option AppConfig)
    (dir : String) (owned : Bool) :
    (newEnvelopeBody w (some wlet) config dir owned).2 = [] ∨
    (newEnvelopeBody w (some wlet) config dir owned).2 = [.Connect (w.socketPath 1 dir)] ∨
    (newEnvelopeBody w (some wlet) config dir owned).2 =
      [.Connect (w.socketPath 1 dir),
        .Start config { wlet with
          ControlSocket := w.socketPath 1 dir
          Redirects := [⟨DeployerPath, DeployerPath, "unix://" ++ w.socketPath 0 dir⟩] }] ∨
    ∃ c, config = some c ∧ (newEnvelopeBody w (some wlet) config dir owned).2 =
      [.Connect (w.socketPath 1 dir),
        .Start config { wlet with
          ControlSocket := w.socketPath 1 dir
          Redirects := [⟨DeployerPath, DeployerPath, "unix://" ++ w.socketPath 0 dir⟩] },
        .InitMXN c.Sections] := by
  have hev := getMXNControlStub_events w (w.socketPath 1 dir)
  rcases hstub : getMXNControlStub w (w.socketPath 1 dir) with ⟨oerr, ev⟩
  rw [hstub] at hev
  simp only at hev
  cases oerr with
  | some err =>
    have hb : (newEnvelopeBody w (some wlet) config dir owned).2 = ev := by
      simp only [newEnvelopeBody, hstub]
    rw [hb]
    rcases hev with rfl | rfl
    · exact Or.inl rfl
    · exact Or.inr (Or.inl rfl)
  | none =>
    have hev1 := (getMXNControlStub_ok w _ ev hstub).1
    subst hev1
    cases hst : w.start config { wlet with
        ControlSocket := w.socketPath 1 dir
        Redirects := [⟨DeployerPath, DeployerPath, "unix://" ++ w.socketPath 0 dir⟩] } with
    | some err =>
      refine Or.inr (Or.inr (Or.inl ?_))
      simp only [newEnvelopeBody, hstub, hst]
      rfl
    | none =>
      cases config with
      | none =>
        refine Or.inr (Or.inr (Or.inl ?_))
        simp only [newEnvelopeBody, hstub, hst]
        rfl
      | some c =>
        refine Or.inr (Or.inr (Or.inr ⟨c, rfl, ?_⟩))
        simp only [newEnvelopeBody, hstub, hst]
        split
        · rfl
        · split
          · rfl
          · split <;> rfl

theorem newEnvelopeBody_start (w : NewWorld) (wlet : MXNArgs) (config : Option AppConfig)
    (dir : String) (owned : Bool) (cfg : Option AppConfig) (args : MXNArgs)
    (h : Event.Start cfg args ∈ (newEnvelopeBody w (some wlet) config dir owned).2) :
    cfg = config ∧ args = { wlet with
      ControlSocket := w.socketPath 1 dir
      Redirects := [⟨DeployerPath, DeployerPath, "unix://" ++ w.socketPath 0 dir⟩] } := by
  rcases newEnvelopeBody_events w wlet config dir owned with h1 | h1 | h1 | ⟨c, _, h1⟩
  all_goals (rw [h1] at h; simp at h)
  · exact h
  · exact h


theorem newEnvelopeBody_ok (w : NewWorld) (wlet : Option MXNArgs) (config : Option AppConfig)
    (dir : String) (owned : Bool) (e : Envelope)
    (h : (newEnvelopeBody w wlet config dir owned).1 = .ok e) :
    ∃ wlet0 cfg r, wlet = some wlet0 ∧ config = some cfg ∧ w.initMXN = .ok (some r) ∧
      verifyMXNInfo w.deployerVersion (some r) = none ∧
      e = { tmpDir := dir, tmpDirOwned := owned, myUds := w.socketPath 0 dir,
            mxn := { wlet0 with
              ControlSocket := w.socketPath 1 dir
              Redirects := [⟨DeployerPath, DeployerPath, "unix://" ++ w.socketPath 0 dir⟩] },
            mxnAddr := r.DialAddr, config := some cfg } ∧
      (newEnvelopeBody w wlet config dir owned).2 =
        [.Connect (w.socketPath 1 dir), .Start (some cfg) e.mxn, .InitMXN cfg.Sections] := by
  cases wlet with
  | none => simp [newEnvelopeBody] at h
  | some wlet0 =>
    rcases hstub : getMXNControlStub w (w.socketPath 1 dir) with ⟨oerr, ev⟩
    cases oerr with
    | some err => simp [newEnvelopeBody, hstub] at h
    | none =>
      have hev1 := (getMXNControlStub_ok w _ ev hstub).1
      subst hev1
      cases hst : w.start config { wlet0 with
          ControlSocket := w.socketPath 1 dir
          Redirects := [⟨DeployerPath, DeployerPath, "unix://" ++ w.socketPath 0 dir⟩] } with
      | some err => simp [newEnvelopeBody, hstub, hst] at h
      | none =>
        cases config with
        | none => simp [newEnvelopeBody, hstub, hst] at h
        | some cfg =>
          cases hin : w.initMXN with
          | error err => simp [newEnvelopeBody, hstub, hst, hin] at h
          | ok reply =>
            cases hv : verifyMXNInfo w.deployerVersion reply with
            | some err => simp [newEnvelopeBody, hstub, hst, hin, hv] at h
            | none =>
              cases reply with
              | none => simp [newEnvelopeBody, hstub, hst, hin, hv] at h
              | some r =>
                simp only [newEnvelopeBody, hstub, hst, hin, hv, Outcome.ok.injEq] at h
                refine ⟨wlet0, cfg, r, rfl, rfl, rfl, hv, h.symm, ?_⟩
                simp only [newEnvelopeBody, hstub, hst, hin, hv]
                rw [← h]
                rfl

theorem runTask_events (e : Envelope) (w : ServeWorld) (s s1 : StopState) (t : Task)
    (h : runTask e w s t = some s1) : ∃ more, s1.events = s.events ++ more := by
  cases t with
  | stdout =>
    simp only [runTask, captureTask] at h
    split at h
    · simp only [Option.some.injEq] at h
      exact ⟨[], by simp [h]⟩
    · split at h
      · simp at h
      · simp only [Option.some.injEq] at h
        exact ⟨_, by rw [← h]; simp only [stop, List.append_assoc]; rfl⟩
  | stderr =>
    simp only [runTask, captureTask] at h
    split at h
    · simp only [Option.some.injEq] at h
      exact ⟨[], by simp [h]⟩
    · split at h
      · simp at h
      · simp only [Option.some.injEq] at h
        exact ⟨_, by rw [← h]; simp only [stop, List.append_assoc]; rfl⟩
  | watcher =>
    simp only [runTask, Option.some.injEq] at h
    exact ⟨_, by rw [← h]; simp only [stop, List.append_assoc]; rfl⟩
  | server =>
    simp only [runTask, Option.some.injEq] at h
    exact ⟨_, by rw [← h]; simp only [stop, List.append_assoc]; rfl⟩

theorem runTasks_events (e : Envelope) (w : ServeWorld) :
    ∀ (ts : List Task) (s s1 : StopState), runTasks e w ts s = some s1 →
      ∃ more, s1.events = s.events ++ more
  | [], s, s1, h => by
    simp only [runTasks, Option.some.injEq] at h
    exact ⟨[], by simp [h]⟩
  | t :: ts, s, s1, h => by
    obtain ⟨s2, h2⟩ := runTask_total e w s t
    simp only [runTasks, h2] at h
    obtain ⟨m1, hm1⟩ := runTask_events e w s s2 t h2
    obtain ⟨m2, hm2⟩ := runTasks_events e w ts s2 s1 h
    exact ⟨m1 ++ m2, by rw [hm2, hm1, List.append_assoc]⟩

/-- C9: after every successful `NewEnvelope`, the arguments passed to
`child.Start` (the only `Start` call) contain a redirect whose `Component` and
`Target` are `control.DeployerPath` and whose `Address` is "unix://" followed
by `myUds`, the path on which every run of `Serve` first listens; and their
`ControlSocket` is the socket the node-control stub was connected to (the only
`Connect` call). -/
theorem NewEnvelope_redirect_points_at_own_socket (w : NewWorld) (wlet : Option MXNArgs)
    (config : Option AppConfig) (options : Options) (e : Envelope)
    (h : (NewEnvelope w wlet config options).out = .ok e) :
    ∃ cfg args, Event.Start cfg args ∈ (NewEnvelope w wlet config options).events ∧
      (⟨DeployerPath, DeployerPath, "unix://" ++ e.myUds⟩ : Redirect) ∈ args.Redirects ∧
      Event.Connect args.ControlSocket ∈ (NewEnvelope w wlet config options).events ∧
      (∀ ev ∈ (NewEnvelope w wlet config options).events,
        (∀ c a, ev = Event.Start c a → a = args) ∧
        (∀ s, ev = Event.Connect s → s = args.ControlSocket)) ∧
      ∀ sw : ServeWorld, ∃ r, Serve e sw = some r ∧ r.events.head? = some (.Listen e.myUds) := by
  have hserve : ∀ sw : ServeWorld, ∃ r, Serve e sw = some r ∧
      r.events.head? = some (.Listen e.myUds) := by
    intro sw
    cases hl : sw.listenErr with
    | some err =>
      have hS : Serve e sw = some ⟨some err, [], [.Listen e.myUds] ++ serveCleanup e⟩ := by
        simp only [Serve, hl]
      exact ⟨_, hS, rfl⟩
    | none =>
      obtain ⟨s1, h1⟩ := runTasks_total e sw sw.order ⟨none, false, [], [.Listen e.myUds]⟩
      refine ⟨_, Serve_eq e sw s1 hl h1, ?_⟩
      obtain ⟨more, hmore⟩ := runTasks_events e sw sw.order _ s1 h1
      simp [stop, hmore]
  unfold NewEnvelope at h ⊢
  split at h
  · next htmp =>
    simp only [htmp, if_true]
    cases hnt : w.newTempDir with
    | error err => simp [hnt] at h
    | ok dir =>
      simp only [hnt] at h ⊢
      obtain ⟨wlet0, cfg, r, rfl, rfl, _, _, he, hevs⟩ := newEnvelopeBody_ok w wlet config dir true e h
      refine ⟨some cfg, e.mxn, ?_, ?_, ?_, ?_, hserve⟩
      · simp [hevs]
      · rw [he]; simp
      · rw [hevs]; simp [he]
      · intro ev hev
        rw [hevs, h] at hev
        simp [newEnvelopeDeferred] at hev
        rcases hev with rfl | rfl | rfl | rfl | rfl <;> simp [he]
  · next htmp =>
    simp only [htmp, if_false] at h ⊢
    obtain ⟨wlet0, cfg, r, rfl, rfl, _, _, he, hevs⟩ :=
      newEnvelopeBody_ok w wlet config options.TmpDir false e h
    refine ⟨some cfg, e.mxn, ?_, ?_, ?_, ?_, hserve⟩
    · simp [hevs]
    · rw [he]; simp
    · rw [hevs]; simp [he]
    · intro ev hev
      rw [hevs, h] at hev
      simp [newEnvelopeDeferred] at hev
      rcases hev with rfl | rfl | rfl <;> simp [he]


theorem NewEnvelope_redirect_points_at_own_socket_witness :
    (NewEnvelope (sampleNewWorld 0 24 0) (some sampleArgs) (some ⟨"app", "/bin/app", []⟩)
      ⟨""⟩).out = .ok sampleEnvelope ∧
    ∃ cfg args, Event.Start cfg args ∈ (NewEnvelope (sampleNewWorld 0 24 0) (some sampleArgs)
        (some ⟨"app", "/bin/app", []⟩) ⟨""⟩).events ∧
      (⟨DeployerPath, DeployerPath, "unix://" ++ sampleEnvelope.myUds⟩ : Redirect) ∈
        args.Redirects ∧
      Event.Connect args.ControlSocket ∈ (NewEnvelope (sampleNewWorld 0 24 0) (some sampleArgs)
        (some ⟨"app", "/bin/app", []⟩) ⟨""⟩).events ∧
      (∀ ev ∈ (NewEnvelope (sampleNewWorld 0 24 0) (some sampleArgs)
          (some ⟨"app", "/bin/app", []⟩) ⟨""⟩).events,
        (∀ c a, ev = Event.Start c a → a = args) ∧
        (∀ s, ev = Event.Connect s → s = args.ControlSocket)) ∧
      ∀ sw : ServeWorld, ∃ r, Serve sampleEnvelope sw = some r ∧
        r.events.head? = some (.Listen sampleEnvelope.myUds) :=
  ⟨by decide, NewEnvelope_redirect_points_at_own_socket (sampleNewWorld 0 24 0) (some sampleArgs)
    (some ⟨"app", "/bin/app", []⟩) ⟨""⟩ sampleEnvelope (by decide)⟩

/-- C7 fails as stated: the child reports 9.9.9 to a deployer built with
0.24.0; `NewEnvelope` returns the version-mismatch error, cancels its context
and removes the directory it created, but it never calls `child.Wait()`.  And
when the reply with the semver 9.9.9 has an empty dial address, the error is
the one about the dial address, not the version mismatch. -/
theorem NewEnvelope_mismatch_does_not_reap :
    NewEnvelope (sampleNewWorld 9 9 9) (some sampleArgs) (some ⟨"app", "/bin/app", []⟩) ⟨""⟩ =
      ⟨.error (.VersionMismatch ⟨0, 24, 0⟩ ⟨9, 9, 9⟩),
        [.NewTempDir, .OnExitSignal "/tmp/mx1", .Connect "/tmp/mx1/uds1",
          .Start (some ⟨"app", "/bin/app", []⟩)
            ⟨"app", "dep", "id", true, false, "localhost:0", "/tmp/mx1/uds1",
              [⟨DeployerPath, DeployerPath, "unix:///tmp/mx1/uds0"⟩]⟩,
          .InitMXN [], .RemoveAll "/tmp/mx1", .Cancel]⟩ ∧
    Event.Wait ∉ (NewEnvelope (sampleNewWorld 9 9 9) (some sampleArgs)
      (some ⟨"app", "/bin/app", []⟩) ⟨""⟩).events ∧
    (NewEnvelope { sampleNewWorld 9 9 9 with initMXN := .ok (some ⟨"", some ⟨9, 9, 9⟩⟩) }
        (some sampleArgs) (some ⟨"app", "/bin/app", []⟩) ⟨""⟩).out =
      .error (.Errorf "empty dial address for the mxn") ∧
    GoError.Errorf "empty dial address for the mxn" ≠ .VersionMismatch ⟨0, 24, 0⟩ ⟨9, 9, 9⟩ := by
  decide

/-- C7, as the code has it: when the steps before the version check succeed
and the reply's semver differs from `DeployerVersion` in major, minor or
patch, `NewEnvelope` returns an error and no envelope: the version-mismatch
error when the reply's dial address is non-empty, the error about the empty
dial address otherwise.  The last thing it does is to cancel its context, and
a directory it created itself has been removed just before, after the child
was started.  Its effects are exactly: making the directory and registering
its removal (if it made one), connecting, starting the child, `InitMXN`,
removing the directory (if it made one), cancelling; `child.Wait()` is not
among them. -/
theorem NewEnvelope_version_mismatch (w : NewWorld) (wlet : MXNArgs) (cfg : AppConfig)
    (options : Options) (dir : String) (r : InitMXNReply) (v : ProtoSemVer)
    (hdir : (options.TmpDir = "" ∧ w.newTempDir = .ok dir) ∨
      (options.TmpDir ≠ "" ∧ dir = options.TmpDir))
    (hfound : w.controllerFound = true) (hconn : w.connect (w.socketPath 1 dir) = none)
    (hstart : ∀ c a, w.start c a = none)
    (hinit : w.initMXN = .ok (some r)) (hver : r.Version = some v)
    (hne : ¬ (v.Major = w.deployerVersion.Major ∧ v.Minor = w.deployerVersion.Minor ∧
      v.Patch = w.deployerVersion.Patch)) :
    (∃ err, (NewEnvelope w (some wlet) (some cfg) options).out = .error err ∧
      (r.DialAddr ≠ "" →
        err = .VersionMismatch w.deployerVersion ⟨v.Major, v.Minor, v.Patch⟩)) ∧
    (NewEnvelope w (some wlet) (some cfg) options).events.getLast? = some .Cancel ∧
    (options.TmpDir = "" → ∃ before,
      (NewEnvelope w (some wlet) (some cfg) options).events =
        before ++ [.RemoveAll dir, .Cancel] ∧
      ∃ c a, Event.Start c a ∈ before) ∧
    (r.DialAddr = "" → (NewEnvelope w (some wlet) (some cfg) options).out =
      .error (.Errorf "empty dial address for the mxn")) ∧
    Event.Wait ∉ (NewEnvelope w (some wlet) (some cfg) options).events ∧
    (NewEnvelope w (some wlet) (some cfg) options).events =
      (if options.TmpDir = "" then [.NewTempDir, .OnExitSignal dir] else []) ++
        [.Connect (w.socketPath 1 dir),
          .Start (some cfg) { wlet with
            ControlSocket := w.socketPath 1 dir
            Redirects := [⟨DeployerPath, DeployerPath, "unix://" ++ w.socketPath 0 dir⟩] },
          .InitMXN cfg.Sections] ++
        (if options.TmpDir = "" then [.RemoveAll dir] else []) ++ [.Cancel] := by
  have hverify : ∃ err, verifyMXNInfo w.deployerVersion (some r) = some err ∧
      (r.DialAddr ≠ "" →
        err = .VersionMismatch w.deployerVersion ⟨v.Major, v.Minor, v.Patch⟩) ∧
      (r.DialAddr = "" → err = .Errorf "empty dial address for the mxn") := by
    have hgot : (SemVer.mk (int v.Major) (int v.Minor) (int v.Patch)) ≠ w.deployerVersion := by
      intro hEq
      apply hne
      rw [← hEq]
      exact ⟨rfl, rfl, rfl⟩
    by_cases ha : r.DialAddr = ""
    · exact ⟨.Errorf "empty dial address for the mxn", by simp [verifyMXNInfo, ha],
        fun hk => absurd ha hk, fun _ => rfl⟩
    · refine ⟨.VersionMismatch w.deployerVersion ⟨v.Major, v.Minor, v.Patch⟩, ?_, fun _ => rfl,
        fun hk => absurd hk ha⟩
      simp only [verifyMXNInfo, ha, if_false, hver, checkVersion, ne_eq, hgot, not_false_eq_true,
        if_true]
      rfl
  obtain ⟨err, herr, hkind, hempty⟩ := hverify
  have hstub : getMXNControlStub w (w.socketPath 1 dir) = (none, [.Connect (w.socketPath 1 dir)]) := by
    simp [getMXNControlStub, hfound, hconn]
  have hbody : ∀ owned, newEnvelopeBody w (some wlet) (some cfg) dir owned =
      (.error err, [.Connect (w.socketPath 1 dir),
        .Start (some cfg) { wlet with
          ControlSocket := w.socketPath 1 dir
          Redirects := [⟨DeployerPath, DeployerPath, "unix://" ++ w.socketPath 0 dir⟩] },
        .InitMXN cfg.Sections]) := by
    intro owned
    simp only [newEnvelopeBody, hstub, hstart, hinit, herr]
    rfl
  rcases hdir with ⟨htmp, hnt⟩ | ⟨htmp, rfl⟩
  · have hres : NewEnvelope w (some wlet) (some cfg) options =
        ⟨.error err, [.NewTempDir, .OnExitSignal dir, .Connect (w.socketPath 1 dir),
          .Start (some cfg) { wlet with
            ControlSocket := w.socketPath 1 dir
            Redirects := [⟨DeployerPath, DeployerPath, "unix://" ++ w.socketPath 0 dir⟩] },
          .InitMXN cfg.Sections] ++ [.RemoveAll dir, .Cancel]⟩ := by
      simp only [NewEnvelope, htmp, if_true, hnt, hbody, newEnvelopeDeferred]
      rfl
    rw [hres]
    refine ⟨⟨err, rfl, hkind⟩, by simp, fun _ => ⟨_, rfl, some cfg, _,
      List.mem_cons_of_mem _ (List.mem_cons_of_mem _ (List.mem_cons_of_mem _
        (List.mem_cons_self _ _)))⟩, ?_, ?_, ?_⟩
    · intro ha
      rw [hempty ha]
    · simp
    · simp [htmp]
  · have hres : NewEnvelope w (some wlet) (some cfg) options =
        ⟨.error err, [.Connect (w.socketPath 1 options.TmpDir),
          .Start (some cfg) { wlet with
            ControlSocket := w.socketPath 1 options.TmpDir
            Redirects := [⟨DeployerPath, DeployerPath,
              "unix://" ++ w.socketPath 0 options.TmpDir⟩] },
          .InitMXN cfg.Sections, .Cancel]⟩ := by
      simp only [NewEnvelope, htmp, if_false, hbody, newEnvelopeDeferred]
      rfl
    rw [hres]
    refine ⟨⟨err, rfl, hkind⟩, by simp, fun hk => absurd hk htmp, ?_, ?_, ?_⟩
    · intro ha
      rw [hempty ha]
    · simp
    · simp [htmp]

theorem NewEnvelope_version_mismatch_witness :
    (("" = "" ∧ (sampleNewWorld 9 9 9).newTempDir = .ok "/tmp/mx1") ∨
      ("" ≠ "" ∧ "/tmp/mx1" = "")) ∧
    ¬ ((9 : Int) = (sampleNewWorld 9 9 9).deployerVersion.Major ∧
      (9 : Int) = (sampleNewWorld 9 9 9).deployerVersion.Minor ∧
      (9 : Int) = (sampleNewWorld 9 9 9).deployerVersion.Patch) ∧
    (∃ err, (NewEnvelope (sampleNewWorld 9 9 9) (some sampleArgs)
        (some ⟨"app", "/bin/app", []⟩) ⟨""⟩).out = .error err ∧
      ("tcp://127.0.0.1:4000" ≠ "" →
        err = .VersionMismatch (sampleNewWorld 9 9 9).deployerVersion ⟨9, 9, 9⟩)) ∧
    (NewEnvelope (sampleNewWorld 9 9 9) (some sampleArgs)
      (some ⟨"app", "/bin/app", []⟩) ⟨""⟩).events.getLast? = some .Cancel ∧
    ("" = "" → ∃ before,
      (NewEnvelope (sampleNewWorld 9 9 9) (some sampleArgs)
        (some ⟨"app", "/bin/app", []⟩) ⟨""⟩).events =
        before ++ [.RemoveAll "/tmp/mx1", .Cancel] ∧
      ∃ c a, Event.Start c a ∈ before) ∧
    ("tcp://127.0.0.1:4000" = "" → (NewEnvelope (sampleNewWorld 9 9 9) (some sampleArgs)
      (some ⟨"app", "/bin/app", []⟩) ⟨""⟩).out = .error (.Errorf "empty dial address for the mxn")) ∧
    Event.Wait ∉ (NewEnvelope (sampleNewWorld 9 9 9) (some sampleArgs)
      (some ⟨"app", "/bin/app", []⟩) ⟨""⟩).events ∧
    (NewEnvelope (sampleNewWorld 9 9 9) (some sampleArgs)
        (some ⟨"app", "/bin/app", []⟩) ⟨""⟩).events =
      [.NewTempDir, .OnExitSignal "/tmp/mx1"] ++
        [.Connect "/tmp/mx1/uds1",
          .Start (some ⟨"app", "/bin/app", []⟩)
            ⟨"app", "dep", "id", true, false, "localhost:0", "/tmp/mx1/uds1",
              [⟨DeployerPath, DeployerPath, "unix:///tmp/mx1/uds0"⟩]⟩,
          .InitMXN []] ++ [.RemoveAll "/tmp/mx1"] ++ [.Cancel] :=
  ⟨Or.inl ⟨rfl, rfl⟩, by decide,
    NewEnvelope_version_mismatch (sampleNewWorld 9 9 9) sampleArgs ⟨"app", "/bin/app", []⟩ ⟨""⟩
      "/tmp/mx1" ⟨"tcp://127.0.0.1:4000", some ⟨9, 9, 9⟩⟩ ⟨9, 9, 9⟩ (Or.inl ⟨rfl, rfl⟩) rfl rfl
      (fun _ _ => rfl) rfl rfl (by decide)⟩

/-- C8 fails as stated: a redirect supplied by the caller is not among the
redirects of the arguments handed to `child.Start`. -/
theorem NewEnvelope_drops_caller_redirects :
    sampleArgs.Redirects = [⟨"a/b.C", "a/b.D", "tcp://10.0.0.1:1"⟩] ∧
    (NewEnvelope (sampleNewWorld 0 24 0) (some sampleArgs) (some ⟨"app", "/bin/app", []⟩)
      ⟨""⟩).events =
      [.NewTempDir, .OnExitSignal "/tmp/mx1", .Connect "/tmp/mx1/uds1",
        .Start (some ⟨"app", "/bin/app", []⟩)
          ⟨"app", "dep", "id", true, false, "localhost:0", "/tmp/mx1/uds1",
            [⟨DeployerPath, DeployerPath, "unix:///tmp/mx1/uds0"⟩]⟩,
        .InitMXN []] ∧
    (⟨"a/b.C", "a/b.D", "tcp://10.0.0.1:1"⟩ : Redirect) ∉
      [(⟨DeployerPath, DeployerPath, "unix:///tmp/mx1/uds0"⟩ : Redirect)] := by
  decide

/-- C8, as the code has it: the arguments handed to `child.Start` are the
caller's `MXNArgs` with the control socket path stamped in and `Redirects`
replaced by the single deployer-control redirect; every other field is the
caller's. -/
theorem NewEnvelope_child_args (w : NewWorld) (wlet : MXNArgs) (config : Option AppConfig)
    (options : Options) (cfg : Option AppConfig) (args : MXNArgs)
    (h : Event.Start cfg args ∈ (NewEnvelope w (some wlet) config options).events) :
    ∃ dir, ((options.TmpDir = "" ∧ w.newTempDir = .ok dir) ∨
        (options.TmpDir ≠ "" ∧ dir = options.TmpDir)) ∧
      cfg = config ∧
      args = { wlet with
        ControlSocket := w.socketPath 1 dir
        Redirects := [⟨DeployerPath, DeployerPath, "unix://" ++ w.socketPath 0 dir⟩] } := by
  unfold NewEnvelope at h
  split at h
  · next htmp =>
    cases hnt : w.newTempDir with
    | error err =>
      rw [hnt] at h
      simp at h
    | ok dir =>
      rw [hnt] at h
      simp only [List.mem_append, List.mem_cons, List.mem_singleton, reduceCtorEq, false_or,
        List.not_mem_nil, or_false] at h
      rcases h with h | h
      · exact ⟨dir, Or.inl ⟨htmp, rfl⟩, newEnvelopeBody_start w wlet config dir true cfg args h⟩
      · exfalso
        unfold newEnvelopeDeferred at h
        split at h <;> simp at h
  · next htmp =>
    simp only [List.mem_append] at h
    rcases h with h | h
    · exact ⟨options.TmpDir, Or.inr ⟨htmp, rfl⟩,
        newEnvelopeBody_start w wlet config options.TmpDir false cfg args h⟩
    · exfalso
      unfold newEnvelopeDeferred at h
      split at h <;> simp at h

theorem NewEnvelope_child_args_witness :
    Event.Start (some ⟨"app", "/bin/app", []⟩)
        ⟨"app", "dep", "id", true, false, "localhost:0", "/tmp/mx1/uds1",
          [⟨DeployerPath, DeployerPath, "unix:///tmp/mx1/uds0"⟩]⟩ ∈
      (NewEnvelope (sampleNewWorld 0 24 0) (some sampleArgs) (some ⟨"app", "/bin/app", []⟩)
        ⟨""⟩).events ∧
    ∃ dir, (("" = "" ∧ (sampleNewWorld 0 24 0).newTempDir = .ok dir) ∨
        ("" ≠ "" ∧ dir = "")) ∧
      some (AppConfig.mk "app" "/bin/app" []) = some ⟨"app", "/bin/app", []⟩ ∧
      (MXNArgs.mk "app" "dep" "id" true false "localhost:0" "/tmp/mx1/uds1"
          [⟨DeployerPath, DeployerPath, "unix:///tmp/mx1/uds0"⟩]) =
        { sampleArgs with
          ControlSocket := (sampleNewWorld 0 24 0).socketPath 1 dir
          Redirects := [⟨DeployerPath, DeployerPath,
            "unix://" ++ (sampleNewWorld 0 24 0).socketPath 0 dir⟩] } :=
  ⟨by decide, NewEnvelope_child_args (sampleNewWorld 0 24 0) sampleArgs
    (some ⟨"app", "/bin/app", []⟩) ⟨""⟩ _ _ (by decide)⟩

/-! ## Helper lemmas on directories and on the events of `Serve` -/

theorem dirExists_append (dir : String) (a b : List Event) (before : Bool) :
    dirExists dir (a ++ b) before = dirExists dir b (dirExists dir a before) := by
  simp [dirExists, List.foldl_append]

theorem dirExists_of_not_mem (dir : String) :
    ∀ (evs : List Event) (before : Bool), Event.RemoveAll dir ∉ evs →
      dirExists dir evs before = before
  | [], _, _ => rfl
  | ev :: evs, before, h => by
    have h1 : ev ≠ Event.RemoveAll dir := fun hk => h (by simp [hk])
    have h2 : Event.RemoveAll dir ∉ evs := fun hk => h (by simp [hk])
    have := dirExists_of_not_mem dir evs before h2
    simp only [dirExists, List.foldl_cons, h1, if_false] at this ⊢
    exact this

theorem dirExists_removed (dir : String) (evs post : List Event) (before : Bool)
    (hpost : Event.RemoveAll dir ∉ post) :
    dirExists dir (evs ++ [Event.RemoveAll dir] ++ post) before = false := by
  rw [dirExists_append, dirExists_append, dirExists_of_not_mem dir post _ hpost]
  simp [dirExists]

theorem newEnvelopeBody_started (w : NewWorld) (wlet : MXNArgs) (config : Option AppConfig)
    (dir : String) (owned : Bool) (hfound : w.controllerFound = true)
    (hconn : w.connect (w.socketPath 1 dir) = none) :
    Event.Start config { wlet with
        ControlSocket := w.socketPath 1 dir
        Redirects := [⟨DeployerPath, DeployerPath, "unix://" ++ w.socketPath 0 dir⟩] } ∈
      (newEnvelopeBody w (some wlet) config dir owned).2 := by
  have hstub : getMXNControlStub w (w.socketPath 1 dir) =
      (none, [.Connect (w.socketPath 1 dir)]) := by
    simp [getMXNControlStub, hfound, hconn]
  rcases newEnvelopeBody_events w wlet config dir owned with h1 | h1 | h1 | ⟨c, _, h1⟩
  · exfalso
    cases hst : w.start config { wlet with
        ControlSocket := w.socketPath 1 dir
        Redirects := [⟨DeployerPath, DeployerPath, "unix://" ++ w.socketPath 0 dir⟩] } <;>
      cases config <;> simp [newEnvelopeBody, hstub, hst] at h1
    all_goals (repeat' split at h1) <;> simp at h1
  · exfalso
    cases hst : w.start config { wlet with
        ControlSocket := w.socketPath 1 dir
        Redirects := [⟨DeployerPath, DeployerPath, "unix://" ++ w.socketPath 0 dir⟩] } <;>
      cases config <;> simp [newEnvelopeBody, hstub, hst] at h1
    all_goals (repeat' split at h1) <;> simp at h1
  · rw [h1]; simp
  · rw [h1]; simp


theorem runTask_events_kind (e : Envelope) (w : ServeWorld) (s s1 : StopState) (t : Task)
    (h : runTask e w s t = some s1) :
    ∃ more, s1.events = s.events ++ more ∧
      ∀ ev ∈ more, ev = .Cancel ∨ (∃ n, ev = .TaskDone n) ∨ ∃ c b, ev = .LogBatch c b := by
  have hcap : ∀ (name : String) (src : Option Reader),
      captureTask e w name src s = some s1 →
      ∃ more, s1.events = s.events ++ more ∧
        ∀ ev ∈ more, ev = .Cancel ∨ (∃ n, ev = .TaskDone n) ∨ ∃ c b, ev = .LogBatch c b := by
    intro name src hc
    unfold captureTask at hc
    split at hc
    · simp only [Option.some.injEq] at hc
      exact ⟨[], by simp [hc], by simp⟩
    · split at hc
      · simp at hc
      · next r _ =>
        simp only [Option.some.injEq] at hc
        refine ⟨r.calls.map (Event.LogBatch name) ++ [.TaskDone name] ++ [.Cancel], ?_, ?_⟩
        · rw [← hc]; simp only [stop, List.append_assoc]
        · intro ev hev
          simp only [List.mem_append, List.mem_map, List.mem_singleton] at hev
          rcases hev with (⟨b, _, rfl⟩ | rfl) | rfl
          · exact Or.inr (Or.inr ⟨_, _, rfl⟩)
          · exact Or.inr (Or.inl ⟨_, rfl⟩)
          · exact Or.inl rfl
  cases t with
  | stdout => exact hcap _ _ h
  | stderr => exact hcap _ _ h
  | watcher =>
    simp only [runTask, Option.some.injEq] at h
    refine ⟨[.TaskDone "watcher", .Cancel], by rw [← h]; simp [stop], ?_⟩
    intro ev hev
    simp only [List.mem_cons, List.mem_singleton, List.not_mem_nil, or_false] at hev
    rcases hev with rfl | rfl
    · exact Or.inr (Or.inl ⟨_, rfl⟩)
    · exact Or.inl rfl
  | server =>
    simp only [runTask, Option.some.injEq] at h
    refine ⟨[.TaskDone "server", .Cancel], by rw [← h]; simp [stop], ?_⟩
    intro ev hev
    simp only [List.mem_cons, List.mem_singleton, List.not_mem_nil, or_false] at hev
    rcases hev with rfl | rfl
    · exact Or.inr (Or.inl ⟨_, rfl⟩)
    · exact Or.inl rfl

theorem runTasks_events_kind (e : Envelope) (w : ServeWorld) :
    ∀ (ts : List Task) (s s1 : StopState), runTasks e w ts s = some s1 →
      ∃ more, s1.events = s.events ++ more ∧
        ∀ ev ∈ more, ev = .Cancel ∨ (∃ n, ev = .TaskDone n) ∨ ∃ c b, ev = .LogBatch c b
  | [], s, s1, h => by
    simp only [runTasks, Option.some.injEq] at h
    exact ⟨[], by simp [h], by simp⟩
  | t :: ts, s, s1, h => by
    obtain ⟨s2, h2⟩ := runTask_total e w s t
    simp only [runTasks, h2] at h
    obtain ⟨m1, hm1, k1⟩ := runTask_events_kind e w s s2 t h2
    obtain ⟨m2, hm2, k2⟩ := runTasks_events_kind e w ts s2 s1 h
    refine ⟨m1 ++ m2, by rw [hm2, hm1, List.append_assoc], ?_⟩
    intro ev hev
    rcases List.mem_append.mp hev with hm | hm
    · exact k1 ev hm
    · exact k2 ev hm

theorem Serve_listen_failed (e : Envelope) (w : ServeWorld) (err : GoError)
    (hl : w.listenErr = some err) :
    Serve e w = some ⟨some err, [], [.Listen e.myUds] ++ serveCleanup e⟩ := by
  simp only [Serve, hl]

theorem Serve_events_shape (e : Envelope) (w : ServeWorld) (hl : w.listenErr = none) :
    ∃ r s1 more, Serve e w = some r ∧
      runTasks e w w.order ⟨none, false, [], [.Listen e.myUds]⟩ = some s1 ∧
      s1.events = [.Listen e.myUds] ++ more ∧
      r.events = [.Listen e.myUds] ++ more ++ [.Wait, .Cancel] ++ serveCleanup e ∧
      ∀ ev ∈ more, ev = .Cancel ∨ (∃ n, ev = .TaskDone n) ∨ ∃ c b, ev = .LogBatch c b := by
  obtain ⟨s1, h1⟩ := runTasks_total e w w.order ⟨none, false, [], [.Listen e.myUds]⟩
  obtain ⟨more, hmore, hk⟩ := runTasks_events_kind e w w.order _ s1 h1
  refine ⟨_, s1, more, Serve_eq e w s1 hl h1, h1, hmore, ?_, hk⟩
  simp only [stop, hmore, List.append_assoc]
  rfl


/-! ## Arguments, directories and the order of calls in `NewEnvelope` and `Serve` -/

/-- C11 fails as stated: arguments whose `App`, `DeploymentId` and `Id` are
empty, which `CheckMXNArgs` rejects, are not refused by `NewEnvelope`; it
calls `child.Start` with them and returns an envelope. -/
theorem NewEnvelope_starts_child_with_malformed_args :
    CheckMXNArgs (some ⟨"", "", "", true, false, "", "", []⟩) =
      some (.Errorf "MXNArgs: missing app name") ∧
    NewEnvelope (sampleNewWorld 0 24 0) (some ⟨"", "", "", true, false, "", "", []⟩)
      (some ⟨"app", "/bin/app", []⟩) ⟨""⟩ =
      ⟨.ok { tmpDir := "/tmp/mx1", tmpDirOwned := true, myUds := "/tmp/mx1/uds0",
             mxn := ⟨"", "", "", true, false, "", "/tmp/mx1/uds1",
               [⟨DeployerPath, DeployerPath, "unix:///tmp/mx1/uds0"⟩]⟩,
             mxnAddr := "tcp://127.0.0.1:4000", config := some ⟨"app", "/bin/app", []⟩ },
        [.NewTempDir, .OnExitSignal "/tmp/mx1", .Connect "/tmp/mx1/uds1",
          .Start (some ⟨"app", "/bin/app", []⟩)
            ⟨"", "", "", true, false, "", "/tmp/mx1/uds1",
              [⟨DeployerPath, DeployerPath, "unix:///tmp/mx1/uds0"⟩]⟩,
          .InitMXN []]⟩ := by
  decide

/-- C11, as the code has it: `NewEnvelope` does not check its arguments.  For
every non-nil `MXNArgs`, whatever its fields hold, and every `AppConfig`
pointer, `nil` included, once the temporary directory is settled and the
node-control stub is open, `child.Start` is called with that config and with
the `MXNArgs` changed only in `ControlSocket` and `Redirects`. -/
theorem NewEnvelope_starts_child_unchecked (w : NewWorld) (wlet : MXNArgs)
    (config : Option AppConfig) (options : Options) (dir : String)
    (hdir : (options.TmpDir = "" ∧ w.newTempDir = .ok dir) ∨
      (options.TmpDir ≠ "" ∧ dir = options.TmpDir))
    (hfound : w.controllerFound = true) (hconn : w.connect (w.socketPath 1 dir) = none) :
    Event.Start config { wlet with
        ControlSocket := w.socketPath 1 dir
        Redirects := [⟨DeployerPath, DeployerPath, "unix://" ++ w.socketPath 0 dir⟩] } ∈
      (NewEnvelope w (some wlet) config options).events := by
  rcases hdir with ⟨htmp, hnt⟩ | ⟨htmp, rfl⟩
  · have hb := newEnvelopeBody_started w wlet config dir true hfound hconn
    simp only [NewEnvelope, htmp, if_true, hnt]
    simp only [List.mem_append]
    exact Or.inl (Or.inr hb)
  · have hb := newEnvelopeBody_started w wlet config options.TmpDir false hfound hconn
    simp only [NewEnvelope, htmp, if_false]
    simp only [List.mem_append]
    exact Or.inl hb

theorem NewEnvelope_starts_child_unchecked_witness :
    (("" = "" ∧ (sampleNewWorld 0 24 0).newTempDir = .ok "/tmp/mx1") ∨
      ("" ≠ "" ∧ "/tmp/mx1" = "")) ∧
    Event.Start none { (⟨"", "", "", true, false, "", "", []⟩ : MXNArgs) with
        ControlSocket := (sampleNewWorld 0 24 0).socketPath 1 "/tmp/mx1"
        Redirects := [⟨DeployerPath, DeployerPath,
          "unix://" ++ (sampleNewWorld 0 24 0).socketPath 0 "/tmp/mx1"⟩] } ∈
      (NewEnvelope (sampleNewWorld 0 24 0) (some ⟨"", "", "", true, false, "", "", []⟩) none
        ⟨""⟩).events :=
  ⟨Or.inl ⟨rfl, rfl⟩,
    NewEnvelope_starts_child_unchecked (sampleNewWorld 0 24 0) ⟨"", "", "", true, false, "", "", []⟩
      none ⟨""⟩ "/tmp/mx1" (Or.inl ⟨rfl, rfl⟩) rfl rfl⟩

theorem newEnvelopeBody_no_RemoveAll (w : NewWorld) (wlet : Option MXNArgs)
    (config : Option AppConfig) (dir : String) (owned : Bool) (d : String) :
    Event.RemoveAll d ∉ (newEnvelopeBody w wlet config dir owned).2 := by
  cases wlet with
  | none => simp [newEnvelopeBody]
  | some wlet0 =>
    rcases newEnvelopeBody_events w wlet0 config dir owned with h1 | h1 | h1 | ⟨c, _, h1⟩ <;>
      rw [h1] <;> simp

theorem Serve_no_RemoveAll (e : Envelope) (w : ServeWorld) (r : ServeResult)
    (ho : e.tmpDirOwned = false) (h : Serve e w = some r) (d : String) :
    Event.RemoveAll d ∉ r.events := by
  have hc : serveCleanup e = [] := by simp [serveCleanup, ho]
  cases hl : w.listenErr with
  | some err =>
    rw [Serve_listen_failed e w err hl] at h
    simp only [Option.some.injEq] at h
    rw [← h, hc]
    simp
  | none =>
    obtain ⟨r1, s1, more, hS, _, _, hev, hk⟩ := Serve_events_shape e w hl
    rw [hS] at h
    simp only [Option.some.injEq] at h
    subst h
    rw [hev, hc]
    simp only [List.append_nil, List.mem_append, List.mem_cons, List.mem_singleton,
      reduceCtorEq, List.not_mem_nil, or_false, false_or, or_self]
    intro hm
    rcases hk _ hm with hk1 | ⟨n, hk1⟩ | ⟨c, b, hk1⟩ <;> cases hk1

/-- C12: a directory that the envelope created is removed by the last thing
`Serve` does on every return path, a failed `net.Listen` included, so it does
not exist once `Serve` has returned; an envelope made with `Options.TmpDir`
empty owns the directory that `runtime.NewTempDir` gave it, one made with a
directory of the caller does not own it, and then neither `NewEnvelope` nor
`Serve` calls `os.RemoveAll` at all. -/
theorem tmpDir_removed_iff_created_by_envelope :
    (∀ (e : Envelope) (w : ServeWorld), e.tmpDirOwned = true →
      ∃ r, Serve e w = some r ∧ r.events.getLast? = some (.RemoveAll e.tmpDir) ∧
        dirExists e.tmpDir r.events true = false) ∧
    (∀ (w : NewWorld) (wlet : Option MXNArgs) (config : Option AppConfig) (options : Options)
      (e : Envelope), (NewEnvelope w wlet config options).out = .ok e →
      (options.TmpDir = "" → e.tmpDirOwned = true ∧ w.newTempDir = .ok e.tmpDir) ∧
      (options.TmpDir ≠ "" → e.tmpDirOwned = false ∧ e.tmpDir = options.TmpDir)) ∧
    (∀ (w : NewWorld) (wlet : Option MXNArgs) (config : Option AppConfig) (options : Options),
      options.TmpDir ≠ "" →
      (∀ d, Event.RemoveAll d ∉ (NewEnvelope w wlet config options).events) ∧
      (∀ b, dirExists options.TmpDir (NewEnvelope w wlet config options).events b = b) ∧
      ∀ e, (NewEnvelope w wlet config options).out = .ok e →
        ∀ (sw : ServeWorld), ∃ r, Serve e sw = some r ∧
          (∀ d, Event.RemoveAll d ∉ r.events) ∧
          ∀ b, dirExists options.TmpDir r.events b = b) := by
  refine ⟨?_, ?_, ?_⟩
  · intro e w ho
    have hc : serveCleanup e = [.RemoveAll e.tmpDir] := by simp [serveCleanup, ho]
    cases hl : w.listenErr with
    | some err =>
      refine ⟨_, Serve_listen_failed e w err hl, ?_, ?_⟩
      · rw [hc]; rfl
      · rw [hc]
        exact dirExists_removed e.tmpDir [.Listen e.myUds] [] true (by simp)
    | none =>
      obtain ⟨r, s1, more, hS, _, _, hev, _⟩ := Serve_events_shape e w hl
      refine ⟨r, hS, ?_, ?_⟩
      · rw [hev, hc]
        exact List.getLast?_concat _
      · rw [hev, hc]
        have := dirExists_removed e.tmpDir ([.Listen e.myUds] ++ more ++ [.Wait, .Cancel]) [] true
          (by simp)
        simpa using this
  · intro w wlet config options e h
    unfold NewEnvelope at h
    split at h
    · next htmp =>
      cases hnt : w.newTempDir with
      | error err => simp [hnt] at h
      | ok dir =>
        simp only [hnt] at h
        obtain ⟨_, _, _, _, _, _, _, he, _⟩ := newEnvelopeBody_ok w wlet config dir true e h
        refine ⟨fun _ => ?_, fun hk => absurd htmp hk⟩
        rw [he]
        exact ⟨rfl, rfl⟩
    · next htmp =>
      simp only at h
      obtain ⟨_, _, _, _, _, _, _, he, _⟩ :=
        newEnvelopeBody_ok w wlet config options.TmpDir false e h
      refine ⟨fun hk => absurd hk htmp, fun _ => ?_⟩
      rw [he]
      exact ⟨rfl, rfl⟩
  · intro w wlet config options htmp
    have hno : ∀ d, Event.RemoveAll d ∉ (NewEnvelope w wlet config options).events := by
      intro d
      simp only [NewEnvelope, htmp, if_false, List.mem_append, not_or]
      refine ⟨newEnvelopeBody_no_RemoveAll w wlet config options.TmpDir false d, ?_⟩
      unfold newEnvelopeDeferred
      split <;> simp
    refine ⟨hno, fun b => dirExists_of_not_mem _ _ b (hno _), ?_⟩
    intro e he sw
    have hown : e.tmpDirOwned = false := by
      simp only [NewEnvelope, htmp, if_false] at he
      obtain ⟨_, _, _, _, _, _, _, hee, _⟩ :=
        newEnvelopeBody_ok w wlet config options.TmpDir false e he
      rw [hee]
    have htot : ∃ r, Serve e sw = some r := by
      cases hl : sw.listenErr with
      | some err => exact ⟨_, Serve_listen_failed e sw err hl⟩
      | none =>
        obtain ⟨r, _, _, hS, _⟩ := Serve_events_shape e sw hl
        exact ⟨r, hS⟩
    obtain ⟨r, hr⟩ := htot
    exact ⟨r, hr, fun d => Serve_no_RemoveAll e sw r hown hr d,
      fun b => dirExists_of_not_mem _ _ b (Serve_no_RemoveAll e sw r hown hr _)⟩

theorem tmpDir_removed_iff_created_by_envelope_witness :
    sampleEnvelope.tmpDirOwned = true ∧
    ∃ r, Serve sampleEnvelope listenFailWorld = some r ∧
      r.events.getLast? = some (.RemoveAll sampleEnvelope.tmpDir) ∧
      dirExists sampleEnvelope.tmpDir r.events true = false :=
  ⟨rfl, tmpDir_removed_iff_created_by_envelope.1 sampleEnvelope listenFailWorld rfl⟩

/-- C13: when `NewEnvelope` made the temporary directory, every error return
after that has been preceded by `os.RemoveAll` of the directory, so that it
does not exist any more, and on a successful return no `os.RemoveAll` has been
called and the directory, stored in the envelope, still exists. -/
theorem NewEnvelope_removes_tmpDir_on_error (w : NewWorld) (wlet : Option MXNArgs)
    (config : Option AppConfig) (options : Options) (dir : String)
    (htmp : options.TmpDir = "") (hnt : w.newTempDir = .ok dir) :
    ∃ rest, (NewEnvelope w wlet config options).events =
        [.NewTempDir, .OnExitSignal dir] ++ rest ∧
      (∀ err, (NewEnvelope w wlet config options).out = .error err →
        Event.RemoveAll dir ∈ rest ∧ dirExists dir rest true = false) ∧
      (∀ e, (NewEnvelope w wlet config options).out = .ok e →
        e.tmpDir = dir ∧ Event.RemoveAll dir ∉ rest ∧ dirExists dir rest true = true) := by
  have hno := newEnvelopeBody_no_RemoveAll w wlet config dir true dir
  rcases hb : newEnvelopeBody w wlet config dir true with ⟨out, ev⟩
  rw [hb] at hno
  simp only at hno
  have hres : NewEnvelope w wlet config options =
      ⟨out, [.NewTempDir, .OnExitSignal dir] ++ (ev ++ newEnvelopeDeferred out dir true)⟩ := by
    simp only [NewEnvelope, htmp, if_true, hnt, hb, List.append_assoc]
  rw [hres]
  refine ⟨_, rfl, ?_, ?_⟩
  · intro err hout
    simp only at hout
    subst hout
    simp only [newEnvelopeDeferred, if_true]
    refine ⟨by simp, ?_⟩
    have := dirExists_removed dir ev [.Cancel] true (by simp)
    simpa using this
  · intro e hout
    simp only at hout
    subst hout
    have he : (newEnvelopeBody w wlet config dir true).1 = .ok e := by rw [hb]
    obtain ⟨_, _, _, _, _, _, _, hee, _⟩ := newEnvelopeBody_ok w wlet config dir true e he
    simp only [newEnvelopeDeferred, List.append_nil]
    exact ⟨by rw [hee], hno, dirExists_of_not_mem dir ev true hno⟩

theorem NewEnvelope_removes_tmpDir_on_error_witness :
    ("" : String) = "" ∧ (sampleNewWorld 9 9 9).newTempDir = .ok "/tmp/mx1" ∧
    ∃ rest, (NewEnvelope (sampleNewWorld 9 9 9) (some sampleArgs)
        (some ⟨"app", "/bin/app", []⟩) ⟨""⟩).events =
        [.NewTempDir, .OnExitSignal "/tmp/mx1"] ++ rest ∧
      (∀ err, (NewEnvelope (sampleNewWorld 9 9 9) (some sampleArgs)
          (some ⟨"app", "/bin/app", []⟩) ⟨""⟩).out = .error err →
        Event.RemoveAll "/tmp/mx1" ∈ rest ∧ dirExists "/tmp/mx1" rest true = false) ∧
      (∀ e, (NewEnvelope (sampleNewWorld 9 9 9) (some sampleArgs)
          (some ⟨"app", "/bin/app", []⟩) ⟨""⟩).out = .ok e →
        e.tmpDir = "/tmp/mx1" ∧ Event.RemoveAll "/tmp/mx1" ∉ rest ∧
          dirExists "/tmp/mx1" rest true = true) :=
  ⟨rfl, rfl, NewEnvelope_removes_tmpDir_on_error (sampleNewWorld 9 9 9) (some sampleArgs)
    (some ⟨"app", "/bin/app", []⟩) ⟨""⟩ "/tmp/mx1" rfl rfl⟩

theorem verifyMXNInfo_ok_addr (dv : SemVer) (r : InitMXNReply)
    (h : verifyMXNInfo dv (some r) = none) : r.DialAddr ≠ "" := by
  intro ha
  simp [verifyMXNInfo, ha] at h

theorem NewEnvelope_ok (w : NewWorld) (wlet : Option MXNArgs) (config : Option AppConfig)
    (options : Options) (e : Envelope) (h : (NewEnvelope w wlet config options).out = .ok e) :
    ∃ dir owned, (newEnvelopeBody w wlet config dir owned).1 = .ok e ∧
      (NewEnvelope w wlet config options).events =
        (if options.TmpDir = "" then [.NewTempDir, .OnExitSignal dir] else []) ++
          (newEnvelopeBody w wlet config dir owned).2 := by
  unfold NewEnvelope at h ⊢
  split at h
  · next htmp =>
    cases hnt : w.newTempDir with
    | error err => simp [hnt] at h
    | ok dir =>
      simp only [hnt] at h ⊢
      refine ⟨dir, true, h, ?_⟩
      simp only [htmp, if_true, h, newEnvelopeDeferred, List.append_nil]
  · next htmp =>
    simp only at h
    refine ⟨options.TmpDir, false, h, ?_⟩
    simp only [htmp, if_false, h, newEnvelopeDeferred, List.append_nil, List.nil_append]

/-- C14: for every envelope returned by a successful `NewEnvelope`,
`MXNAddress()` is the `DialAddr` of the `InitMXN` reply and is not empty; and
no sequence of later method calls (`Serve`, `GetHealth`, `GetProfile`,
`GetMetrics`, `GetLoad`, `UpdateComponents`, `UpdateRoutingInfo`) changes the
envelope's data, so `MXNAddress()` keeps its value. -/
theorem MXNAddress_set_once :
    (∀ (w : NewWorld) (wlet : Option MXNArgs) (config : Option AppConfig) (options : Options)
      (e : Envelope), (NewEnvelope w wlet config options).out = .ok e →
      ∃ r, w.initMXN = .ok (some r) ∧ e.MXNAddress = r.DialAddr ∧ e.MXNAddress ≠ "") ∧
    (∀ (σ : Type) (imp : Importer σ) (s : EnvelopeState σ) (ops : List Op),
      (ops.foldl (applyOp imp) s).e = s.e ∧
      (ops.foldl (applyOp imp) s).e.MXNAddress = s.e.MXNAddress) := by
  refine ⟨?_, ?_⟩
  · intro w wlet config options e h
    obtain ⟨dir, owned, hb, _⟩ := NewEnvelope_ok w wlet config options e h
    obtain ⟨_, _, r, _, _, hinit, hv, he, _⟩ := newEnvelopeBody_ok w wlet config dir owned e hb
    refine ⟨r, hinit, by rw [he]; rfl, ?_⟩
    rw [he]
    exact verifyMXNInfo_ok_addr _ r hv
  · intro σ imp s ops
    have key : ∀ (l : List Op) (t : EnvelopeState σ), (l.foldl (applyOp imp) t).e = t.e := by
      intro l
      induction l with
      | nil => intro t; rfl
      | cons op l ih =>
        intro t
        simp only [List.foldl_cons]
        rw [ih]
        cases op <;> rfl
    exact ⟨key ops s, by rw [key ops s]⟩

theorem MXNAddress_set_once_witness :
    (NewEnvelope (sampleNewWorld 0 24 0) (some sampleArgs) (some ⟨"app", "/bin/app", []⟩)
      ⟨""⟩).out = .ok sampleEnvelope ∧
    ∃ r, (sampleNewWorld 0 24 0).initMXN = .ok (some r) ∧
      sampleEnvelope.MXNAddress = r.DialAddr ∧ sampleEnvelope.MXNAddress ≠ "" :=
  ⟨by decide, MXNAddress_set_once.1 (sampleNewWorld 0 24 0) (some sampleArgs)
    (some ⟨"app", "/bin/app", []⟩) ⟨""⟩ sampleEnvelope (by decide)⟩

theorem newEnvelopeBody_init (w : NewWorld) (wlet : Option MXNArgs) (config : Option AppConfig)
    (dir : String) (owned : Bool) (s : List (String × String))
    (h : Event.InitMXN s ∈ (newEnvelopeBody w wlet config dir owned).2) :
    ∃ wlet0 cfg, wlet = some wlet0 ∧ config = some cfg ∧ s = cfg.Sections ∧
      (newEnvelopeBody w wlet config dir owned).2 =
        [.Connect (w.socketPath 1 dir),
          .Start (some cfg) { wlet0 with
            ControlSocket := w.socketPath 1 dir
            Redirects := [⟨DeployerPath, DeployerPath, "unix://" ++ w.socketPath 0 dir⟩] },
          .InitMXN cfg.Sections] ∧
      w.start (some cfg) { wlet0 with
        ControlSocket := w.socketPath 1 dir
        Redirects := [⟨DeployerPath, DeployerPath, "unix://" ++ w.socketPath 0 dir⟩] } = none := by
  cases wlet with
  | none => simp [newEnvelopeBody] at h
  | some wlet0 =>
    have hev := getMXNControlStub_events w (w.socketPath 1 dir)
    rcases hstub : getMXNControlStub w (w.socketPath 1 dir) with ⟨oerr, ev⟩
    rw [hstub] at hev
    simp only at hev
    cases oerr with
    | some err =>
      have hb : (newEnvelopeBody w (some wlet0) config dir owned).2 = ev := by
        simp only [newEnvelopeBody, hstub]
      rw [hb] at h
      rcases hev with rfl | rfl <;> simp at h
    | none =>
      have hev1 := (getMXNControlStub_ok w _ ev hstub).1
      subst hev1
      cases hst : w.start config { wlet0 with
          ControlSocket := w.socketPath 1 dir
          Redirects := [⟨DeployerPath, DeployerPath, "unix://" ++ w.socketPath 0 dir⟩] } with
      | some err =>
        simp [newEnvelopeBody, hstub, hst] at h
      | none =>
        cases config with
        | none => simp [newEnvelopeBody, hstub, hst] at h
        | some cfg =>
          have hb : (newEnvelopeBody w (some wlet0) (some cfg) dir owned).2 =
              [.Connect (w.socketPath 1 dir),
                .Start (some cfg) { wlet0 with
                  ControlSocket := w.socketPath 1 dir
                  Redirects := [⟨DeployerPath, DeployerPath,
                    "unix://" ++ w.socketPath 0 dir⟩] },
                .InitMXN cfg.Sections] := by
            simp only [newEnvelopeBody, hstub, hst]
            split
            · rfl
            · split
              · rfl
              · split <;> rfl
          rw [hb] at h
          simp at h
          exact ⟨wlet0, cfg, rfl, rfl, h, hb, hst⟩

/-- C15: in `NewEnvelope` an `InitMXN` call, if there is one, comes right after
the `child.Start` call, which returned no error, and there is no other
node-control call before or after it; and an envelope is returned only if
`InitMXN` succeeded, its reply passed `verifyMXNInfo`, and so the call was
made. -/
theorem InitMXN_is_the_only_node_control_call (w : NewWorld) (wlet : Option MXNArgs)
    (config : Option AppConfig) (options : Options) :
    (∀ s, Event.InitMXN s ∈ (NewEnvelope w wlet config options).events →
      ∃ pre post cfg args, (NewEnvelope w wlet config options).events =
          pre ++ [.Start cfg args, .InitMXN s] ++ post ∧
        w.start cfg args = none ∧
        ∀ ev ∈ pre ++ post, ∀ s1, ev ≠ Event.InitMXN s1) ∧
    (∀ e, (NewEnvelope w wlet config options).out = .ok e →
      ∃ r, w.initMXN = .ok (some r) ∧ verifyMXNInfo w.deployerVersion (some r) = none ∧
        ∃ s, Event.InitMXN s ∈ (NewEnvelope w wlet config options).events) := by
  have hdef : ∀ (out : Outcome Envelope) (d : String) (o : Bool),
      ∀ ev ∈ newEnvelopeDeferred out d o, ∀ s1, ev ≠ Event.InitMXN s1 := by
    intro out d o ev hev s1 hk
    subst hk
    unfold newEnvelopeDeferred at hev
    split at hev
    · simp at hev
    · split at hev <;> simp at hev
  refine ⟨?_, ?_⟩
  · intro s hs
    unfold NewEnvelope at hs ⊢
    split at hs
    · next htmp =>
      simp only [htmp, if_true]
      cases hnt : w.newTempDir with
      | error err => simp [hnt] at hs
      | ok dir =>
        simp only [hnt] at hs ⊢
        simp only [List.mem_append, List.mem_cons, reduceCtorEq, List.not_mem_nil, or_false,
          false_or] at hs
        rcases hs with hs | hs
        · obtain ⟨wlet0, cfg, _, _, hsec, hb, hst⟩ := newEnvelopeBody_init w wlet config dir true s hs
          refine ⟨[.NewTempDir, .OnExitSignal dir, .Connect (w.socketPath 1 dir)],
            newEnvelopeDeferred (newEnvelopeBody w wlet config dir true).1 dir true,
            some cfg, _, ?_, hst, ?_⟩
          · rw [hb, hsec]; rfl
          · intro ev hev s1
            rcases List.mem_append.mp hev with hm | hm
            · simp only [List.mem_cons, List.mem_singleton, List.not_mem_nil, or_false] at hm
              rcases hm with rfl | rfl | rfl <;> simp
            · exact hdef _ _ _ ev hm s1
        · exact absurd rfl (hdef _ _ _ _ hs s)
    · next htmp =>
      simp only [htmp, if_false] at hs ⊢
      rcases List.mem_append.mp hs with hs | hs
      · obtain ⟨wlet0, cfg, _, _, hsec, hb, hst⟩ :=
          newEnvelopeBody_init w wlet config options.TmpDir false s hs
        refine ⟨[.Connect (w.socketPath 1 options.TmpDir)],
          newEnvelopeDeferred (newEnvelopeBody w wlet config options.TmpDir false).1
            options.TmpDir false,
          some cfg, _, ?_, hst, ?_⟩
        · rw [hb, hsec]; rfl
        · intro ev hev s1
          rcases List.mem_append.mp hev with hm | hm
          · simp only [List.mem_singleton] at hm
            subst hm
            simp
          · exact hdef _ _ _ ev hm s1
      · exact absurd rfl (hdef _ _ _ _ hs s)
  · intro e h
    obtain ⟨dir, owned, hb, hev⟩ := NewEnvelope_ok w wlet config options e h
    obtain ⟨_, cfg, r, _, _, hinit, hv, _, hevs⟩ := newEnvelopeBody_ok w wlet config dir owned e hb
    refine ⟨r, hinit, hv, cfg.Sections, ?_⟩
    rw [hev, hevs]
    simp

theorem InitMXN_is_the_only_node_control_call_witness :
    Event.InitMXN [] ∈ (NewEnvelope (sampleNewWorld 0 24 0) (some sampleArgs)
      (some ⟨"app", "/bin/app", []⟩) ⟨""⟩).events ∧
    ∃ pre post cfg args, (NewEnvelope (sampleNewWorld 0 24 0) (some sampleArgs)
        (some ⟨"app", "/bin/app", []⟩) ⟨""⟩).events =
        pre ++ [.Start cfg args, .InitMXN []] ++ post ∧
      (sampleNewWorld 0 24 0).start cfg args = none ∧
      ∀ ev ∈ pre ++ post, ∀ s1, ev ≠ Event.InitMXN s1 :=
  ⟨by decide, (InitMXN_is_the_only_node_control_call (sampleNewWorld 0 24 0) (some sampleArgs)
    (some ⟨"app", "/bin/app", []⟩) ⟨""⟩).1 [] (by decide)⟩

/-- C16 at the failing input: when `net.Listen` fails, `Serve` returns the
listen error having only removed the directory it owns; it has neither
cancelled the context nor called `child.Wait()`. -/
theorem Serve_listen_failure_releases_nothing :
    Serve sampleEnvelope listenFailWorld = some
      ⟨some (.Other "listen unix /tmp/mx1/uds0: bind: address already in use"), [],
        [.Listen "/tmp/mx1/uds0", .RemoveAll "/tmp/mx1"]⟩ ∧
    Event.Cancel ∉ [Event.Listen "/tmp/mx1/uds0", Event.RemoveAll "/tmp/mx1"] ∧
    Event.Wait ∉ [Event.Listen "/tmp/mx1/uds0", Event.RemoveAll "/tmp/mx1"] := by
  decide

theorem logLinesLoop_reads_to_end (c : String) (h : LogBatchFn) :
    ∀ (fuel : Nat) (rdr : Reader) (entry : LogEntry) (refs : List EntryRef)
      (calls : List LogEntryBatch) (r : CaptureResult),
      logLinesLoop c h fuel rdr entry refs calls = some r →
      (∀ k b, r.calls[k]? = some b → (h k b).err = none) →
      r.rdr.data = [] ∧ r.err = some (.Wrap ("capture " ++ c) rdr.err) ∧ r.rdr.err = rdr.err
  | 0, _, _, _, _, _, hr, _ => by simp [logLinesLoop] at hr
  | fuel + 1, rdr, entry, refs, calls, r, hr, hall => by
    cases hs : splitDelim 10 rdr.data with
    | none =>
      rw [logLinesLoop_end c h fuel rdr entry refs calls hs] at hr
      split at hr
      · split at hr
        · next herr hcall =>
          simp only [Option.some.injEq] at hr
          subst hr
          have := hall calls.length _ (List.getElem?_concat_length _ _)
          rw [hcall] at this
          cases this
        · simp only [Option.some.injEq] at hr
          subst hr
          exact ⟨rfl, rfl, rfl⟩
      · simp only [Option.some.injEq] at hr
        subst hr
        exact ⟨rfl, rfl, rfl⟩
    | some p =>
      obtain ⟨line, rest⟩ := p
      rw [logLinesLoop_found c h fuel rdr entry refs calls line rest hs] at hr
      split at hr
      · next herr hcall =>
        simp only [Option.some.injEq] at hr
        subst hr
        have := hall calls.length _ (List.getElem?_concat_length _ _)
        rw [hcall] at this
        cases this
      · exact logLinesLoop_reads_to_end c h fuel ⟨rest, rdr.err⟩ _ _ _ r hr hall

theorem runTasks_TaskDone (e : Envelope) (w : ServeWorld) (t : Task) (name : String)
    (hname : ∀ s s1, runTask e w s t = some s1 → Event.TaskDone name ∈ s1.events) :
    ∀ (ts : List Task) (s s1 : StopState), runTasks e w ts s = some s1 → t ∈ ts →
      Event.TaskDone name ∈ s1.events
  | [], _, _, _, hm => by simp at hm
  | t1 :: ts, s, s1, h, hm => by
    obtain ⟨s2, h2⟩ := runTask_total e w s t1
    simp only [runTasks, h2] at h
    by_cases ht : t1 = t
    · subst ht
      obtain ⟨more, hmore⟩ := runTasks_events e w ts s2 s1 h
      rw [hmore]
      exact List.mem_append_left _ (hname s s2 h2)
    · have hm1 : t ∈ ts := by
        rcases List.mem_cons.mp hm with heq | hmem
        · exact absurd heq.symm ht
        · exact hmem
      exact runTasks_TaskDone e w t name hname ts s2 s1 h hm1

/-- C17 fails as stated: the handler fails the first `LogBatch` call of the
stdout capture; `logLines` returns with the line "b" still unread in the
stream, and `Serve` goes on to call `child.Wait()`. -/
theorem Serve_waits_before_stream_is_drained :
    logLines sampleEnvelope.mxn "stdout" ⟨[97, 10, 98, 10], .EOF⟩
        (logFailWorld.logBatch "stdout") = some
      ⟨[⟨[⟨"app", "dep", "stdout", "id", 0, "stdout", "", -1, [97]⟩]⟩],
        some (.Other "log sink down"), ⟨[98, 10], .EOF⟩⟩ ∧
    (Serve sampleEnvelope logFailWorld).map (fun r => r.events) = some
      [.Listen "/tmp/mx1/uds0",
        .LogBatch "stdout" ⟨[⟨"app", "dep", "stdout", "id", 0, "stdout", "", -1, [97]⟩]⟩,
        .TaskDone "stdout", .Cancel, .TaskDone "stderr", .Cancel,
        .TaskDone "watcher", .Cancel, .TaskDone "server", .Cancel, .Wait, .Cancel,
        .RemoveAll "/tmp/mx1"] := by
  decide

/-- C17, as the code has it: once the listening socket is open, `Serve` calls
`child.Wait()` once, after the stdout and the stderr capture tasks have
finished, that is after each has stopped reading its stream.  A capture task
none of whose `LogBatch` calls failed has read its stream to the end and
returns the wrapped read error (`io.EOF` at end of stream).  A capture task
whose `LogBatch` call number `k` (from 0) failed returns at once: that call
is its last, it returns the handler's error unchanged, and the stream is left
as it stood after the `k + 1` reads that produced the lines of these calls,
so that what follows the line of the failed call is unread. -/
theorem Serve_waits_after_capture_tasks (e : Envelope) (w : ServeWorld)
    (hl : w.listenErr = none)
    (hout : w.stdout.isSome = true → Task.stdout ∈ w.order)
    (herr : w.stderr.isSome = true → Task.stderr ∈ w.order) :
    (∃ r pre post, Serve e w = some r ∧ r.events = pre ++ [.Wait] ++ post ∧
      Event.Wait ∉ pre ∧ Event.Wait ∉ post ∧
      (w.stdout.isSome = true → Event.TaskDone "stdout" ∈ pre) ∧
      (w.stderr.isSome = true → Event.TaskDone "stderr" ∈ pre)) ∧
    (∀ name src res, logLines e.mxn name src (w.logBatch name) = some res →
      (∀ k b, res.calls[k]? = some b → (w.logBatch name k b).err = none) →
      res.rdr.data = [] ∧ res.err = some (.Wrap ("capture " ++ name) src.err)) ∧
    (∀ name src res k b herr1, logLines e.mxn name src (w.logBatch name) = some res →
      res.calls[k]? = some b → (w.logBatch name k b).err = some herr1 →
      k + 1 = res.calls.length ∧ res.err = some herr1 ∧ res.rdr = readN src (k + 1) ∧
        ∃ read, src.data = read ++ res.rdr.data) := by
  refine ⟨?_, ?_, ?_⟩
  · obtain ⟨r, s1, more, hS, hrun, hs1, hev, hk⟩ := Serve_events_shape e w hl
    refine ⟨r, [.Listen e.myUds] ++ more, [.Cancel] ++ serveCleanup e, hS, ?_, ?_, ?_, ?_, ?_⟩
    · rw [hev]; simp
    · simp only [List.mem_append, List.mem_singleton, reduceCtorEq, false_or]
      intro hm
      rcases hk _ hm with hk1 | ⟨n, hk1⟩ | ⟨c, b, hk1⟩ <;> cases hk1
    · unfold serveCleanup
      split <;> simp
    · intro hsome
      rw [← hs1]
      refine runTasks_TaskDone e w .stdout "stdout" ?_ w.order _ s1 hrun (hout hsome)
      intro s s2 h2
      obtain ⟨src, hsrc⟩ := Option.isSome_iff_exists.mp hsome
      simp only [runTask, captureTask, hsrc] at h2
      split at h2
      · simp at h2
      · simp only [Option.some.injEq] at h2
        rw [← h2]
        simp [stop]
    · intro hsome
      rw [← hs1]
      refine runTasks_TaskDone e w .stderr "stderr" ?_ w.order _ s1 hrun (herr hsome)
      intro s s2 h2
      obtain ⟨src, hsrc⟩ := Option.isSome_iff_exists.mp hsome
      simp only [runTask, captureTask, hsrc] at h2
      split at h2
      · simp at h2
      · simp only [Option.some.injEq] at h2
        rw [← h2]
        simp [stop]
  · intro name src res hres hall
    have := logLinesLoop_reads_to_end name (w.logBatch name) _ src _ _ _ res hres hall
    exact ⟨this.1, this.2.1⟩
  · intro name src res k b herr1 hres hk hb
    have key := logLinesLoop_handler_error name (w.logBatch name) _ _ _ _ _ res hres
      (by intro k b hkb; simp at hkb) k b herr1 hk hb
    refine ⟨key.2.1, key.2.2.1, by simpa using key.2.2.2, ?_⟩
    rw [key.2.2.2]
    exact readN_suffix _ _

theorem Serve_waits_after_capture_tasks_witness :
    logFailWorld.listenErr = none ∧
    (logFailWorld.stdout.isSome = true → Task.stdout ∈ logFailWorld.order) ∧
    (logFailWorld.stderr.isSome = true → Task.stderr ∈ logFailWorld.order) ∧
    (∃ r pre post, Serve sampleEnvelope logFailWorld = some r ∧
      r.events = pre ++ [.Wait] ++ post ∧ Event.Wait ∉ pre ∧ Event.Wait ∉ post ∧
      (logFailWorld.stdout.isSome = true → Event.TaskDone "stdout" ∈ pre) ∧
      (logFailWorld.stderr.isSome = true → Event.TaskDone "stderr" ∈ pre)) ∧
    (∀ name src res,
      logLines sampleEnvelope.mxn name src (logFailWorld.logBatch name) = some res →
      (∀ k b, res.calls[k]? = some b → (logFailWorld.logBatch name k b).err = none) →
      res.rdr.data = [] ∧ res.err = some (.Wrap ("capture " ++ name) src.err)) ∧
    (∀ name src res k b herr1,
      logLines sampleEnvelope.mxn name src (logFailWorld.logBatch name) = some res →
      res.calls[k]? = some b → (logFailWorld.logBatch name k b).err = some herr1 →
      k + 1 = res.calls.length ∧ res.err = some herr1 ∧ res.rdr = readN src (k + 1) ∧
        ∃ read, src.data = read ++ res.rdr.data) :=
  ⟨rfl, fun _ => by decide, fun _ => by decide,
    Serve_waits_after_capture_tasks sampleEnvelope logFailWorld rfl (fun _ => by decide)
      (fun _ => by decide)⟩

/-! ## The methods that forward to the node-control stub -/

/-- C18: `GetHealth` has no error result; when the node-control call fails it
returns a reply whose `Status` is `HealthStatus_UNKNOWN`, and when the call
succeeds it returns the controller's reply as it is. -/
theorem GetHealth_maps_errors_to_UNKNOWN (e : Envelope)
    (call : Except GoError (Option GetHealthReply)) :
    (∀ err, call = .error err → e.GetHealth call = some ⟨.UNKNOWN⟩) ∧
    (∀ reply, call = .ok reply → e.GetHealth call = reply) := by
  refine ⟨?_, ?_⟩
  · intro err h
    subst h
    rfl
  · intro reply h
    subst h
    rfl

theorem GetHealth_maps_errors_to_UNKNOWN_witness :
    sampleEnvelope.GetHealth (.error (.Other "connection refused")) = some ⟨.UNKNOWN⟩ :=
  (GetHealth_maps_errors_to_UNKNOWN sampleEnvelope (.error (.Other "connection refused"))).1
    (.Other "connection refused") rfl

/-- C19: `GetProfile` hands the request it was given to the node-control stub
and `GetLoad` calls the stub; if the stub returns an error they return that
error unchanged and no value, and if it returns a reply they return exactly
`reply.Data` or `reply.Load` and no error. -/
theorem GetProfile_GetLoad_forward (e : Envelope)
    (controller : Option GetProfileRequest → Except GoError (Option GetProfileReply))
    (req : Option GetProfileRequest) (call : Except GoError (Option GetLoadReply)) :
    (∀ err, controller req = .error err → e.GetProfile controller req = .error err) ∧
    (∀ reply, controller req = .ok (some reply) →
      e.GetProfile controller req = .ok reply.Data) ∧
    (∀ err, call = .error err → e.GetLoad call = .error err) ∧
    (∀ reply, call = .ok (some reply) → e.GetLoad call = .ok reply.Load) := by
  refine ⟨?_, ?_, ?_, ?_⟩
  · intro err h
    simp only [Envelope.GetProfile, h]
  · intro reply h
    simp only [Envelope.GetProfile, h]
  · intro err h
    subst h
    rfl
  · intro reply h
    subst h
    rfl

theorem GetProfile_GetLoad_forward_witness :
    sampleEnvelope.GetProfile (fun req => .ok (some ⟨[req.elim 0 (fun q => q.ProfileType)]⟩))
      (some ⟨2, 1000⟩) = .ok [2] :=
  (GetProfile_GetLoad_forward sampleEnvelope
    (fun req => .ok (some ⟨[req.elim 0 (fun q => q.ProfileType)]⟩)) (some ⟨2, 1000⟩)
    (.error .Canceled)).2.1 ⟨[2]⟩ rfl

theorem getMetricsCalls_ok {σ : Type} (e : Envelope) (imp : Importer σ) :
    ∀ (ds : List (Option MetricUpdate)) (m : σ),
      (getMetricsCalls e imp m (ds.map fun d => .ok (some ⟨d⟩))).2 =
        ds.foldl (fun st d => (imp.Import st d).2) m ∧
      (getMetricsCalls e imp m (ds.map fun d => .ok (some ⟨d⟩))).1.length = ds.length
  | [], m => ⟨rfl, rfl⟩
  | d :: ds, m => by
    have ih := getMetricsCalls_ok e imp ds (imp.Import m d).2
    have h1 : (e.GetMetrics imp m (.ok (some ⟨d⟩))).2 = (imp.Import m d).2 := by
      simp only [Envelope.GetMetrics]
      split <;> simp_all
    rcases hg : e.GetMetrics imp m (.ok (some ⟨d⟩)) with ⟨res, m1⟩
    rw [hg] at h1
    simp only at h1
    subst h1
    simp only [List.map_cons, getMetricsCalls, hg, List.foldl_cons, List.length_cons]
    exact ⟨ih.1, by rw [ih.2]⟩

/-- C20: if the controller's `GetMetrics` call fails, `GetMetrics` returns
that error and leaves the state of the importer as it was, whatever the
importer is; if the call succeeds, it returns exactly what the importer's
`Import` returns for `reply.Update` and keeps the state `Import` leaves; so
successive successful calls apply their updates to the importer one by one in
call order. -/
theorem GetMetrics_feeds_importer {σ : Type} (e : Envelope) (imp : Importer σ) (m : σ) :
    (∀ err, e.GetMetrics imp m (.error err) = (.error err, m)) ∧
    (∀ reply : GetMetricsReply,
      (e.GetMetrics imp m (.ok (some reply))).2 = (imp.Import m reply.Update).2 ∧
      (∀ snaps, (imp.Import m reply.Update).1 = .ok snaps →
        (e.GetMetrics imp m (.ok (some reply))).1 = .ok snaps) ∧
      (∀ err, (imp.Import m reply.Update).1 = .error err →
        (e.GetMetrics imp m (.ok (some reply))).1 = .error err)) ∧
    (∀ ds : List (Option MetricUpdate),
      (getMetricsCalls e imp m (ds.map fun d => .ok (some ⟨d⟩))).2 =
        ds.foldl (fun st d => (imp.Import st d).2) m ∧
      (getMetricsCalls e imp m (ds.map fun d => .ok (some ⟨d⟩))).1.length = ds.length) := by
  refine ⟨fun _ => rfl, ?_, fun ds => getMetricsCalls_ok e imp ds m⟩
  intro reply
  rcases hi : imp.Import m reply.Update with ⟨res, m1⟩
  cases res with
  | error err =>
    have hg : e.GetMetrics imp m (.ok (some reply)) = (.error err, m1) := by
      simp only [Envelope.GetMetrics, hi]
    rw [hg]
    refine ⟨rfl, ?_, ?_⟩
    · intro snaps hk
      cases hk
    · intro err1 hk
      simp only [Except.error.injEq] at hk
      rw [hk]
  | ok snaps =>
    have hg : e.GetMetrics imp m (.ok (some reply)) = (.ok snaps, m1) := by
      simp only [Envelope.GetMetrics, hi]
    rw [hg]
    refine ⟨rfl, ?_, ?_⟩
    · intro snaps1 hk
      simp only [Except.ok.injEq] at hk
      rw [hk]
    · intro err hk
      cases hk

theorem GetMetrics_feeds_importer_witness :
    sampleEnvelope.GetMetrics logImporter [] (.error .Canceled) = (.error .Canceled, []) ∧
    (getMetricsCalls sampleEnvelope logImporter []
      ([some ⟨[1]⟩, none, some ⟨[2]⟩].map fun d => .ok (some ⟨d⟩))).2 =
        [some ⟨[1]⟩, none, some ⟨[2]⟩].foldl (fun st d => (logImporter.Import st d).2) [] :=
  ⟨(GetMetrics_feeds_importer sampleEnvelope logImporter []).1 .Canceled,
    ((GetMetrics_feeds_importer sampleEnvelope logImporter []).2.2
      [some ⟨[1]⟩, none, some ⟨[2]⟩]).1⟩

/-! ## `fill.go` -/

theorem fillListenersLoop_calls (isValid : String → Bool) (get : GetFn) (tn : String) :
    ∀ (fields : List StructField) (i : Nat) (acc : FillResult),
      ∃ more, (fillListenersLoop isValid get tn fields i acc).calls = acc.calls ++ more ∧
        more <+: listenerNames fields ∧
        ((fillListenersLoop isValid get tn fields i acc).err = none →
          more = listenerNames fields)
  | [], i, acc => ⟨[], by simp [fillListenersLoop], by simp [listenerNames], fun _ => rfl⟩
  | t :: rest, i, acc => by
    by_cases ht : t.FieldType = FieldType.Listener
    · have hnames : listenerNames (t :: rest) = t.Tag.getD t.Name :: listenerNames rest := by
        simp [listenerNames, ht]
      cases htag : t.Tag with
      | none =>
        cases hg : get acc.calls.length t.Name with
        | error err =>
          refine ⟨[t.Name], ?_, ?_, ?_⟩
          · simp [fillListenersLoop, ht, htag, hg]
          · rw [hnames, htag]
            exact List.prefix_iff_eq_append.mpr (by simp)
          · intro h
            simp [fillListenersLoop, ht, htag, hg] at h
        | ok v =>
          obtain ⟨lis, px⟩ := v
          obtain ⟨more, h1, h2, h3⟩ := fillListenersLoop_calls isValid get tn rest (i + 1)
            { calls := acc.calls ++ [t.Name], fills := acc.fills ++ [(i, lis, px)], err := none }
          refine ⟨t.Name :: more, ?_, ?_, ?_⟩
          · simp only [fillListenersLoop, ht, htag, hg, ne_eq, not_true, if_false]
            rw [h1]
            simp
          · rw [hnames, htag]
            exact (List.prefix_cons_inj _).mpr h2
          · intro h
            simp only [fillListenersLoop, ht, htag, hg, ne_eq, not_true, if_false] at h
            rw [hnames, htag, h3 h]
            rfl
      | some tag =>
        by_cases hv : isValid t.Name = true
        · cases hg : get acc.calls.length tag with
          | error err =>
            refine ⟨[tag], ?_, ?_, ?_⟩
            · simp [fillListenersLoop, ht, htag, hg, hv]
            · rw [hnames, htag]
              exact List.prefix_iff_eq_append.mpr (by simp)
            · intro h
              simp [fillListenersLoop, ht, htag, hg, hv] at h
          | ok v =>
            obtain ⟨lis, px⟩ := v
            obtain ⟨more, h1, h2, h3⟩ := fillListenersLoop_calls isValid get tn rest (i + 1)
              { calls := acc.calls ++ [tag], fills := acc.fills ++ [(i, lis, px)], err := none }
            refine ⟨tag :: more, ?_, ?_, ?_⟩
            · simp only [fillListenersLoop, ht, htag, hg, hv, ne_eq, not_true, if_false,
                Bool.not_true, Bool.false_eq_true]
              rw [h1]
              simp
            · rw [hnames, htag]
              exact (List.prefix_cons_inj _).mpr h2
            · intro h
              simp only [fillListenersLoop, ht, htag, hg, hv, ne_eq, not_true, if_false,
                Bool.not_true, Bool.false_eq_true] at h
              rw [hnames, htag, h3 h]
              rfl
        · refine ⟨[], ?_, List.nil_prefix, ?_⟩
          · simp [fillListenersLoop, ht, htag, hv]
          · intro h
            simp [fillListenersLoop, ht, htag, hv] at h
    · obtain ⟨more, h1, h2, h3⟩ := fillListenersLoop_calls isValid get tn rest (i + 1) acc
      have hnames : listenerNames (t :: rest) = listenerNames rest := by
        simp [listenerNames, ht]
      refine ⟨more, ?_, ?_, ?_⟩
      · simp only [fillListenersLoop, ne_eq, ht, not_false_eq_true, if_true]
        exact h1
      · rw [hnames]; exact h2
      · intro h
        simp only [fillListenersLoop, ne_eq, ht, not_false_eq_true, if_true] at h
        rw [hnames]
        exact h3 h

theorem fillListenersLoop_ok (isValid : String → Bool) (get : GetFn) (tn : String)
    (hget : ∀ k name, ∃ v, get k name = .ok v) :
    ∀ (fields : List StructField) (i : Nat) (acc : FillResult),
      (∀ f ∈ fields, f.FieldType = FieldType.Listener → f.Tag.isSome = true →
        isValid f.Name = true) →
      acc.err = none → (fillListenersLoop isValid get tn fields i acc).err = none
  | [], _, acc, _, hacc => by simpa [fillListenersLoop] using hacc
  | t :: rest, i, acc, hvalid, hacc => by
    have hrest : ∀ f ∈ rest, f.FieldType = FieldType.Listener → f.Tag.isSome = true →
        isValid f.Name = true := fun f hf => hvalid f (List.mem_cons_of_mem _ hf)
    by_cases ht : t.FieldType = FieldType.Listener
    · cases htag : t.Tag with
      | none =>
        obtain ⟨⟨lis, px⟩, hg⟩ := hget acc.calls.length t.Name
        simp only [fillListenersLoop, ht, htag, hg, ne_eq, not_true, if_false]
        exact fillListenersLoop_ok isValid get tn hget rest (i + 1) _ hrest rfl
      | some tag =>
        have hv : isValid t.Name = true := hvalid t (List.mem_cons_self _ _) ht (by simp [htag])
        obtain ⟨⟨lis, px⟩, hg⟩ := hget acc.calls.length tag
        simp only [fillListenersLoop, ht, htag, hg, hv, ne_eq, not_true, if_false,
          Bool.not_true, Bool.false_eq_true]
        exact fillListenersLoop_ok isValid get tn hget rest (i + 1) _ hrest rfl
    · simp only [fillListenersLoop, ne_eq, ht, not_false_eq_true, if_true]
      exact fillListenersLoop_ok isValid get tn hget rest (i + 1) acc hrest hacc

/-- The run of the loop of `fillListeners` when the call of `get` for the
`Listener` field number `k` (from 0) is the first to fail. -/
theorem fillListenersLoop_get_error (isValid : String → Bool) (get : GetFn) (tn : String) :
    ∀ (fields : List StructField) (i : Nat) (acc : FillResult) (k : Nat) (f : StructField)
      (err : GoError),
      (fields.filter fun g => g.FieldType = FieldType.Listener)[k]? = some f →
      (∀ j g, j ≤ k → (fields.filter fun g => g.FieldType = FieldType.Listener)[j]? = some g →
        g.Tag.isSome = true → isValid g.Name = true) →
      (∀ j g, j < k → (fields.filter fun g => g.FieldType = FieldType.Listener)[j]? = some g →
        ∃ v, get (acc.calls.length + j) (g.Tag.getD g.Name) = .ok v) →
      get (acc.calls.length + k) (f.Tag.getD f.Name) = .error err →
      (fillListenersLoop isValid get tn fields i acc).calls =
        acc.calls ++ (listenerNames fields).take (k + 1) ∧
      (fillListenersLoop isValid get tn fields i acc).err =
        some (.Wrap ("FillListener: setting field " ++ tn ++ "." ++ f.Name) err) ∧
      (fillListenersLoop isValid get tn fields i acc).fills.length = acc.fills.length + k
  | [], _, _, k, f, err, hk, _, _, _ => by simp at hk
  | t :: rest, i, acc, k, f, err, hk, hvalid, hprev, hfail => by
    by_cases ht : t.FieldType = FieldType.Listener
    · have hfilter : (List.filter (fun g => decide (g.FieldType = FieldType.Listener)) (t :: rest)) =
          t :: List.filter (fun g => decide (g.FieldType = FieldType.Listener)) rest := by
        simp [ht]
      have hnames : listenerNames (t :: rest) = t.Tag.getD t.Name :: listenerNames rest := by
        simp [listenerNames, ht]
      rw [hfilter] at hk
      have hv : t.Tag.isSome = true → isValid t.Name = true := by
        intro hsome
        exact hvalid 0 t (Nat.zero_le _) (by rw [hfilter]; simp) hsome
      have hstep : ∀ (res : Except GoError (String × String)),
          get acc.calls.length (t.Tag.getD t.Name) = res →
          fillListenersLoop isValid get tn (t :: rest) i acc =
            match res with
            | .error e =>
              { calls := acc.calls ++ [t.Tag.getD t.Name], fills := acc.fills,
                err := some (.Wrap ("FillListener: setting field " ++ tn ++ "." ++ t.Name) e) }
            | .ok (lis, px) =>
              fillListenersLoop isValid get tn rest (i + 1)
                { calls := acc.calls ++ [t.Tag.getD t.Name], fills := acc.fills ++ [(i, lis, px)],
                  err := none } := by
        intro res hres
        cases htag : t.Tag with
        | none =>
          rw [htag] at hres
          simp only [Option.getD_none] at hres ⊢
          simp only [fillListenersLoop, ht, htag, ne_eq, not_true, if_false, hres]
        | some tag =>
          have hv1 : isValid t.Name = true := hv (by simp [htag])
          rw [htag] at hres
          simp only [Option.getD_some] at hres ⊢
          simp only [fillListenersLoop, ht, htag, hv1, ne_eq, not_true, if_false,
            Bool.not_true, Bool.false_eq_true, hres]
      cases k with
      | zero =>
        simp only [List.getElem?_cons_zero, Option.some.injEq] at hk
        subst hk
        rw [hstep _ (by simpa using hfail), hnames]
        simp
      | succ k1 =>
        simp only [List.getElem?_cons_succ] at hk
        obtain ⟨⟨lis, px⟩, hg⟩ := hprev 0 t (Nat.succ_pos _) (by rw [hfilter]; simp)
        rw [hstep _ (by simpa using hg), hnames]
        have key := fillListenersLoop_get_error isValid get tn rest (i + 1)
          { calls := acc.calls ++ [t.Tag.getD t.Name], fills := acc.fills ++ [(i, lis, px)],
            err := none } k1 f err hk
          (fun j g hj hg1 => hvalid (j + 1) g (Nat.succ_le_succ hj)
            (by rw [hfilter, List.getElem?_cons_succ]; exact hg1))
          (fun j g hj hg1 => by
            have := hprev (j + 1) g (Nat.succ_lt_succ hj)
              (by rw [hfilter, List.getElem?_cons_succ]; exact hg1)
            simpa [Nat.add_assoc, Nat.add_comm 1 j] using this)
          (by simpa [Nat.add_assoc, Nat.add_comm 1 k1] using hfail)
        obtain ⟨h1, h2, h3⟩ := key
        refine ⟨?_, h2, ?_⟩
        · rw [h1]
          simp
        · rw [h3]
          simp only [List.length_append, List.length_singleton]
          omega
    · have hfilter : (List.filter (fun g => decide (g.FieldType = FieldType.Listener)) (t :: rest)) =
          List.filter (fun g => decide (g.FieldType = FieldType.Listener)) rest := by
        simp [ht]
      have hnames : listenerNames (t :: rest) = listenerNames rest := by
        simp [listenerNames, ht]
      rw [hfilter] at hk hvalid hprev
      simp only [fillListenersLoop, ne_eq, ht, not_false_eq_true, if_true]
      rw [hnames]
      exact fillListenersLoop_get_error isValid get tn rest (i + 1) acc k f err hk hvalid hprev
        hfail

/-- C23 fails as stated: the struct `a` of the test program has three
`Listener` fields, but when `get` fails for the first of them `fillListeners`
returns at once and `get` is never called for the other two. -/
theorem fillListeners_stops_at_first_get_error :
    listenerNames [⟨"Implements", .Other "mx.Implements[main.A]", none⟩,
      ⟨"b", .Other "mx.Ref[main.B]", none⟩, ⟨"c", .Other "mx.Ref[main.C]", none⟩,
      ⟨"aLis1", .Listener, none⟩, ⟨"aLis2", .Listener, none⟩,
      ⟨"unused", .Listener, some "aLis3"⟩] = ["aLis1", "aLis2", "aLis3"] ∧
    fillListeners asciiIdentifier failingGet structA =
      ⟨["aLis1"], [],
        some (.Wrap "FillListener: setting field main.a.aLis1" (.Other "address in use"))⟩ := by
  decide

/-- C23, as the code has it: for a pointer to a struct, the names that
`fillListeners` passes to `get` are, in field declaration order, those of
the `Listener` fields (the `mx` tag if the field has one, the field's name
otherwise), one call per field, up to the first field at which it returns an
error; fields of other types cause no call.  When it returns no error every
`Listener` field got its call, and it returns no error when `get` never fails
and the names of tagged fields pass `isValidListenerName`.  When the call of
`get` for the `Listener` field number `k` (from 0) is the first to fail, the
calls made are exactly those for the `Listener` fields 0 to `k`, the failing
one included, none for a later field; the error returned is the error of
`get` wrapped with the name of that field, and the `k` fields before it have
been set. -/
theorem fillListeners_calls_get_in_field_order (isValid : String → Bool) (get : GetFn)
    (tn : String) (fields : List StructField) :
    (fillListeners isValid get (.PointerToStruct tn fields)).calls <+: listenerNames fields ∧
    ((fillListeners isValid get (.PointerToStruct tn fields)).err = none →
      (fillListeners isValid get (.PointerToStruct tn fields)).calls = listenerNames fields) ∧
    ((∀ f ∈ fields, f.FieldType = FieldType.Listener → f.Tag.isSome = true →
        isValid f.Name = true) →
      (∀ k name, ∃ v, get k name = .ok v) →
      (fillListeners isValid get (.PointerToStruct tn fields)).err = none ∧
      (fillListeners isValid get (.PointerToStruct tn fields)).calls = listenerNames fields) ∧
    (∀ k f err,
      (fields.filter fun g => g.FieldType = FieldType.Listener)[k]? = some f →
      (∀ j g, j ≤ k → (fields.filter fun g => g.FieldType = FieldType.Listener)[j]? = some g →
        g.Tag.isSome = true → isValid g.Name = true) →
      (∀ j g, j < k → (fields.filter fun g => g.FieldType = FieldType.Listener)[j]? = some g →
        ∃ v, get j (g.Tag.getD g.Name) = .ok v) →
      get k (f.Tag.getD f.Name) = .error err →
      (fillListeners isValid get (.PointerToStruct tn fields)).calls =
        (listenerNames fields).take (k + 1) ∧
      (fillListeners isValid get (.PointerToStruct tn fields)).err =
        some (.Wrap ("FillListener: setting field " ++ tn ++ "." ++ f.Name) err) ∧
      (fillListeners isValid get (.PointerToStruct tn fields)).fills.length = k) := by
  obtain ⟨more, h1, h2, h3⟩ := fillListenersLoop_calls isValid get tn fields 0 ⟨[], [], none⟩
  have hc : (fillListeners isValid get (.PointerToStruct tn fields)).calls = more := by
    simp only [fillListeners]
    rw [h1]
    rfl
  refine ⟨by rw [hc]; exact h2, fun h => by rw [hc]; exact h3 h, fun hvalid hget => ?_, ?_⟩
  · have herr := fillListenersLoop_ok isValid get tn hget fields 0 ⟨[], [], none⟩ hvalid rfl
    exact ⟨herr, by rw [hc]; exact h3 herr⟩
  · intro k f err hk hvalid hprev hfail
    have key := fillListenersLoop_get_error isValid get tn fields 0 ⟨[], [], none⟩ k f err hk
      hvalid (by simpa using hprev) (by simpa using hfail)
    simpa [fillListeners] using key

theorem fillListeners_calls_get_in_field_order_witness :
    ((fillListeners asciiIdentifier sampleGet structB).err = none ∧
      (fillListeners asciiIdentifier sampleGet structB).calls = ["Listener"]) ∧
    ((fillListeners asciiIdentifier failingGet structA).calls =
        (listenerNames [⟨"Implements", .Other "mx.Implements[main.A]", none⟩,
          ⟨"b", .Other "mx.Ref[main.B]", none⟩, ⟨"c", .Other "mx.Ref[main.C]", none⟩,
          ⟨"aLis1", .Listener, none⟩, ⟨"aLis2", .Listener, none⟩,
          ⟨"unused", .Listener, some "aLis3"⟩]).take 1 ∧
      (fillListeners asciiIdentifier failingGet structA).err =
        some (.Wrap ("FillListener: setting field " ++ "main.a" ++ "." ++ "aLis1")
          (.Other "address in use")) ∧
      (fillListeners asciiIdentifier failingGet structA).fills.length = 0) :=
  ⟨⟨by decide,
    (fillListeners_calls_get_in_field_order asciiIdentifier sampleGet "main.b"
      [⟨"Listener", .Listener, none⟩, ⟨"Implements", .Other "mx.Implements[main.B]", none⟩]).2.1
      (by decide)⟩,
    (fillListeners_calls_get_in_field_order asciiIdentifier failingGet "main.a"
      [⟨"Implements", .Other "mx.Implements[main.A]", none⟩,
        ⟨"b", .Other "mx.Ref[main.B]", none⟩, ⟨"c", .Other "mx.Ref[main.C]", none⟩,
        ⟨"aLis1", .Listener, none⟩, ⟨"aLis2", .Listener, none⟩,
        ⟨"unused", .Listener, some "aLis3"⟩]).2.2.2 0 ⟨"aLis1", .Listener, none⟩
      (.Other "address in use") (by decide)
      (fun j g hj hg hs => by
        obtain rfl : j = 0 := Nat.le_zero.mp hj
        have h0 : (List.filter (fun (g : StructField) => decide (g.FieldType = FieldType.Listener))
            [⟨"Implements", .Other "mx.Implements[main.A]", none⟩,
              ⟨"b", .Other "mx.Ref[main.B]", none⟩, ⟨"c", .Other "mx.Ref[main.C]", none⟩,
              ⟨"aLis1", .Listener, none⟩, ⟨"aLis2", .Listener, none⟩,
              ⟨"unused", .Listener, some "aLis3"⟩])[0]? = some ⟨"aLis1", .Listener, none⟩ := by
          decide
        rw [h0] at hg
        obtain rfl := Option.some.inj hg
        exact absurd hs (by decide))
      (fun j g hj => absurd hj (Nat.not_lt_zero j)) rfl⟩

/-- C26 at the failing input: a `Listener` field named `lis` carries the tag
"not-an-identifier"; `fillListeners` checks the field's name, not the tag, so
it returns no error and calls `get` with the tag. -/
theorem fillListeners_accepts_invalid_tag :
    asciiIdentifier "lis" = true ∧ asciiIdentifier "not-an-identifier" = false ∧
    fillListeners asciiIdentifier sampleGet structBadTag =
      ⟨["not-an-identifier"], [(1, "lis:not-an-identifier", "proxy:not-an-identifier")],
        none⟩ := by
  decide

/-- C29: with a `get` that never fails, and field names that pass
`isValidListenerName` as the names of Go fields do, `hasListeners` is true for
a pointer to a struct exactly when `fillListeners` calls `get` at least once;
for a value that is not a pointer to a struct `hasListeners` is false and
`fillListeners` returns an error without calling `get`. -/
theorem hasListeners_iff_fillListeners_calls_get (isValid : String → Bool) (get : GetFn)
    (hget : ∀ k name, ∃ v, get k name = .ok v) :
    (∀ (tn : String) (fields : List StructField),
      (∀ f ∈ fields, f.FieldType = FieldType.Listener → f.Tag.isSome = true →
        isValid f.Name = true) →
      (hasListeners (.PointerToStruct tn fields) = true ↔
        0 < (fillListeners isValid get (.PointerToStruct tn fields)).calls.length)) ∧
    (∀ tn, hasListeners (.NotPointer tn) = false ∧
      (fillListeners isValid get (.NotPointer tn)).err ≠ none ∧
      (fillListeners isValid get (.NotPointer tn)).calls = []) ∧
    (∀ tn, hasListeners (.PointerToNonStruct tn) = false ∧
      (fillListeners isValid get (.PointerToNonStruct tn)).err ≠ none ∧
      (fillListeners isValid get (.PointerToNonStruct tn)).calls = []) := by
  refine ⟨?_, fun tn => ⟨rfl, by simp [fillListeners], rfl⟩,
    fun tn => ⟨rfl, by simp [fillListeners], rfl⟩⟩
  intro tn fields hvalid
  obtain ⟨more, h1, _, h3⟩ := fillListenersLoop_calls isValid get tn fields 0 ⟨[], [], none⟩
  have herr := fillListenersLoop_ok isValid get tn hget fields 0 ⟨[], [], none⟩ hvalid rfl
  have hc : (fillListeners isValid get (.PointerToStruct tn fields)).calls =
      listenerNames fields := by
    simp only [fillListeners]
    rw [h1, h3 herr]
    rfl
  rw [hc]
  simp only [hasListeners, listenerNames, List.length_map, List.any_eq_true, decide_eq_true_eq,
    List.length_pos]
  constructor
  · rintro ⟨f, hf, hty⟩ hnil
    have : f ∈ fields.filter fun f => decide (f.FieldType = FieldType.Listener) := by
      simp [List.mem_filter, hf, hty]
    rw [hnil] at this
    simp at this
  · intro hne
    obtain ⟨f, hf⟩ := List.exists_mem_of_ne_nil _ hne
    simp only [List.mem_filter, decide_eq_true_eq] at hf
    exact ⟨f, hf.1, hf.2⟩

theorem hasListeners_iff_fillListeners_calls_get_witness :
    (∀ k name, ∃ v, sampleGet k name = .ok v) ∧
    (hasListeners structA = true ↔
      0 < (fillListeners asciiIdentifier sampleGet structA).calls.length) :=
  ⟨fun _ _ => ⟨_, rfl⟩,
    (hasListeners_iff_fillListeners_calls_get asciiIdentifier sampleGet
      (fun _ _ => ⟨_, rfl⟩)).1 "main.a" _ (by decide)⟩

/-! ## `internal/metrics/generated.go` -/

/-- C24: every boundary of `GeneratedBuckets` is positive, the boundaries are
strictly increasing, each is exactly 2 times or exactly 2.5 times the one
before it, and the table of 30 boundaries starts at 1 and ends at
5000000000. -/
theorem GeneratedBuckets_grow_by_2_or_2_5 :
    (∀ b ∈ GeneratedBuckets, 0 < b) ∧
    List.Chain' (fun a b => a < b) GeneratedBuckets ∧
    List.Chain' (fun a b => b = 2 * a ∨ b = 5 / 2 * a) GeneratedBuckets ∧
    GeneratedBuckets.head? = some 1 ∧
    GeneratedBuckets.getLast? = some 5000000000 ∧
    GeneratedBuckets.length = 30 := by
  refine ⟨?_, ?_, ?_, rfl, rfl, rfl⟩
  · intro b hb
    simp only [GeneratedBuckets, List.mem_cons, List.mem_singleton, List.not_mem_nil,
      or_false] at hb
    rcases hb with h | h | h | h | h | h | h | h | h | h | h | h | h | h | h | h | h | h | h |
      h | h | h | h | h | h | h | h | h | h | h <;> rw [h] <;> norm_num
  · simp only [GeneratedBuckets, List.chain'_cons, List.chain'_singleton, and_true]
    norm_num
  · simp only [GeneratedBuckets, List.chain'_cons, List.chain'_singleton, and_true]
    norm_num

/-! ## The envelope after `Serve`, the log records, and cancellation -/

/-- C21 fails as stated: after `Serve` has returned, calls of `GetHealth`,
`GetProfile`, `GetLoad`, `GetMetrics`, `UpdateComponents` and
`UpdateRoutingInfo` are still forwarded to the node-control stub and return
what it answers, not an error. -/
theorem methods_still_forward_after_Serve :
    (applyOp logImporter ⟨sampleEnvelope, []⟩ (.Serve crashWorld)).e.GetHealth
      (.ok (some ⟨.HEALTHY⟩)) = some ⟨.HEALTHY⟩ ∧
    (applyOp logImporter ⟨sampleEnvelope, []⟩ (.Serve crashWorld)).e.GetProfile
      (fun _ => .ok (some ⟨[1, 2]⟩)) (some ⟨1, 0⟩) = .ok [1, 2] ∧
    (applyOp logImporter ⟨sampleEnvelope, []⟩ (.Serve crashWorld)).e.GetLoad
      (.ok (some ⟨some ⟨[7]⟩⟩)) = .ok (some ⟨[7]⟩) ∧
    (applyOp logImporter ⟨sampleEnvelope, []⟩ (.Serve crashWorld)).e.GetMetrics logImporter []
      (.ok (some ⟨some ⟨[3]⟩⟩)) = (.ok [⟨[0]⟩], [some ⟨[3]⟩]) ∧
    (applyOp logImporter ⟨sampleEnvelope, []⟩ (.Serve crashWorld)).e.UpdateComponents
      (fun _ => none) ["main.A"] = none ∧
    (applyOp logImporter ⟨sampleEnvelope, []⟩ (.Serve crashWorld)).e.UpdateRoutingInfo
      (fun _ => none) (some ⟨"main.A", true, []⟩) = none := by
  decide

/-- C21, as the code has it: the envelope has no closed state.  `Serve` leaves
the envelope's data and its importer as they were, and after it every method
(`GetHealth`, `GetProfile`, `GetLoad`, `GetMetrics`, `UpdateComponents`,
`UpdateRoutingInfo`) is forwarded to the node-control stub as before and
returns what the stub answers. -/
theorem Serve_leaves_methods_unchanged {σ : Type} (imp : Importer σ) (s : EnvelopeState σ)
    (w : ServeWorld) :
    (applyOp imp s (.Serve w)).e = s.e ∧ (applyOp imp s (.Serve w)).metrics = s.metrics ∧
    (∀ reply, (applyOp imp s (.Serve w)).e.GetHealth (.ok reply) = reply) ∧
    (∀ controller req reply, controller req = .ok (some reply) →
      (applyOp imp s (.Serve w)).e.GetProfile controller req = .ok reply.Data) ∧
    (∀ reply : GetLoadReply,
      (applyOp imp s (.Serve w)).e.GetLoad (.ok (some reply)) = .ok reply.Load) ∧
    (∀ reply : GetMetricsReply,
      ((applyOp imp s (.Serve w)).e.GetMetrics imp (applyOp imp s (.Serve w)).metrics
        (.ok (some reply))).2 = (imp.Import s.metrics reply.Update).2) ∧
    (∀ controller components,
      (applyOp imp s (.Serve w)).e.UpdateComponents controller components =
        controller components) ∧
    (∀ controller routing,
      (applyOp imp s (.Serve w)).e.UpdateRoutingInfo controller routing =
        controller routing) := by
  refine ⟨rfl, rfl, fun _ => rfl, ?_, fun _ => rfl, ?_, fun _ _ => rfl, fun _ _ => rfl⟩
  · intro controller req reply h
    simp only [Envelope.GetProfile, h]
  · intro reply
    simp only [applyOp, Envelope.GetMetrics]
    split <;> simp_all

theorem Serve_leaves_methods_unchanged_witness :
    (applyOp logImporter ⟨sampleEnvelope, []⟩ (.Serve crashWorld)).e = sampleEnvelope ∧
    (applyOp logImporter ⟨sampleEnvelope, []⟩ (.Serve crashWorld)).metrics = [] :=
  ⟨(Serve_leaves_methods_unchanged logImporter ⟨sampleEnvelope, []⟩ crashWorld).1,
    (Serve_leaves_methods_unchanged logImporter ⟨sampleEnvelope, []⟩ crashWorld).2.1⟩

/-- For a handler that never replaces `batch.Entries` and keeps a property
`P` of the entry that does not involve `Msg` and `TimeMicros`: every call
carries one entry, with `P` and with `TimeMicros` 0. -/
theorem logLinesLoop_entries (c : String) (h : LogBatchFn) (P : LogEntry → Prop)
    (hP : ∀ (e : LogEntry) msg t, P e → P { e with Msg := msg, TimeMicros := t })
    (hent : ∀ k en, (h k ⟨[en]⟩).entries = none)
    (hpres : ∀ k en e, (h k ⟨[en]⟩).entry = some e → P en → P e) :
    ∀ (fuel : Nat) (rdr : Reader) (entry : LogEntry) (calls : List LogEntryBatch)
      (r : CaptureResult),
      logLinesLoop c h fuel rdr entry [.own] calls = some r → P entry →
      (∀ b ∈ calls, b.Entries.length = 1 ∧ ∀ en ∈ b.Entries, P en ∧ en.TimeMicros = 0) →
      ∀ b ∈ r.calls, b.Entries.length = 1 ∧ ∀ en ∈ b.Entries, P en ∧ en.TimeMicros = 0
  | 0, _, _, _, _, hr, _, _ => by simp [logLinesLoop] at hr
  | fuel + 1, rdr, entry, calls, r, hr, hentry, hcalls => by
    have hnew : ∀ (msg : List Nat),
        ∀ b ∈ calls ++ [(⟨[{ entry with Msg := msg, TimeMicros := 0 }]⟩ : LogEntryBatch)],
        b.Entries.length = 1 ∧ ∀ en ∈ b.Entries, P en ∧ en.TimeMicros = 0 := by
      intro msg b hb
      rcases List.mem_append.mp hb with hb | hb
      · exact hcalls b hb
      · simp only [List.mem_singleton] at hb
        subst hb
        refine ⟨rfl, ?_⟩
        intro en hen
        simp only [List.mem_singleton] at hen
        subst hen
        exact ⟨hP _ _ _ hentry, rfl⟩
    cases hs : splitDelim 10 rdr.data with
    | none =>
      rw [logLinesLoop_end c h fuel rdr entry [.own] calls hs] at hr
      simp only [resolveEntries_own] at hr
      split at hr
      · split at hr <;>
        · simp only [Option.some.injEq] at hr
          subst hr
          exact hnew _
      · simp only [Option.some.injEq] at hr
        subst hr
        exact hcalls
    | some p =>
      obtain ⟨line, rest⟩ := p
      rw [logLinesLoop_found c h fuel rdr entry [.own] calls line rest hs] at hr
      simp only [resolveEntries_own, hent, Option.getD_none] at hr
      split at hr
      · simp only [Option.some.injEq] at hr
        subst hr
        exact hnew _
      · refine logLinesLoop_entries c h P hP hent hpres fuel _ _ _ r hr ?_ (hnew _)
        cases he : (h calls.length
            ⟨[{ entry with Msg := dropNewline line, TimeMicros := 0 }]⟩).entry with
        | none => simpa using hP _ _ _ hentry
        | some e => simpa using hpres _ _ _ he (hP _ _ _ hentry)

/-- C22 fails as stated: every `LogBatch` call is handed the same batch and
the same entry, and `logLines` rewrites only `Msg` and `TimeMicros` between
calls.  With a handler that never fails and fills in the source position of
the entry, the call for the second line of stderr carries the file
"child.go" and the line 7 (its `TimeMicros` is back to 0); with one that
never fails and puts a record of its own into `batch.Entries`, the call for
the second line carries that record, with its own `App`, `Version`, `Node`
and a `TimeMicros` of 42. -/
theorem logLines_handler_write_changes_identity :
    logLines sampleArgs "stderr" ⟨[97, 10, 98, 10], .EOF⟩ positionWritingHandler =
      some ⟨[⟨[LogEntry.mk "app" "dep" "stderr" "id" 0 "stderr" "" (-1) [97]]⟩,
          ⟨[LogEntry.mk "app" "dep" "stderr" "id" 0 "stderr" "child.go" 7 [98]]⟩],
        some (.Wrap "capture stderr" .EOF), ⟨[], .EOF⟩⟩ ∧
    logLines sampleArgs "stderr" ⟨[97, 10, 98, 10], .EOF⟩ replacingHandler =
      some ⟨[⟨[LogEntry.mk "app" "dep" "stderr" "id" 0 "stderr" "" (-1) [97]]⟩,
          ⟨[LogEntry.mk "sink" "v2" "sink" "n0" 42 "info" "sink.go" 3 [120]]⟩],
        some (.Wrap "capture stderr" .EOF), ⟨[], .EOF⟩⟩ := by
  decide

/-- C22, as the code has it: for every stream and every handler that never
replaces `batch.Entries`, `logLines` returns, and every `LogBatch` call it
makes carries exactly one entry, whose `TimeMicros` is 0 whatever earlier
calls wrote into the entry.  If moreover no call changes `App`, `Version`,
`Node`, `File` or `Line` of the entry, then in every call the entry has `App`,
`Version` and `Node` equal to the `App`, `DeploymentId` and `Id` of the
envelope's `MXNArgs`, an empty `File` and `Line` -1. -/
theorem logLines_entries_carry_identity (mxn : MXNArgs) (c : String) (src : Reader)
    (h : LogBatchFn) (hent : ∀ k en, (h k ⟨[en]⟩).entries = none) :
    ∃ r, logLines mxn c src h = some r ∧
      (∀ b ∈ r.calls, b.Entries.length = 1 ∧ ∀ en ∈ b.Entries, en.TimeMicros = 0) ∧
      ((∀ k en e, (h k ⟨[en]⟩).entry = some e →
          e.App = en.App ∧ e.Version = en.Version ∧ e.Node = en.Node ∧ e.File = en.File ∧
            e.Line = en.Line) →
        ∀ b ∈ r.calls, ∀ en ∈ b.Entries, en.App = mxn.App ∧ en.Version = mxn.DeploymentId ∧
          en.Node = mxn.Id ∧ en.File = "" ∧ en.Line = -1 ∧ en.TimeMicros = 0) := by
  obtain ⟨r, hr⟩ := logLines_total mxn c src h
  refine ⟨r, hr, ?_, ?_⟩
  · intro b hb
    have key := logLinesLoop_entries c h (fun _ => True) (fun _ _ _ _ => trivial) hent
      (fun _ _ _ _ _ => trivial) _ src _ [] r hr trivial (by simp) b hb
    exact ⟨key.1, fun en hen => (key.2 en hen).2⟩
  · intro hframe b hb en hen
    have key := logLinesLoop_entries c h
      (fun e => e.App = mxn.App ∧ e.Version = mxn.DeploymentId ∧ e.Node = mxn.Id ∧
        e.File = "" ∧ e.Line = -1)
      (fun _ _ _ hp => hp) hent
      (fun k en e he hp => by
        obtain ⟨h1, h2, h3, h4, h5⟩ := hframe k en e he
        exact ⟨h1.trans hp.1, h2.trans hp.2.1, h3.trans hp.2.2.1, h4.trans hp.2.2.2.1,
          h5.trans hp.2.2.2.2⟩)
      _ src _ [] r hr ⟨rfl, rfl, rfl, rfl, rfl⟩ (by simp) b hb
    obtain ⟨⟨h1, h2, h3, h4, h5⟩, h6⟩ := key.2 en hen
    exact ⟨h1, h2, h3, h4, h5, h6⟩

theorem logLines_entries_carry_identity_witness :
    ∃ r, logLines sampleArgs "stderr" ⟨[97, 10, 98, 10], .EOF⟩ timeStampingHandler = some r ∧
      (∀ b ∈ r.calls, b.Entries.length = 1 ∧ ∀ en ∈ b.Entries, en.TimeMicros = 0) ∧
      ∀ b ∈ r.calls, ∀ en ∈ b.Entries, en.App = sampleArgs.App ∧
        en.Version = sampleArgs.DeploymentId ∧ en.Node = sampleArgs.Id ∧
        en.File = "" ∧ en.Line = -1 ∧ en.TimeMicros = 0 := by
  obtain ⟨r, h1, h2, h3⟩ := logLines_entries_carry_identity sampleArgs "stderr"
    ⟨[97, 10, 98, 10], .EOF⟩ timeStampingHandler (fun _ _ => rfl)
  refine ⟨r, h1, h2, h3 ?_⟩
  intro k en e he
  simp only [timeStampingHandler, List.head?_cons, Option.map_some', Option.some.injEq] at he
  subst he
  exact ⟨rfl, rfl, rfl, rfl, rfl⟩

theorem stop_cancel_count (s : StopState) (err : Option GoError) (extra : List Event)
    (hextra : Event.Cancel ∉ extra)
    (hs : s.events.count Event.Cancel = s.stops.length) :
    (stop { s with events := s.events ++ extra } err).events.count Event.Cancel =
      (stop { s with events := s.events ++ extra } err).stops.length := by
  simp only [stop, List.count_append, List.length_append, List.length_singleton,
    List.count_eq_zero_of_not_mem hextra, hs]
  simp

theorem runTask_cancel_count (e : Envelope) (w : ServeWorld) (s s1 : StopState) (t : Task)
    (h : runTask e w s t = some s1)
    (hs : s.events.count Event.Cancel = s.stops.length) :
    s1.events.count Event.Cancel = s1.stops.length := by
  have hcap : ∀ (name : String) (src : Option Reader),
      captureTask e w name src s = some s1 →
      s1.events.count Event.Cancel = s1.stops.length := by
    intro name src hc
    unfold captureTask at hc
    split at hc
    · simp only [Option.some.injEq] at hc
      rw [← hc]
      exact hs
    · split at hc
      · simp at hc
      · next r _ =>
        simp only [Option.some.injEq] at hc
        rw [← hc]
        have := stop_cancel_count s r.err (r.calls.map (Event.LogBatch name) ++ [.TaskDone name])
          (by simp) hs
        simpa [List.append_assoc] using this
  cases t with
  | stdout => exact hcap _ _ h
  | stderr => exact hcap _ _ h
  | watcher =>
    simp only [runTask, Option.some.injEq] at h
    rw [← h]
    exact stop_cancel_count s _ [.TaskDone "watcher"] (by simp) hs
  | server =>
    simp only [runTask, Option.some.injEq] at h
    rw [← h]
    exact stop_cancel_count s _ [.TaskDone "server"] (by simp) hs

theorem runTasks_cancel_count (e : Envelope) (w : ServeWorld) :
    ∀ (ts : List Task) (s s1 : StopState), runTasks e w ts s = some s1 →
      s.events.count Event.Cancel = s.stops.length →
      s1.events.count Event.Cancel = s1.stops.length
  | [], s, s1, h, hs => by
    simp only [runTasks, Option.some.injEq] at h
    rw [← h]
    exact hs
  | t :: ts, s, s1, h, hs => by
    obtain ⟨s2, h2⟩ := runTask_total e w s t
    simp only [runTasks, h2] at h
    exact runTasks_cancel_count e w ts s2 s1 h (runTask_cancel_count e w s s2 t h2 hs)

/-- C30: on every error return of `NewEnvelope` the last thing done is the
call of the cancel function of the context it derived; on a successful return
it has not cancelled that context; and in `Serve` the context is cancelled
exactly by the calls of the stop gate, once per call (not at all when
`net.Listen` fails). -/
theorem NewEnvelope_cancels_only_on_error :
    (∀ (w : NewWorld) (wlet : Option MXNArgs) (config : Option AppConfig) (options : Options)
      (err : GoError), (NewEnvelope w wlet config options).out = .error err →
      (NewEnvelope w wlet config options).events.getLast? = some .Cancel) ∧
    (∀ (w : NewWorld) (wlet : Option MXNArgs) (config : Option AppConfig) (options : Options)
      (e : Envelope), (NewEnvelope w wlet config options).out = .ok e →
      Event.Cancel ∉ (NewEnvelope w wlet config options).events) ∧
    (∀ (e : Envelope) (sw : ServeWorld), ∃ r, Serve e sw = some r ∧
      r.events.count Event.Cancel = r.stops.length) := by
  refine ⟨?_, ?_, ?_⟩
  · intro w wlet config options err h
    have hdef : ∀ (ev : List Event) (d : String) (o : Bool),
        (ev ++ newEnvelopeDeferred (.error err) d o).getLast? = some .Cancel := by
      intro ev d o
      have : newEnvelopeDeferred (.error err) d o =
          (if o then [.RemoveAll d] else []) ++ [.Cancel] := by
        cases o <;> rfl
      rw [this, ← List.append_assoc]
      exact List.getLast?_concat _
    by_cases htmp : options.TmpDir = ""
    · cases hnt : w.newTempDir with
      | error err1 => simp only [NewEnvelope, htmp, if_true, hnt]; rfl
      | ok dir =>
        simp only [NewEnvelope, htmp, if_true, hnt] at h ⊢
        rw [h]
        exact hdef _ _ _
    · simp only [NewEnvelope, htmp, if_false] at h ⊢
      rw [h]
      exact hdef _ _ _
  · intro w wlet config options e h
    obtain ⟨dir, owned, hb, hev⟩ := NewEnvelope_ok w wlet config options e h
    obtain ⟨_, _, _, _, _, _, _, _, hevs⟩ := newEnvelopeBody_ok w wlet config dir owned e hb
    rw [hev, hevs]
    split <;> simp
  · intro e sw
    cases hl : sw.listenErr with
    | some err =>
      refine ⟨_, Serve_listen_failed e sw err hl, ?_⟩
      unfold serveCleanup
      split <;> simp
    | none =>
      obtain ⟨s1, h1⟩ := runTasks_total e sw sw.order ⟨none, false, [], [.Listen e.myUds]⟩
      have hc := runTasks_cancel_count e sw sw.order _ s1 h1 (by simp)
      refine ⟨_, Serve_eq e sw s1 hl h1, ?_⟩
      have := stop_cancel_count s1 sw.waitErr [.Wait] (by simp) hc
      simp only [List.count_append, this]
      unfold serveCleanup
      split <;> simp

theorem NewEnvelope_cancels_only_on_error_witness :
    (NewEnvelope (sampleNewWorld 9 9 9) (some sampleArgs) (some ⟨"app", "/bin/app", []⟩)
      ⟨""⟩).out = .error (.VersionMismatch ⟨0, 24, 0⟩ ⟨9, 9, 9⟩) ∧
    (NewEnvelope (sampleNewWorld 9 9 9) (some sampleArgs) (some ⟨"app", "/bin/app", []⟩)
      ⟨""⟩).events.getLast? = some .Cancel :=
  ⟨by decide, NewEnvelope_cancels_only_on_error.1 (sampleNewWorld 9 9 9) (some sampleArgs)
    (some ⟨"app", "/bin/app", []⟩) ⟨""⟩ (.VersionMismatch ⟨0, 24, 0⟩ ⟨9, 9, 9⟩) (by decide)⟩

/-! ## `wrap` -/

theorem len_append (a b : List Char) : len (a ++ b) = len a + len b := by
  simp [len, List.map_append, List.sum_append]

theorem len_cons (c : Char) (a : List Char) : len (c :: a) = c.utf8Size + len a := by
  simp [len]

theorem length_le_len : ∀ (l : List Char), l.length ≤ len l
  | [] => by simp [len]
  | c :: cs => by
    have h1 := length_le_len cs
    have h2 : 0 < c.utf8Size := Char.utf8Size_pos c
    rw [len_cons, List.length_cons]
    omega

theorem fieldsAux_word (w : List Char) (hw : ∀ c ∈ w, isSpace c = false) :
    ∀ (y cur : List Char), fieldsAux (w ++ y) cur = fieldsAux y (cur ++ w) := by
  induction w with
  | nil => intro y cur; simp
  | cons c cs ih =>
    intro y cur
    have hc : isSpace c = false := hw c (by simp)
    have hcs : ∀ d ∈ cs, isSpace d = false := fun d hd => hw d (by simp [hd])
    have hstep : fieldsAux (c :: (cs ++ y)) cur = fieldsAux (cs ++ y) (cur ++ [c]) := by
      simp only [fieldsAux, hc, Bool.false_eq_true, if_false]
    rw [List.cons_append, hstep, ih hcs y (cur ++ [c])]
    simp

theorem fieldsAux_words : ∀ (s cur : List Char), (∀ c ∈ cur, isSpace c = false) →
    ∀ w ∈ fieldsAux s cur, w ≠ [] ∧ ∀ c ∈ w, isSpace c = false
  | [], cur, hcur, w, hw => by
    simp only [fieldsAux] at hw
    split at hw
    · simp at hw
    · next hne =>
      simp only [List.mem_singleton] at hw
      subst hw
      exact ⟨hne, hcur⟩
  | c :: cs, cur, hcur, w, hw => by
    simp only [fieldsAux] at hw
    split at hw
    · split at hw
      · exact fieldsAux_words cs [] (by simp) w hw
      · next hne =>
        rcases List.mem_cons.mp hw with h | h
        · subst h
          exact ⟨hne, hcur⟩
        · exact fieldsAux_words cs [] (by simp) w h
    · next hc =>
      refine fieldsAux_words cs (cur ++ [c]) ?_ w hw
      intro d hd
      rcases List.mem_append.mp hd with h | h
      · exact hcur d h
      · simp only [List.mem_singleton] at h
        subst h
        simpa using hc

theorem Fields_words (s : List Char) :
    ∀ w ∈ Fields s, w ≠ [] ∧ ∀ c ∈ w, isSpace c = false :=
  fieldsAux_words s [] (by simp)

theorem wrapLoop_eq (n : Int) : ∀ (ws : List (List Char)) (i : Nat) (b : List Char) (k : Int),
    i ≠ 0 → wrapLoop n ws i b k = b ++ wrapRest n k ws
  | [], _, b, _, _ => by simp [wrapLoop, wrapRest]
  | w :: ws, i, b, k, hi => by
    simp only [wrapLoop, hi, if_false, wrapRest]
    split
    · rw [wrapLoop_eq n ws (i + 1) _ _ (by omega)]
      simp
    · rw [wrapLoop_eq n ws (i + 1) _ _ (by omega)]
      simp

theorem wrap_eq (s : List Char) (n : Int) :
    (Fields s = [] → wrap s n = []) ∧
    (∀ w ws, Fields s = w :: ws → wrap s n = w ++ wrapRest n (len w) ws) := by
  refine ⟨fun h => by simp [wrap, h, wrapLoop], fun w ws h => ?_⟩
  simp only [wrap, h, wrapLoop, if_true]
  rw [wrapLoop_eq n ws 1 _ _ (by omega)]
  simp

theorem fieldsAux_wrapRest (n : Int) : ∀ (ws : List (List Char)) (k : Int) (cur : List Char),
    cur ≠ [] → (∀ w ∈ ws, w ≠ [] ∧ ∀ c ∈ w, isSpace c = false) →
    fieldsAux (wrapRest n k ws) cur = cur :: ws
  | [], _, cur, hcur, _ => by simp [wrapRest, fieldsAux, hcur]
  | w :: ws, k, cur, hcur, hws => by
    have hw := hws w (by simp)
    have hrest : ∀ x ∈ ws, x ≠ [] ∧ ∀ c ∈ x, isSpace c = false :=
      fun x hx => hws x (by simp [hx])
    have h10 : isSpace (Char.ofNat 10) = true := by decide
    have h32 : isSpace (Char.ofNat 32) = true := by decide
    simp only [wrapRest]
    split
    · simp only [fieldsAux, h10, if_true, hcur, if_false]
      rw [fieldsAux_word w hw.2, List.nil_append, fieldsAux_wrapRest n ws _ w hw.1 hrest]
    · simp only [fieldsAux, h32, if_true, hcur, if_false]
      rw [fieldsAux_word w hw.2, List.nil_append, fieldsAux_wrapRest n ws _ w hw.1 hrest]

theorem Fields_wrap (s : List Char) (n : Int) : Fields (wrap s n) = Fields s := by
  cases hf : Fields s with
  | nil =>
    rw [(wrap_eq s n).1 hf]
    rfl
  | cons w ws =>
    rw [(wrap_eq s n).2 w ws hf]
    have hall := Fields_words s
    rw [hf] at hall
    have hw := hall w (by simp)
    have hrest : ∀ x ∈ ws, x ≠ [] ∧ ∀ c ∈ x, isSpace c = false :=
      fun x hx => hall x (by simp [hx])
    simp only [Fields]
    rw [fieldsAux_word w hw.2, List.nil_append, fieldsAux_wrapRest n ws _ w hw.1 hrest]

theorem wrapRest_seps (n : Int) : ∀ (ws : List (List Char)) (k : Int),
    ∃ seps : List Char, seps.length = ws.length ∧
      (∀ c ∈ seps, c = Char.ofNat 32 ∨ c = Char.ofNat 10) ∧
      wrapRest n k ws = (List.zipWith (fun c word => c :: word) seps ws).flatten
  | [], _ => ⟨[], rfl, by simp, by simp [wrapRest]⟩
  | w :: ws, k => by
    simp only [wrapRest]
    split
    · obtain ⟨seps, h1, h2, h3⟩ := wrapRest_seps n ws (len w)
      refine ⟨Char.ofNat 10 :: seps, by simp [h1], ?_, by simp [h3]⟩
      intro c hc
      rcases List.mem_cons.mp hc with h | h
      · exact Or.inr h
      · exact h2 c h
    · obtain ⟨seps, h1, h2, h3⟩ := wrapRest_seps n ws (k + len w + 1)
      refine ⟨Char.ofNat 32 :: seps, by simp [h1], ?_, by simp [h3]⟩
      intro c hc
      rcases List.mem_cons.mp hc with h | h
      · exact Or.inl h
      · exact h2 c h

theorem wrapRest_last (n : Int) : ∀ (ws : List (List Char)) (k : Int) (cur : List Char),
    cur ≠ [] → (∀ c ∈ cur, isSpace c = false) →
    (∀ w ∈ ws, w ≠ [] ∧ ∀ c ∈ w, isSpace c = false) →
    ∀ c, (cur ++ wrapRest n k ws).getLast? = some c → isSpace c = false
  | [], _, cur, _, hcur, _, c, hc => by
    simp only [wrapRest, List.append_nil] at hc
    exact hcur c (List.mem_of_getLast?_eq_some hc)
  | w :: ws, k, cur, _, _, hws, c, hc => by
    have hw := hws w (by simp)
    have hrest : ∀ x ∈ ws, x ≠ [] ∧ ∀ c ∈ x, isSpace c = false :=
      fun x hx => hws x (by simp [hx])
    have key : ∀ (sep : Char) (k1 : Int),
        (cur ++ sep :: (w ++ wrapRest n k1 ws)).getLast? = some c → isSpace c = false := by
      intro sep k1 h
      have hsplit : cur ++ sep :: (w ++ wrapRest n k1 ws) =
          (cur ++ [sep]) ++ (w ++ wrapRest n k1 ws) := by simp
      rw [hsplit, List.getLast?_append] at h
      have hne : w ++ wrapRest n k1 ws ≠ [] := by
        intro hnil
        exact hw.1 (List.append_eq_nil.mp hnil).1
      cases hl : (w ++ wrapRest n k1 ws).getLast? with
      | none => exact absurd (List.getLast?_eq_none_iff.mp hl) hne
      | some d =>
        rw [hl] at h
        have h1 : d = c := by simpa [Option.or] using h
        subst h1
        exact wrapRest_last n ws k1 w hw.1 hw.2 hrest d hl
    simp only [wrapRest] at hc
    split at hc
    · exact key _ _ hc
    · exact key _ _ hc

theorem linesAux_word (w : List Char) (hw : ∀ c ∈ w, c ≠ Char.ofNat 10) :
    ∀ (y cur : List Char), linesAux (w ++ y) cur = linesAux y (cur ++ w) := by
  induction w with
  | nil => intro y cur; simp
  | cons c cs ih =>
    intro y cur
    have hc : c ≠ Char.ofNat 10 := hw c (by simp)
    have hcs : ∀ d ∈ cs, d ≠ Char.ofNat 10 := fun d hd => hw d (by simp [hd])
    have hstep : linesAux (c :: (cs ++ y)) cur = linesAux (cs ++ y) (cur ++ [c]) := by
      simp only [linesAux, hc, if_false]
    rw [List.cons_append, hstep, ih hcs y (cur ++ [c])]
    simp

theorem not_newline_of_not_space (w : List Char) (hw : ∀ c ∈ w, isSpace c = false) :
    ∀ c ∈ w, c ≠ Char.ofNat 10 := by
  intro c hc heq
  have := hw c hc
  rw [heq] at this
  exact absurd this (by decide)

theorem linesAux_wrapRest (n : Int) (A : List (List Char)) :
    ∀ (ws : List (List Char)) (k : Int) (cur : List Char),
    ((len cur : Int) ≤ n ∨ cur ∈ A) → k = (len cur : Int) →
    (∀ w ∈ ws, w ∈ A ∧ ∀ c ∈ w, isSpace c = false) →
    ∀ l ∈ linesAux (wrapRest n k ws) cur, (len l : Int) ≤ n ∨ l ∈ A
  | [], _, cur, hcur, _, _, l, hl => by
    simp only [wrapRest, linesAux, List.mem_singleton] at hl
    subst hl
    exact hcur
  | w :: ws, k, cur, hcur, hk, hws, l, hl => by
    have hw := hws w (by simp)
    have hrest : ∀ x ∈ ws, x ∈ A ∧ ∀ c ∈ x, isSpace c = false :=
      fun x hx => hws x (by simp [hx])
    have hnl := not_newline_of_not_space w hw.2
    have h32 : Char.ofNat 32 ≠ Char.ofNat 10 := by decide
    simp only [wrapRest] at hl
    split at hl
    · simp only [linesAux, if_true] at hl
      rw [linesAux_word w hnl, List.nil_append] at hl
      rcases List.mem_cons.mp hl with h | h
      · subst h
        exact hcur
      · exact linesAux_wrapRest n A ws _ w (Or.inr hw.1) rfl hrest l h
    · next hgt =>
      simp only [linesAux, h32, if_false] at hl
      rw [linesAux_word w hnl] at hl
      have hlen : (len (cur ++ [Char.ofNat 32] ++ w) : Int) = k + len w + 1 := by
        have h1 : len [Char.ofNat 32] = 1 := by decide
        rw [len_append, len_append, h1, hk]
        push_cast
        ring
      refine linesAux_wrapRest n A ws _ _ (Or.inl ?_) hlen.symm hrest l hl
      rw [hlen]
      omega

/-- C27 fails as stated: with width 3 the word "abcdef" is put on a line of
its own, which is 6 characters long. -/
theorem wrap_keeps_long_word_whole :
    wrap "abcdef gh".toList 3 = "abcdef\ngh".toList ∧
    lines (wrap "abcdef gh".toList 3) = ["abcdef".toList, "gh".toList] ∧
    (3 : Int) < ("abcdef".toList.length : Int) := by
  decide

/-- C27, as the code has it: `wrap` never splits a word.  Every line of
`wrap(s, n)` is at most `n` bytes long, and so at most `n` characters, or
is one single word of `s` (or the empty result of an input without words). -/
theorem wrap_lines_bounded_or_single_word (s : List Char) (n : Int) :
    (∀ l ∈ lines (wrap s n),
      (len l : Int) ≤ n ∨ l ∈ Fields s ∨ (l = [] ∧ Fields s = [])) ∧
    (∀ l : List Char, l.length ≤ len l) := by
  refine ⟨?_, length_le_len⟩
  intro l hl
  cases hf : Fields s with
  | nil =>
    rw [(wrap_eq s n).1 hf] at hl
    simp only [lines, linesAux, List.mem_singleton] at hl
    exact Or.inr (Or.inr ⟨hl, rfl⟩)
  | cons w ws =>
    rw [(wrap_eq s n).2 w ws hf] at hl
    have hall := Fields_words s
    rw [hf] at hall
    have hw := hall w (by simp)
    have hrest : ∀ x ∈ ws, x ∈ w :: ws ∧ ∀ c ∈ x, isSpace c = false :=
      fun x hx => ⟨by simp [hx], (hall x (by simp [hx])).2⟩
    simp only [lines] at hl
    rw [linesAux_word w (not_newline_of_not_space w hw.2), List.nil_append] at hl
    rcases linesAux_wrapRest n (w :: ws) ws _ w (Or.inr (by simp)) rfl hrest l hl with h | h
    · exact Or.inl h
    · exact Or.inr (Or.inl h)

/-- C28: the words of `wrap(s, n)` are the words of `s` in the same order;
the result is the first word followed by each further word behind exactly one
space or one newline (and empty when `s` has no word); it neither begins nor
ends with white space; and wrapping it again with the same width gives it
back. -/
theorem wrap_only_changes_whitespace (s : List Char) (n : Int) :
    Fields (wrap s n) = Fields s ∧
    (Fields s = [] → wrap s n = []) ∧
    (∀ w ws, Fields s = w :: ws →
      ∃ seps : List Char, seps.length = ws.length ∧
        (∀ c ∈ seps, c = Char.ofNat 32 ∨ c = Char.ofNat 10) ∧
        wrap s n = w ++ (List.zipWith (fun c word => c :: word) seps ws).flatten) ∧
    (∀ c, (wrap s n).head? = some c → isSpace c = false) ∧
    (∀ c, (wrap s n).getLast? = some c → isSpace c = false) ∧
    wrap (wrap s n) n = wrap s n := by
  have hall := Fields_words s
  refine ⟨Fields_wrap s n, (wrap_eq s n).1, ?_, ?_, ?_, ?_⟩
  · intro w ws hf
    obtain ⟨seps, h1, h2, h3⟩ := wrapRest_seps n ws (len w)
    exact ⟨seps, h1, h2, by rw [(wrap_eq s n).2 w ws hf, h3]⟩
  · intro c hc
    cases hf : Fields s with
    | nil =>
      rw [(wrap_eq s n).1 hf] at hc
      simp at hc
    | cons w ws =>
      rw [hf] at hall
      have hw := hall w (by simp)
      rw [(wrap_eq s n).2 w ws hf] at hc
      cases hwl : w with
      | nil => exact absurd hwl hw.1
      | cons d ds =>
        rw [hwl] at hc
        simp only [List.cons_append, List.head?_cons, Option.some.injEq] at hc
        subst hc
        exact hw.2 d (by simp [hwl])
  · intro c hc
    cases hf : Fields s with
    | nil =>
      rw [(wrap_eq s n).1 hf] at hc
      simp at hc
    | cons w ws =>
      rw [hf] at hall
      have hw := hall w (by simp)
      rw [(wrap_eq s n).2 w ws hf] at hc
      exact wrapRest_last n ws _ w hw.1 hw.2 (fun x hx => hall x (by simp [hx])) c hc
  · simp only [wrap]
    have := Fields_wrap s n
    simp only [wrap] at this
    rw [this]

theorem wrap_only_changes_whitespace_witness :
    Fields (wrap "  mx  is\tnot a\ncommand ".toList 8) = Fields "  mx  is\tnot a\ncommand ".toList ∧
    wrap "  mx  is\tnot a\ncommand ".toList 8 = "mx is\nnot a\ncommand".toList ∧
    wrap (wrap "  mx  is\tnot a\ncommand ".toList 8) 8 =
      wrap "  mx  is\tnot a\ncommand ".toList 8 :=
  ⟨(wrap_only_changes_whitespace "  mx  is\tnot a\ncommand ".toList 8).1, by decide,
    (wrap_only_changes_whitespace "  mx  is\tnot a\ncommand ".toList 8).2.2.2.2.2⟩

theorem wrap_lines_bounded_or_single_word_witness :
    ∀ l ∈ lines (wrap "abcdef gh".toList 3),
      (len l : Int) ≤ 3 ∨ l ∈ Fields "abcdef gh".toList ∨
        (l = [] ∧ Fields "abcdef gh".toList = []) :=
  (wrap_lines_bounded_or_single_word "abcdef gh".toList 3).1

end Mx
